import Mathlib

/-!
Federation outbound queue storage (dendrite, `federationapi/storage/shared`)

A shallow embedding of `storage_pdus.go` and `storage_edus.go`.

* The SQL tables behind `d.FederationQueuePDUs`, `d.FederationQueueEDUs` and
  `d.FederationQueueJSON`, the transactional writer `d.Writer` and the cache
  `d.Cache` are interfaces whose implementations live outside the two files;
  they are modelled from the specification and marked as such.
* Go maps are iterated in an unspecified order.  A map that is ranged over is
  therefore represented by the list of its entries in the order of iteration, and
  theorems quantify over all such lists.
* `map[*receipt.Receipt]*T` is keyed by pointer identity, so every insertion adds
  a fresh entry; it is represented by the list of inserted pairs.
* `time.Now()` is an input: every reading of the clock is a parameter holding
  the Unix time in nanoseconds.
-/

namespace Dendrite

/-! ## Data model -/

abbrev ServerName := String

/-- Serialized payload bytes (`[]byte`). -/
abbrev Blob := String

/-- Go `error` values, identified with their message. -/
abbrev Error := String

/-- Modelled from the spec: the `receipt` package (section 4.1), an immutable
handle wrapping the NID of a stored payload. -/
structure Receipt where
  nid : Int
deriving DecidableEq, Repr

/-- Modelled from the spec: `receipt.NewReceipt`, a handle for a known NID. -/
def NewReceipt (nid : Int) : Receipt := ⟨nid⟩

/-- Modelled from the spec: `Receipt.GetNID`, the wrapped NID. -/
def Receipt.GetNID (r : Receipt) : Int := r.nid

/-- A row of the PDU association table. -/
structure QueuePDU where
  transactionID : String
  serverName : ServerName
  jsonNID : Int
deriving DecidableEq, Repr

/-- A row of the EDU association table. -/
structure QueueEDU where
  eduType : String
  serverName : ServerName
  jsonNID : Int
  expiresAt : Nat
deriving DecidableEq, Repr

/-- The contents of the database `d.DB`: the payload store and the two
association tables. -/
structure Tables where
  queueJSON : List (Int × Blob)
  queuePDUs : List QueuePDU
  queueEDUs : List QueueEDU
deriving DecidableEq, Repr

/-- The two NID-keyed caches of `d.Cache`, one per event kind. -/
structure Cache (P E : Type) where
  queuedPDUs : List (Int × P)
  queuedEDUs : List (Int × E)
deriving DecidableEq, Repr

/-- Storage failures.  Each field decides, from the arguments of a table
operation, whether that statement fails and with which error. -/
structure Faults where
  insertQueuePDU : ServerName → Int → Option Error
  selectQueuePDUs : ServerName → Nat → Option Error
  deleteQueuePDUs : ServerName → List Int → Option Error
  selectQueuePDUReferenceJSONCount : Int → Option Error
  insertQueueEDU : ServerName → Int → Option Error
  selectQueueEDUs : ServerName → Nat → Option Error
  deleteQueueEDUs : ServerName → List Int → Option Error
  selectQueueEDUReferenceJSONCount : Int → Option Error
  selectExpiredEDUs : Nat → Option Error
  deleteExpiredEDUs : Nat → Option Error
  selectQueueJSON : List Int → Option Error
  deleteQueueJSON : List Int → Option Error

/-- The storage on which no statement fails. -/
def noFaults : Faults where
  insertQueuePDU := fun _ _ => none
  selectQueuePDUs := fun _ _ => none
  deleteQueuePDUs := fun _ _ => none
  selectQueuePDUReferenceJSONCount := fun _ => none
  insertQueueEDU := fun _ _ => none
  selectQueueEDUs := fun _ _ => none
  deleteQueueEDUs := fun _ _ => none
  selectQueueEDUReferenceJSONCount := fun _ => none
  selectExpiredEDUs := fun _ => none
  deleteExpiredEDUs := fun _ => none
  selectQueueJSON := fun _ => none
  deleteQueueJSON := fun _ => none

/-! ## Collaborators modelled from the specification -/

/-- Modelled from the spec: `Writer.Do`, the atomic unit (glossary; section 5).
The body runs on the tables; when it returns no error its writes are committed,
otherwise they are rolled back.  The state `σ` outside the database (caches,
captured variables) is outside the rollback scope and is kept either way. -/
def WriterDo {σ : Type} (db : Tables) (out : σ)
    (f : Tables → σ → Option Error × Tables × σ) : Option Error × Tables × σ :=
  match f db out with
  | (none, txn, out') => (none, txn, out')
  | (some e, _, out') => (some e, db, out')

/-- Modelled from the spec: `FederationQueuePDUs.InsertQueuePDU` (section 4.3
`insert`), idempotent per (destination, NID). -/
def InsertQueuePDU (F : Faults) (txn : Tables) (transactionID : String)
    (serverName : ServerName) (nid : Int) : Except Error Tables :=
  match F.insertQueuePDU serverName nid with
  | some e => .error e
  | none =>
    if txn.queuePDUs.any (fun r => r.serverName = serverName ∧ r.jsonNID = nid) then .ok txn
    else .ok { txn with queuePDUs := txn.queuePDUs ++ [⟨transactionID, serverName, nid⟩] }

/-- Modelled from the spec: `FederationQueuePDUs.SelectQueuePDUs` (section 4.3
`selectPending`), up to `limit` NIDs of the destination in ascending order. -/
def SelectQueuePDUs (F : Faults) (txn : Tables) (serverName : ServerName) (limit : Nat) :
    Except Error (List Int) :=
  match F.selectQueuePDUs serverName limit with
  | some e => .error e
  | none =>
    .ok ((((txn.queuePDUs.filter (fun r => r.serverName = serverName)).map
      QueuePDU.jsonNID).insertionSort (· ≤ ·)).take limit)

/-- Modelled from the spec: `FederationQueuePDUs.DeleteQueuePDUs` (section 4.3
`deleteMany`), removes the named associations of that destination only. -/
def DeleteQueuePDUs (F : Faults) (txn : Tables) (serverName : ServerName) (nids : List Int) :
    Except Error Tables :=
  match F.deleteQueuePDUs serverName nids with
  | some e => .error e
  | none =>
    .ok { txn with queuePDUs :=
      txn.queuePDUs.filter (fun r => ¬ (r.serverName = serverName ∧ r.jsonNID ∈ nids)) }

/-- Modelled from the spec: `FederationQueuePDUs.SelectQueuePDUReferenceJSONCount`
(section 4.3 `referenceCount`), the number of PDU associations of the NID. -/
def SelectQueuePDUReferenceJSONCount (F : Faults) (txn : Tables) (nid : Int) :
    Except Error Nat :=
  match F.selectQueuePDUReferenceJSONCount nid with
  | some e => .error e
  | none => .ok (txn.queuePDUs.countP (fun r => r.jsonNID = nid))

/-- Modelled from the spec: `FederationQueueEDUs.InsertQueueEDU` (section 4.3
`insert`), idempotent per (destination, NID). -/
def InsertQueueEDU (F : Faults) (txn : Tables) (eduType : String)
    (serverName : ServerName) (nid : Int) (expiresAt : Nat) : Except Error Tables :=
  match F.insertQueueEDU serverName nid with
  | some e => .error e
  | none =>
    if txn.queueEDUs.any (fun r => r.serverName = serverName ∧ r.jsonNID = nid) then .ok txn
    else .ok { txn with queueEDUs := txn.queueEDUs ++ [⟨eduType, serverName, nid, expiresAt⟩] }

/-- Modelled from the spec: `FederationQueueEDUs.SelectQueueEDUs` (section 4.3
`selectPending`), up to `limit` NIDs of the destination in ascending order. -/
def SelectQueueEDUs (F : Faults) (txn : Tables) (serverName : ServerName) (limit : Nat) :
    Except Error (List Int) :=
  match F.selectQueueEDUs serverName limit with
  | some e => .error e
  | none =>
    .ok ((((txn.queueEDUs.filter (fun r => r.serverName = serverName)).map
      QueueEDU.jsonNID).insertionSort (· ≤ ·)).take limit)

/-- Modelled from the spec: `FederationQueueEDUs.DeleteQueueEDUs` (section 4.3
`deleteMany`), removes the named associations of that destination only. -/
def DeleteQueueEDUs (F : Faults) (txn : Tables) (serverName : ServerName) (nids : List Int) :
    Except Error Tables :=
  match F.deleteQueueEDUs serverName nids with
  | some e => .error e
  | none =>
    .ok { txn with queueEDUs :=
      txn.queueEDUs.filter (fun r => ¬ (r.serverName = serverName ∧ r.jsonNID ∈ nids)) }

/-- Modelled from the spec: `FederationQueueEDUs.SelectQueueEDUReferenceJSONCount`
(section 4.3 `referenceCount`), the number of EDU associations of the NID. -/
def SelectQueueEDUReferenceJSONCount (F : Faults) (txn : Tables) (nid : Int) :
    Except Error Nat :=
  match F.selectQueueEDUReferenceJSONCount nid with
  | some e => .error e
  | none => .ok (txn.queueEDUs.countP (fun r => r.jsonNID = nid))

/-- Modelled from the spec: the row predicate of `selectExpired` (section 4.3),
an expiry timestamp before the cutoff and not the never-expire sentinel `0`. -/
def isExpired (expiredBefore : Nat) (r : QueueEDU) : Bool :=
  decide (r.expiresAt ≠ 0) && decide (r.expiresAt < expiredBefore)

/-- Modelled from the spec: `FederationQueueEDUs.SelectExpiredEDUs` (section 4.3
`selectExpired`), the NIDs that have an expired association. -/
def SelectExpiredEDUs (F : Faults) (txn : Tables) (expiredBefore : Nat) :
    Except Error (List Int) :=
  match F.selectExpiredEDUs expiredBefore with
  | some e => .error e
  | none => .ok (((txn.queueEDUs.filter (isExpired expiredBefore)).map QueueEDU.jsonNID).dedup)

/-- Modelled from the spec: `FederationQueueEDUs.DeleteExpiredEDUs` (section 4.7
step 4), deletes the expired association rows. -/
def TableDeleteExpiredEDUs (F : Faults) (txn : Tables) (expiredBefore : Nat) :
    Except Error Tables :=
  match F.deleteExpiredEDUs expiredBefore with
  | some e => .error e
  | none =>
    .ok { txn with queueEDUs := txn.queueEDUs.filter (fun r => ¬ isExpired expiredBefore r) }

/-- Modelled from the spec: `FederationQueueJSON.SelectQueueJSON` (section 4.2
`fetchMany`), the stored blobs of the requested NIDs; NIDs not found are absent
from the result. -/
def SelectQueueJSON (F : Faults) (txn : Tables) (nids : List Int) :
    Except Error (List (Int × Blob)) :=
  match F.selectQueueJSON nids with
  | some e => .error e
  | none => .ok (txn.queueJSON.filter (fun p => p.1 ∈ nids))

/-- Modelled from the spec: `FederationQueueJSON.DeleteQueueJSON` (section 4.2
`deleteMany`), removes the payload rows of the given NIDs. -/
def DeleteQueueJSON (F : Faults) (txn : Tables) (nids : List Int) : Except Error Tables :=
  match F.deleteQueueJSON nids with
  | some e => .error e
  | none => .ok { txn with queueJSON := txn.queueJSON.filter (fun p => p.1 ∉ nids) }

section CacheOps
variable {P E : Type}

/-- Modelled from the spec: `Cache.GetFederationQueuedPDU` (section 3, cache
entry), the cached event of the NID, if any. -/
def GetFederationQueuedPDU (c : Cache P E) (nid : Int) : Option P :=
  (c.queuedPDUs.find? (fun p => p.1 = nid)).map Prod.snd

/-- Modelled from the spec: `Cache.StoreFederationQueuedPDU`. -/
def StoreFederationQueuedPDU (c : Cache P E) (nid : Int) (event : P) : Cache P E :=
  { c with queuedPDUs := (nid, event) :: c.queuedPDUs.filter (fun p => p.1 ≠ nid) }

/-- Modelled from the spec: `Cache.EvictFederationQueuedPDU`. -/
def EvictFederationQueuedPDU (c : Cache P E) (nid : Int) : Cache P E :=
  { c with queuedPDUs := c.queuedPDUs.filter (fun p => p.1 ≠ nid) }

/-- Modelled from the spec: `Cache.GetFederationQueuedEDU`. -/
def GetFederationQueuedEDU (c : Cache P E) (nid : Int) : Option E :=
  (c.queuedEDUs.find? (fun p => p.1 = nid)).map Prod.snd

/-- Modelled from the spec: `Cache.StoreFederationQueuedEDU`. -/
def StoreFederationQueuedEDU (c : Cache P E) (nid : Int) (event : E) : Cache P E :=
  { c with queuedEDUs := (nid, event) :: c.queuedEDUs.filter (fun p => p.1 ≠ nid) }

/-- Modelled from the spec: `Cache.EvictFederationQueuedEDU`. -/
def EvictFederationQueuedEDU (c : Cache P E) (nid : Int) : Cache P E :=
  { c with queuedEDUs := c.queuedEDUs.filter (fun p => p.1 ≠ nid) }

end CacheOps

/-! ## Time (`time`, `gomatrixserverlib/spec`) -/

/-- Go `time.Minute`, in nanoseconds. -/
def Minute : Int := 60 * 1000000000

/-- Go `time.Hour`, in nanoseconds. -/
def Hour : Int := 60 * Minute

/-- Library `spec.AsTimestamp`: `Timestamp(t.UnixNano() / 1000000)`, a `uint64`
count of milliseconds.  Go division truncates toward zero. -/
def AsTimestamp (unixNano : Int) : Nat :=
  ((Int.tdiv unixNano 1000000) % (2 ^ 64 : Int)).toNat

def MTyping : String := "m.typing"
def MPresence : String := "m.presence"
def MDirectToDevice : String := "m.direct_to_device"
def MDeviceListUpdate : String := "m.device_list_update"

/-! ## `storage_edus.go` -/

/-- Source `defaultExpiry`: `time.Hour * 24`. -/
def defaultExpiry : Int := Hour * 24

/-- Source `defaultExpireEDUTypes`; a Go map is a partial function on keys. -/
def defaultExpireEDUTypes : String → Option Int := fun eduType =>
  if eduType = MTyping then some Minute
  else if eduType = MPresence then some (Minute * 10)
  else none

/-- The expiry computed at the head of `AssociateEDUWithDestinations` (source
lines 42-54).  `now0` and `now1` are the two readings of `time.Now()`. -/
def eduExpiresAt (eduType : String) (expireEDUTypes : Option (String → Option Int))
    (now0 now1 : Int) : Nat :=
  let expireEDUTypes := match expireEDUTypes with
    | none => defaultExpireEDUTypes
    | some m => m
  let expiresAt := AsTimestamp (now0 + defaultExpiry)
  let expiresAt := match expireEDUTypes eduType with
    | some duration => AsTimestamp (now1 + duration)
    | none => expiresAt
  if eduType = MDirectToDevice ∨ eduType = MDeviceListUpdate then 0 else expiresAt

/-- The loop of `AssociateEDUWithDestinations` (source lines 56-67): `err` is
assigned by every iteration and returned after the last one. -/
def insertEDULoop (F : Faults) (eduType : String) (nid : Int) (expiresAt : Nat) :
    List ServerName → Tables → Option Error → Option Error × Tables
  | [], txn, err => (err, txn)
  | destination :: rest, txn, _ =>
    match InsertQueueEDU F txn eduType destination nid expiresAt with
    | .ok txn' => insertEDULoop F eduType nid expiresAt rest txn' none
    | .error e => insertEDULoop F eduType nid expiresAt rest txn (some e)

/-- Source `AssociateEDUWithDestinations`. -/
def AssociateEDUWithDestinations (F : Faults) (db : Tables) (destinations : List ServerName)
    (dbReceipt : Receipt) (eduType : String) (expireEDUTypes : Option (String → Option Int))
    (now0 now1 : Int) : Option Error × Tables :=
  let expiresAt := eduExpiresAt eduType expireEDUTypes now0 now1
  let r := WriterDo db () (fun txn u =>
    let (err, txn') := insertEDULoop F eduType dbReceipt.GetNID expiresAt destinations txn none
    (err, txn', u))
  (r.1, r.2.1)

/-- The first loop of `GetPendingEDUs` (source lines 89-96). -/
def resolveCachedEDUs {P E : Type} (c : Cache P E) :
    List Int → List (Receipt × E) → List Int → List (Receipt × E) × List Int
  | [], edus, retrieve => (edus, retrieve)
  | nid :: rest, edus, retrieve =>
    match GetFederationQueuedEDU c nid with
    | some edu => resolveCachedEDUs c rest (edus ++ [(NewReceipt nid, edu)]) retrieve
    | none => resolveCachedEDUs c rest edus (retrieve ++ [nid])

/-- The second loop of `GetPendingEDUs` (source lines 103-111). -/
def decodeEDUs {P E : Type} (unmarshal : Blob → Option E) :
    List (Int × Blob) → List (Receipt × E) → Cache P E →
      Option Error × List (Receipt × E) × Cache P E
  | [], edus, c => (none, edus, c)
  | (nid, blob) :: rest, edus, c =>
    match unmarshal blob with
    | none => (some "json.Unmarshal: invalid blob", edus, c)
    | some event =>
      decodeEDUs unmarshal rest (edus ++ [(NewReceipt nid, event)])
        (StoreFederationQueuedEDU c nid event)

/-- Source `GetPendingEDUs`.  `unmarshal` is `json.Unmarshal` into a
`gomatrixserverlib.EDU`. -/
def GetPendingEDUs {P E : Type} (F : Faults) (unmarshal : Blob → Option E) (db : Tables)
    (cache : Cache P E) (serverName : ServerName) (limit : Nat) :
    Option Error × Tables × List (Receipt × E) × Cache P E :=
  let edus : List (Receipt × E) := []
  WriterDo db (edus, cache) (fun txn out =>
    match SelectQueueEDUs F txn serverName limit with
    | .error e => (some ("SelectQueueEDUs: " ++ e), txn, out)
    | .ok nids =>
      let (edus, retrieve) := resolveCachedEDUs out.2 nids out.1 []
      match SelectQueueJSON F txn retrieve with
      | .error e => (some ("SelectQueueJSON: " ++ e), txn, (edus, out.2))
      | .ok blobs =>
        let (err, edus, c) := decodeEDUs unmarshal blobs edus out.2
        (err, txn, (edus, c)))

/-- The loop of `CleanEDUs` (source lines 139-149). -/
def collectEDUs {P E : Type} (F : Faults) (txn : Tables) :
    List Int → List Int → Cache P E → Option Error × List Int × Cache P E
  | [], deleteNIDs, c => (none, deleteNIDs, c)
  | nid :: rest, deleteNIDs, c =>
    match SelectQueueEDUReferenceJSONCount F txn nid with
    | .error e => (some ("SelectQueueEDUReferenceJSONCount: " ++ e), deleteNIDs, c)
    | .ok count =>
      if count = 0 then
        collectEDUs F txn rest (deleteNIDs ++ [nid]) (EvictFederationQueuedEDU c nid)
      else collectEDUs F txn rest deleteNIDs c

/-- Source `CleanEDUs`. -/
def CleanEDUs {P E : Type} (F : Faults) (db : Tables) (cache : Cache P E)
    (serverName : ServerName) (receipts : List Receipt) : Option Error × Tables × Cache P E :=
  if receipts.length = 0 then (some "expected receipt", db, cache)
  else
    let nids := receipts.map Receipt.GetNID
    WriterDo db cache (fun txn c =>
      match DeleteQueueEDUs F txn serverName nids with
      | .error e => (some e, txn, c)
      | .ok txn1 =>
        match collectEDUs F txn1 nids [] c with
        | (some e, _, c1) => (some e, txn1, c1)
        | (none, deleteNIDs, c1) =>
          if deleteNIDs.length > 0 then
            match DeleteQueueJSON F txn1 deleteNIDs with
            | .error e => (some ("DeleteQueueJSON: " ++ e), txn1, c1)
            | .ok txn2 => (none, txn2, c1)
          else (none, txn1, c1))

/-- Source `DeleteExpiredEDUs`.  `now` is the reading of `time.Now()` inside
the atomic unit; the captured variable `jsonNIDs` is the state outside it. -/
def DeleteExpiredEDUs {P E : Type} (F : Faults) (db : Tables) (cache : Cache P E)
    (now : Int) : Option Error × Tables × Cache P E :=
  let r := WriterDo db ([] : List Int) (fun txn _ =>
    let expiredBefore := AsTimestamp now
    match SelectExpiredEDUs F txn expiredBefore with
    | .error e => (some e, txn, [])
    | .ok jsonNIDs =>
      if jsonNIDs.length = 0 then (none, txn, jsonNIDs)
      else
        match DeleteQueueJSON F txn jsonNIDs with
        | .error e => (some e, txn, jsonNIDs)
        | .ok txn1 =>
          match TableDeleteExpiredEDUs F txn1 expiredBefore with
          | .error e => (some e, txn1, jsonNIDs)
          | .ok txn2 => (none, txn2, jsonNIDs))
  match r with
  | (some e, db', _) => (some e, db', cache)
  | (none, db', jsonNIDs) =>
    (none, db', jsonNIDs.foldl (fun c nid => EvictFederationQueuedEDU c nid) cache)

/-! ## `storage_pdus.go` -/

/-- The loop of `AssociatePDUWithDestinations` (source lines 30-40). -/
def insertPDULoop (F : Faults) (nid : Int) :
    List ServerName → Tables → Option Error → Option Error × Tables
  | [], txn, err => (err, txn)
  | destination :: rest, txn, _ =>
    match InsertQueuePDU F txn "" destination nid with
    | .ok txn' => insertPDULoop F nid rest txn' none
    | .error e => insertPDULoop F nid rest txn (some e)

/-- Source `AssociatePDUWithDestinations`. -/
def AssociatePDUWithDestinations (F : Faults) (db : Tables) (destinations : List ServerName)
    (dbReceipt : Receipt) : Option Error × Tables :=
  let r := WriterDo db () (fun txn u =>
    let (err, txn') := insertPDULoop F dbReceipt.GetNID destinations txn none
    (err, txn', u))
  (r.1, r.2.1)

/-- The first loop of `GetPendingPDUs` (source lines 67-74): cache hits go to
the result, misses to the fetch list. -/
def resolveCachedPDUs {P E : Type} (c : Cache P E) :
    List Int → List (Receipt × P) → List Int → List (Receipt × P) × List Int
  | [], events, retrieve => (events, retrieve)
  | nid :: rest, events, retrieve =>
    match GetFederationQueuedPDU c nid with
    | some event => resolveCachedPDUs c rest (events ++ [(NewReceipt nid, event)]) retrieve
    | none => resolveCachedPDUs c rest events (retrieve ++ [nid])

/-- The second loop of `GetPendingPDUs` (source lines 81-89): every blob is
deserialized, added to the result and stored in the cache; the first blob that
fails to deserialize ends the loop with an error. -/
def decodePDUs {P E : Type} (unmarshal : Blob → Option P) :
    List (Int × Blob) → List (Receipt × P) → Cache P E →
      Option Error × List (Receipt × P) × Cache P E
  | [], events, c => (none, events, c)
  | (nid, blob) :: rest, events, c =>
    match unmarshal blob with
    | none => (some "json.Unmarshal: invalid blob", events, c)
    | some event =>
      decodePDUs unmarshal rest (events ++ [(NewReceipt nid, event)])
        (StoreFederationQueuedPDU c nid event)

/-- Source `GetPendingPDUs`.  The result is the named return value `events`
together with `err`, the tables and the cache.  `unmarshal` is `json.Unmarshal`
into a `types.HeaderedEvent`. -/
def GetPendingPDUs {P E : Type} (F : Faults) (unmarshal : Blob → Option P) (db : Tables)
    (cache : Cache P E) (serverName : ServerName) (limit : Nat) :
    Option Error × Tables × List (Receipt × P) × Cache P E :=
  let events : List (Receipt × P) := []
  WriterDo db (events, cache) (fun txn out =>
    match SelectQueuePDUs F txn serverName limit with
    | .error e => (some ("SelectQueuePDUs: " ++ e), txn, out)
    | .ok nids =>
      let (events, retrieve) := resolveCachedPDUs out.2 nids out.1 []
      match SelectQueueJSON F txn retrieve with
      | .error e => (some ("SelectQueueJSON: " ++ e), txn, (events, out.2))
      | .ok blobs =>
        let (err, events, c) := decodePDUs unmarshal blobs events out.2
        (err, txn, (events, c)))

/-- The loop of `CleanPDUs` (source lines 118-128): a NID without remaining PDU
association is marked for payload deletion and evicted from the PDU cache. -/
def collectPDUs {P E : Type} (F : Faults) (txn : Tables) :
    List Int → List Int → Cache P E → Option Error × List Int × Cache P E
  | [], deleteNIDs, c => (none, deleteNIDs, c)
  | nid :: rest, deleteNIDs, c =>
    match SelectQueuePDUReferenceJSONCount F txn nid with
    | .error e => (some ("SelectQueuePDUReferenceJSONCount: " ++ e), deleteNIDs, c)
    | .ok count =>
      if count = 0 then
        collectPDUs F txn rest (deleteNIDs ++ [nid]) (EvictFederationQueuedPDU c nid)
      else collectPDUs F txn rest deleteNIDs c

/-- Source `CleanPDUs`. -/
def CleanPDUs {P E : Type} (F : Faults) (db : Tables) (cache : Cache P E)
    (serverName : ServerName) (receipts : List Receipt) : Option Error × Tables × Cache P E :=
  if receipts.length = 0 then (some "expected receipt", db, cache)
  else
    let nids := receipts.map Receipt.GetNID
    WriterDo db cache (fun txn c =>
      match DeleteQueuePDUs F txn serverName nids with
      | .error e => (some e, txn, c)
      | .ok txn1 =>
        match collectPDUs F txn1 nids [] c with
        | (some e, _, c1) => (some e, txn1, c1)
        | (none, deleteNIDs, c1) =>
          if deleteNIDs.length > 0 then
            match DeleteQueueJSON F txn1 deleteNIDs with
            | .error e => (some ("DeleteQueueJSON: " ++ e), txn1, c1)
            | .ok txn2 => (none, txn2, c1)
          else (none, txn1, c1))

/-! ## `account_data_table.go` -/

/-- A row of `syncapi_account_data_type` as scanned by
`SelectAccountDataInRange`: `id`, `room_id`, `type`. -/
structure AccountDataRow where
  id : Int
  roomID : String
  dataType : String
deriving DecidableEq, Repr

/-- Go `data[roomID]` on a `map[string][]string`, represented by the list of its
entries: the value of the key, or the nil slice when the key is absent. -/
def mapGet (data : List (String × List String)) (roomID : String) : List String :=
  match data.find? (fun p => p.1 = roomID) with
  | some p => p.2
  | none => []

/-- Go `data[roomID] = v`: replaces the value of an existing key, adds the key
otherwise. -/
def mapSet (data : List (String × List String)) (roomID : String) (v : List String) :
    List (String × List String) :=
  if data.any (fun p => p.1 = roomID) then
    data.map (fun p => if p.1 = roomID then (roomID, v) else p)
  else data ++ [(roomID, v)]

/-- The row loop of `SelectAccountDataInRange` (source lines 110-123) over the
rows delivered by the cursor; an element `.error e` is a row whose `Scan`
fails, which makes the function return at once. -/
def scanAccountData :
    List (Except Error AccountDataRow) → List (String × List String) → Int →
      List (String × List String) × Int × Option Error
  | [], data, pos => (data, pos, none)
  | .error e :: _, data, pos => (data, pos, some e)
  | .ok row :: rest, data, pos =>
    let data :=
      if (mapGet data row.roomID).length > 0 then
        mapSet data row.roomID (mapGet data row.roomID ++ [row.dataType])
      else mapSet data row.roomID [row.dataType]
    let pos := if row.id > pos then row.id else pos
    scanAccountData rest data pos

/-- Source `SelectAccountDataInRange`.  `low` and `high` are `r.Low()` and
`r.High()`; `prepareErr` and `queryErr` are the outcomes of `prepareWithFilters`
and `QueryContext`; `cursor` is the sequence of rows returned by the query and
`rowsErr` the value of `rows.Err()`.  The result is `(data, pos, err)`. -/
def SelectAccountDataInRange (low high : Int) (prepareErr queryErr : Option Error)
    (cursor : List (Except Error AccountDataRow)) (rowsErr : Option Error) :
    List (String × List String) × Int × Option Error :=
  let data : List (String × List String) := []
  let pos := low
  match prepareErr with
  | some e => (data, pos, some e)
  | none =>
    match queryErr with
    | some e => (data, pos, some e)
    | none =>
      match scanAccountData cursor data pos with
      | (data, pos, some e) => (data, pos, some e)
      | (data, pos, none) =>
        let pos := if data.length = 0 then high else pos
        (data, pos, rowsErr)

/-! ## Derived notions used in the statements -/

/-- The payload store has a row for the NID. -/
def hasPayload (t : Tables) (nid : Int) : Bool := t.queueJSON.any (fun p => p.1 = nid)

/-- Number of PDU associations (any destination) referencing the NID. -/
def pduRefs (t : Tables) (nid : Int) : Nat := t.queuePDUs.countP (fun r => r.jsonNID = nid)

/-- Number of EDU associations (any destination) referencing the NID. -/
def eduRefs (t : Tables) (nid : Int) : Nat := t.queueEDUs.countP (fun r => r.jsonNID = nid)

/-- The reference-count invariant of the payload store: a payload row exists
exactly when some association of either kind references its NID. -/
def RefInvariant (t : Tables) : Prop :=
  ∀ nid : Int, hasPayload t nid = true ↔ 0 < pduRefs t nid + eduRefs t nid

/-- The PDU cache holds an entry for the NID. -/
def cachedPDU {P E : Type} (c : Cache P E) (nid : Int) : Bool :=
  (GetFederationQueuedPDU c nid).isSome

/-- The EDU cache holds an entry for the NID. -/
def cachedEDU {P E : Type} (c : Cache P E) (nid : Int) : Bool :=
  (GetFederationQueuedEDU c nid).isSome

/-- Every NID held in the PDU cache has a payload row. -/
def PDUCacheBacked {P E : Type} (t : Tables) (c : Cache P E) : Prop :=
  ∀ nid : Int, cachedPDU c nid = true → hasPayload t nid = true

/-- Every NID held in the EDU cache has a payload row. -/
def EDUCacheBacked {P E : Type} (t : Tables) (c : Cache P E) : Prop :=
  ∀ nid : Int, cachedEDU c nid = true → hasPayload t nid = true

/-! ## Concrete states and fault scenarios -/

/-- A storage on which every association insert for the given destination fails. -/
def insertFailsFor (s : ServerName) : Faults :=
  { noFaults with
    insertQueuePDU := fun d _ => if d = s then some "disk I/O error" else none
    insertQueueEDU := fun d _ => if d = s then some "disk I/O error" else none }

/-- A storage on which the reference-count queries for the given NID fail. -/
def countFailsFor (nid : Int) : Faults :=
  { noFaults with
    selectQueuePDUReferenceJSONCount := fun n => if n = nid then some "disk I/O error" else none
    selectQueueEDUReferenceJSONCount := fun n => if n = nid then some "disk I/O error" else none }

/-- One stored payload with NID 1 and no association. -/
def onePayload : Tables := ⟨[(1, "x")], [], []⟩

/-- Two payloads queued as PDUs for destination `a`. -/
def twoPDUs : Tables := ⟨[(1, "x"), (2, "y")], [⟨"", "a", 1⟩, ⟨"", "a", 2⟩], []⟩

/-- Two payloads queued as EDUs for destination `a`. -/
def twoEDUs : Tables :=
  ⟨[(1, "x"), (2, "y")], [], [⟨"m.typing", "a", 1, 0⟩, ⟨"m.typing", "a", 2, 0⟩]⟩

/-- A cache holding both NIDs 1 and 2 in both kinds. -/
def warmCache : Cache String String := ⟨[(1, "x"), (2, "y")], [(1, "x"), (2, "y")]⟩

/-- NID 1 queued as a typing EDU for `a` at time 0 and, in a separate call 30
seconds later, for `b`. -/
def mixedExpiry : Tables :=
  (AssociateEDUWithDestinations noFaults
    (AssociateEDUWithDestinations noFaults onePayload ["a"] ⟨1⟩ "m.typing" none 0 0).2
    ["b"] ⟨1⟩ "m.typing" none 30000000000 30000000000).2

/-- NID 1 queued as a PDU for `a` and `b`, NID 2 queued as an EDU for `a` and `b`
with one common expiry. -/
def fanOut : Tables :=
  ⟨[(1, "x"), (2, "y")], [⟨"", "a", 1⟩, ⟨"", "b", 1⟩],
    [⟨"m.typing", "a", 2, 60000⟩, ⟨"m.typing", "b", 2, 60000⟩]⟩

/-- NIDs 1 and 2 queued as PDUs and NIDs 3 and 4 queued as EDUs for `a`; the
blobs of NIDs 2 and 4 are malformed. -/
def corruptQueue : Tables :=
  ⟨[(1, "good"), (2, "bad"), (3, "good"), (4, "bad")],
    [⟨"", "a", 1⟩, ⟨"", "a", 2⟩],
    [⟨"m.typing", "a", 3, 0⟩, ⟨"m.typing", "a", 4, 0⟩]⟩

/-- A deserializer that rejects the blob `bad`. -/
def strictUnmarshal : Blob → Option String := fun b => if b = "bad" then none else some b

/-- The empty cache. -/
def coldCache : Cache String String := ⟨[], []⟩

/-- NID 1 queued as a PDU for `a` and, with the same receipt, as an EDU for `b`. -/
def crossKind : Tables :=
  (AssociateEDUWithDestinations noFaults
    (AssociatePDUWithDestinations noFaults onePayload ["a"] ⟨1⟩).2
    ["b"] ⟨1⟩ "m.direct_to_device" none 0 0).2

/-- An override table that lists `m.presence` only. -/
def presenceOnly : String → Option Int := fun eduType =>
  if eduType = "m.presence" then some (Minute * 5) else none

/-- NIDs 1, 2, 3 queued as PDUs and 4, 5, 6 as EDUs for `a`; only NIDs 1 and 4
have a payload row. -/
def dangling : Tables :=
  ⟨[(1, "x"), (4, "u")],
    [⟨"", "a", 1⟩, ⟨"", "a", 2⟩, ⟨"", "a", 3⟩],
    [⟨"m.typing", "a", 4, 0⟩, ⟨"m.typing", "a", 5, 0⟩, ⟨"m.typing", "a", 6, 0⟩]⟩

/-- A cache holding NID 3 as a PDU and NID 6 as an EDU. -/
def partCache : Cache String String := ⟨[(3, "z")], [(6, "w")]⟩

/-- A cache holding NID 1 as a PDU and NID 2 as an EDU. -/
def splitCache : Cache String String := ⟨[(1, "x")], [(2, "y")]⟩

/-- Three account-data rows in two rooms. -/
def threeRows : List AccountDataRow :=
  [⟨5, "!r1", "m.tag"⟩, ⟨9, "", "m.push_rules"⟩, ⟨7, "!r1", "m.fully_read"⟩]

/-! ## Theorems -/

/-- C1 (fails on the code): with destinations iterated in the order `a`, `b`, a
failing insert for `a` followed by a successful insert for `b` makes both
`AssociatePDUWithDestinations` and `AssociateEDUWithDestinations` return no
error and commit the row for `b`; the call is neither failed nor rolled back. -/
theorem C1_insert_failure_swallowed :
    AssociatePDUWithDestinations (insertFailsFor "a") onePayload ["a", "b"] ⟨1⟩
        = (none, ⟨[(1, "x")], [⟨"", "b", 1⟩], []⟩) ∧
    AssociateEDUWithDestinations (insertFailsFor "a") onePayload ["a", "b"] ⟨1⟩
        "m.direct_to_device" none 0 0
        = (none, ⟨[(1, "x")], [], [⟨"m.direct_to_device", "b", 1, 0⟩]⟩) := by
  constructor <;> decide

/-- C3: `CleanPDUs` and `CleanEDUs` called with an empty receipt list return the
error `expected receipt` and leave the tables and both caches unchanged, for
every destination, state and storage behaviour. -/
theorem C3_clean_empty_receipts {P E : Type} (F : Faults) (db : Tables) (cache : Cache P E)
    (serverName : ServerName) :
    CleanPDUs F db cache serverName [] = (some "expected receipt", db, cache) ∧
    CleanEDUs F db cache serverName [] = (some "expected receipt", db, cache) := by
  constructor <;> rfl

/-- C8 (fails on the code): when the reference-count query for the second NID
fails, `CleanPDUs` (resp. `CleanEDUs`) returns an error and the tables are
rolled back, yet NID 1 has already been evicted from the PDU (resp. EDU) cache;
the same happens when the batched payload delete fails. -/
theorem C8_eviction_before_commit :
    CleanPDUs (countFailsFor 2) twoPDUs warmCache "a" [⟨1⟩, ⟨2⟩]
        = (some "SelectQueuePDUReferenceJSONCount: disk I/O error", twoPDUs,
            ⟨[(2, "y")], [(1, "x"), (2, "y")]⟩) ∧
    CleanEDUs (countFailsFor 2) twoEDUs warmCache "a" [⟨1⟩, ⟨2⟩]
        = (some "SelectQueueEDUReferenceJSONCount: disk I/O error", twoEDUs,
            ⟨[(1, "x"), (2, "y")], [(2, "y")]⟩) ∧
    CleanPDUs { noFaults with deleteQueueJSON := fun _ => some "disk I/O error" }
        twoPDUs warmCache "a" [⟨1⟩]
        = (some "DeleteQueueJSON: disk I/O error", twoPDUs,
            ⟨[(2, "y")], [(1, "x"), (2, "y")]⟩) := by
  refine ⟨?_, ?_, ?_⟩ <;> decide

/-- C10 (fails on the code): NID 1 is associated with `a` at time 0 and with `b`
30 seconds later, so its two associations expire at 60000 and 90000.  Every
association references the stored payload.  A successful `DeleteExpiredEDUs` at
70 seconds deletes the payload row of NID 1 and the association of `a`, and
leaves the association of `b` pointing at the deleted payload. -/
theorem C10_sweep_leaves_dangling_association :
    mixedExpiry = ⟨[(1, "x")], [],
        [⟨"m.typing", "a", 1, 60000⟩, ⟨"m.typing", "b", 1, 90000⟩]⟩ ∧
    (∀ r ∈ mixedExpiry.queueEDUs, hasPayload mixedExpiry r.jsonNID = true) ∧
    DeleteExpiredEDUs noFaults mixedExpiry (⟨[], []⟩ : Cache String String) 70000000000
        = (none, ⟨[], [], [⟨"m.typing", "b", 1, 90000⟩]⟩, ⟨[], []⟩) ∧
    hasPayload (DeleteExpiredEDUs noFaults mixedExpiry
        (⟨[], []⟩ : Cache String String) 70000000000).2.1 1 = false := by
  refine ⟨?_, ?_, ?_, ?_⟩ <;> decide

/-! ### Timestamps -/

theorem asTimestamp_of_nonneg (t : Int) (h0 : 0 ≤ t) (h1 : t < 2 ^ 63) :
    (AsTimestamp t : Int) = t / 1000000 := by
  have h2 : (2 : Int) ^ 63 = 9223372036854775808 := by norm_num
  have h3 : (2 : Int) ^ 64 = 18446744073709551616 := by norm_num
  unfold AsTimestamp
  rw [Int.tdiv_eq_ediv h0 (by decide), h3]
  rw [h2] at h1
  omega

theorem defaultExpiry_eq : defaultExpiry = 86400000000000 := by decide

theorem minute_eq : Minute = 60000000000 := by decide

theorem asTimestamp_add (t d : Int) (k : Nat) (hd : d = 1000000 * k) (h0 : 0 ≤ t)
    (h1 : t + d < 2 ^ 63) : AsTimestamp (t + d) = AsTimestamp t + k := by
  have h2 : (2 : Int) ^ 63 = 9223372036854775808 := by norm_num
  have ha := asTimestamp_of_nonneg (t + d) (by omega) h1
  have hb := asTimestamp_of_nonneg t h0 (by omega)
  rw [h2] at h1
  omega

theorem asTimestamp_mono (s t : Int) (h0 : 0 ≤ s) (hst : s ≤ t) (h1 : t < 2 ^ 63) :
    AsTimestamp s ≤ AsTimestamp t := by
  have h2 : (2 : Int) ^ 63 = 9223372036854775808 := by norm_num
  have ha := asTimestamp_of_nonneg s h0 (by omega)
  have hb := asTimestamp_of_nonneg t (by omega) h1
  rw [h2] at h1
  omega

/-! ### The association loops -/

theorem insertQueueEDU_cases (F : Faults) (txn : Tables) (eduType : String)
    (d : ServerName) (nid : Int) (expiresAt : Nat) :
    (∃ e, InsertQueueEDU F txn eduType d nid expiresAt = .error e) ∨
    InsertQueueEDU F txn eduType d nid expiresAt = .ok txn ∨
    InsertQueueEDU F txn eduType d nid expiresAt =
      .ok { txn with queueEDUs := txn.queueEDUs ++ [⟨eduType, d, nid, expiresAt⟩] } := by
  unfold InsertQueueEDU
  cases F.insertQueueEDU d nid with
  | some e => exact Or.inl ⟨e, rfl⟩
  | none =>
    by_cases hany : txn.queueEDUs.any (fun r => r.serverName = d ∧ r.jsonNID = nid) = true
    · exact Or.inr (Or.inl (if_pos hany))
    · exact Or.inr (Or.inr (if_neg hany))

theorem insertEDULoop_rows (F : Faults) (eduType : String) (nid : Int) (expiresAt : Nat) :
    ∀ (ds : List ServerName) (txn : Tables) (err : Option Error),
      ∃ extra : List QueueEDU,
        (insertEDULoop F eduType nid expiresAt ds txn err).2 =
          { txn with queueEDUs := txn.queueEDUs ++ extra } ∧
        ∀ r ∈ extra, r.eduType = eduType ∧ r.jsonNID = nid ∧ r.expiresAt = expiresAt ∧
          r.serverName ∈ ds := by
  intro ds
  induction ds with
  | nil => intro txn err; exact ⟨[], by simp [insertEDULoop], by simp⟩
  | cons d rest ih =>
    intro txn err
    rcases insertQueueEDU_cases F txn eduType d nid expiresAt with ⟨e, h⟩ | h | h
    · obtain ⟨extra, h1, h2⟩ := ih txn (some e)
      refine ⟨extra, by simpa only [insertEDULoop, h] using h1, ?_⟩
      intro r hr
      obtain ⟨a, b, c, m⟩ := h2 r hr
      exact ⟨a, b, c, List.mem_cons_of_mem _ m⟩
    · obtain ⟨extra, h1, h2⟩ := ih txn none
      refine ⟨extra, by simpa only [insertEDULoop, h] using h1, ?_⟩
      intro r hr
      obtain ⟨a, b, c, m⟩ := h2 r hr
      exact ⟨a, b, c, List.mem_cons_of_mem _ m⟩
    · obtain ⟨extra, h1, h2⟩ :=
        ih { txn with queueEDUs := txn.queueEDUs ++ [⟨eduType, d, nid, expiresAt⟩] } none
      refine ⟨⟨eduType, d, nid, expiresAt⟩ :: extra, ?_, ?_⟩
      · simp only [insertEDULoop, h]
        simpa using h1
      · intro r hr
        rcases List.mem_cons.1 hr with rfl | hr
        · simp
        · obtain ⟨a, b, c, m⟩ := h2 r hr
          exact ⟨a, b, c, List.mem_cons_of_mem _ m⟩

theorem associateEDU_rows (F : Faults) (db : Tables) (destinations : List ServerName)
    (dbReceipt : Receipt) (eduType : String) (expireEDUTypes : Option (String → Option Int))
    (now0 now1 : Int) :
    ∃ extra : List QueueEDU,
      (AssociateEDUWithDestinations F db destinations dbReceipt eduType expireEDUTypes
        now0 now1).2 = { db with queueEDUs := db.queueEDUs ++ extra } ∧
      ∀ r ∈ extra, r.eduType = eduType ∧ r.jsonNID = dbReceipt.GetNID ∧
        r.expiresAt = eduExpiresAt eduType expireEDUTypes now0 now1 ∧
        r.serverName ∈ destinations := by
  obtain ⟨extra, h1, h2⟩ := insertEDULoop_rows F eduType dbReceipt.GetNID
    (eduExpiresAt eduType expireEDUTypes now0 now1) destinations db none
  cases hl : insertEDULoop F eduType dbReceipt.GetNID
      (eduExpiresAt eduType expireEDUTypes now0 now1) destinations db none with
  | mk err txn =>
    rw [hl] at h1
    cases err with
    | none =>
      refine ⟨extra, ?_, h2⟩
      simp only [AssociateEDUWithDestinations, WriterDo, hl]
      exact h1
    | some e =>
      refine ⟨[], ?_, by simp⟩
      simp only [AssociateEDUWithDestinations, WriterDo, hl]
      simp

theorem isExpired_zero (r : QueueEDU) (h : r.expiresAt = 0) (cutoff : Nat) :
    isExpired cutoff r = false := by
  simp [isExpired, h]

theorem filter_isExpired_extra (cutoff : Nat) (extra : List QueueEDU)
    (h : ∀ r ∈ extra, r.expiresAt = 0) : extra.filter (isExpired cutoff) = [] := by
  rw [List.filter_eq_nil_iff]
  intro r hr
  simp [isExpired_zero r (h r hr) cutoff]

/-- C6: for the types `m.direct_to_device` and `m.device_list_update`, whatever
the override table and the clock readings, `AssociateEDUWithDestinations`
computes the expiry 0; every association row it adds carries expiry 0 and is
not expired at any cutoff, and the set of NIDs that `SelectExpiredEDUs` returns
(what `DeleteExpiredEDUs` selects) is, at every cutoff, the same after the call
as before it. -/
theorem C6_never_expire_types (F : Faults) (db : Tables) (destinations : List ServerName)
    (dbReceipt : Receipt) (eduType : String) (expireEDUTypes : Option (String → Option Int))
    (now0 now1 : Int) (h : eduType = MDirectToDevice ∨ eduType = MDeviceListUpdate) :
    eduExpiresAt eduType expireEDUTypes now0 now1 = 0 ∧
    (∀ r ∈ (AssociateEDUWithDestinations F db destinations dbReceipt eduType expireEDUTypes
        now0 now1).2.queueEDUs,
      r ∈ db.queueEDUs ∨
        (r.jsonNID = dbReceipt.GetNID ∧ r.expiresAt = 0 ∧
          ∀ cutoff, isExpired cutoff r = false)) ∧
    (∀ (G : Faults) (cutoff : Nat),
      SelectExpiredEDUs G (AssociateEDUWithDestinations F db destinations dbReceipt eduType
        expireEDUTypes now0 now1).2 cutoff = SelectExpiredEDUs G db cutoff) := by
  have hz : eduExpiresAt eduType expireEDUTypes now0 now1 = 0 := by
    unfold eduExpiresAt
    simp [h]
  obtain ⟨extra, h1, h2⟩ := associateEDU_rows F db destinations dbReceipt eduType
    expireEDUTypes now0 now1
  have h0 : ∀ r ∈ extra, r.expiresAt = 0 := fun r hr => by rw [(h2 r hr).2.2.1, hz]
  refine ⟨hz, ?_, ?_⟩
  · intro r hr
    rw [h1] at hr
    rcases List.mem_append.1 hr with hr | hr
    · exact Or.inl hr
    · exact Or.inr ⟨(h2 r hr).2.1, h0 r hr, isExpired_zero r (h0 r hr)⟩
  · intro G cutoff
    rw [h1]
    simp [SelectExpiredEDUs, List.filter_append, filter_isExpired_extra cutoff extra h0]

/-- C6 witness: the direct-to-device type with an override table that lists it. -/
theorem C6_never_expire_types_witness :
    eduExpiresAt "m.direct_to_device" (some (fun _ => some Minute)) 5 7 = 0 ∧
    (∀ r ∈ (AssociateEDUWithDestinations noFaults onePayload ["a"] ⟨1⟩ "m.direct_to_device"
        (some (fun _ => some Minute)) 5 7).2.queueEDUs,
      r ∈ onePayload.queueEDUs ∨
        (r.jsonNID = Receipt.GetNID ⟨1⟩ ∧ r.expiresAt = 0 ∧
          ∀ cutoff, isExpired cutoff r = false)) ∧
    (∀ (G : Faults) (cutoff : Nat),
      SelectExpiredEDUs G (AssociateEDUWithDestinations noFaults onePayload ["a"] ⟨1⟩
        "m.direct_to_device" (some (fun _ => some Minute)) 5 7).2 cutoff
        = SelectExpiredEDUs G onePayload cutoff) :=
  C6_never_expire_types noFaults onePayload ["a"] ⟨1⟩ "m.direct_to_device"
    (some (fun _ => some Minute)) 5 7 (Or.inl rfl)

/-- C7: with no override table, for clock readings `now0`, `now1` of a call made
after the epoch and within the `int64` range, the expiry computed by
`AssociateEDUWithDestinations` is the call time plus 60000 ms for `m.typing`,
plus 600000 ms for `m.presence` and plus 86400000 ms for every type other than
these and the two never-expire types, and every row the call adds stores that
expiry.  A row with the typing expiry is expired at a sweep time `s` exactly
when the timestamp of `s` is later than the call timestamp plus one minute; a
row of an unrecognised type is not expired at any sweep time up to the call
time plus 24 hours. -/
theorem C7_default_expiry_windows (now0 now1 : Int)
    (h0 : 0 ≤ now0) (h0b : now0 + defaultExpiry < 2 ^ 63)
    (h1 : 0 ≤ now1) (h1b : now1 + defaultExpiry < 2 ^ 63) :
    eduExpiresAt MTyping none now0 now1 = AsTimestamp now1 + 60000 ∧
    eduExpiresAt MPresence none now0 now1 = AsTimestamp now1 + 600000 ∧
    (∀ eduType : String, eduType ≠ MTyping → eduType ≠ MPresence →
      eduType ≠ MDirectToDevice → eduType ≠ MDeviceListUpdate →
      eduExpiresAt eduType none now0 now1 = AsTimestamp now0 + 86400000) ∧
    (∀ (F : Faults) (db : Tables) (destinations : List ServerName) (dbReceipt : Receipt)
      (eduType : String),
      ∀ r ∈ (AssociateEDUWithDestinations F db destinations dbReceipt eduType none
          now0 now1).2.queueEDUs,
        r ∈ db.queueEDUs ∨ r.expiresAt = eduExpiresAt eduType none now0 now1) ∧
    (∀ (s : Int) (r : QueueEDU), r.expiresAt = eduExpiresAt MTyping none now0 now1 →
      (isExpired (AsTimestamp s) r = true ↔ AsTimestamp now1 + 60000 < AsTimestamp s)) ∧
    (∀ (eduType : String) (s : Int) (r : QueueEDU), eduType ≠ MTyping →
      eduType ≠ MPresence → eduType ≠ MDirectToDevice → eduType ≠ MDeviceListUpdate →
      r.expiresAt = eduExpiresAt eduType none now0 now1 →
      0 ≤ s → s ≤ now0 + defaultExpiry → isExpired (AsTimestamp s) r = false) := by
  have hd := defaultExpiry_eq
  have hm := minute_eq
  have hdb : (2 : Int) ^ 63 = 9223372036854775808 := by norm_num
  have ht : eduExpiresAt MTyping none now0 now1 = AsTimestamp now1 + 60000 := by
    have := asTimestamp_add now1 Minute 60000 (by rw [hm]; rfl) h1 (by omega)
    simpa [eduExpiresAt, defaultExpireEDUTypes, MTyping, MDirectToDevice,
      MDeviceListUpdate] using this
  have hp : eduExpiresAt MPresence none now0 now1 = AsTimestamp now1 + 600000 := by
    have := asTimestamp_add now1 (Minute * 10) 600000 (by rw [hm]; rfl) h1 (by omega)
    simpa [eduExpiresAt, defaultExpireEDUTypes, MTyping, MPresence, MDirectToDevice,
      MDeviceListUpdate] using this
  have ho : ∀ eduType : String, eduType ≠ MTyping → eduType ≠ MPresence →
      eduType ≠ MDirectToDevice → eduType ≠ MDeviceListUpdate →
      eduExpiresAt eduType none now0 now1 = AsTimestamp now0 + 86400000 := by
    intro ty a b c d
    have := asTimestamp_add now0 defaultExpiry 86400000 (by rw [hd]; rfl) h0 h0b
    simpa [eduExpiresAt, defaultExpireEDUTypes, a, b, c, d] using this
  refine ⟨ht, hp, ho, ?_, ?_, ?_⟩
  · intro F db destinations dbReceipt eduType r hr
    obtain ⟨extra, e1, e2⟩ := associateEDU_rows F db destinations dbReceipt eduType none
      now0 now1
    rw [e1] at hr
    rcases List.mem_append.1 hr with hr | hr
    · exact Or.inl hr
    · exact Or.inr (e2 r hr).2.2.1
  · intro s r hr
    rw [ht] at hr
    simp [isExpired, hr]
  · intro ty s r a b c d hr hs hs2
    rw [ho ty a b c d] at hr
    have e := asTimestamp_add now0 defaultExpiry 86400000 (by rw [hd]; rfl) h0 h0b
    have m := asTimestamp_mono s (now0 + defaultExpiry) hs hs2 h0b
    simp only [isExpired, hr, Bool.and_eq_false_imp, decide_eq_true_eq, decide_eq_false_iff_not]
    intro _
    omega

/-- C7 witness: a call at Unix time 1700000000 s. -/
theorem C7_default_expiry_windows_witness :
    eduExpiresAt "m.typing" none 1700000000000000000 1700000000000000000 = 1700000060000 ∧
    eduExpiresAt "m.presence" none 1700000000000000000 1700000000000000000
      = 1700000600000 ∧
    eduExpiresAt "m.receipt" none 1700000000000000000 1700000000000000000
      = 1700086400000 :=
  ⟨(C7_default_expiry_windows 1700000000000000000 1700000000000000000 (by decide)
      (by decide) (by decide) (by decide)).1.trans (by decide),
   (C7_default_expiry_windows 1700000000000000000 1700000000000000000 (by decide)
      (by decide) (by decide) (by decide)).2.1.trans (by decide),
   ((C7_default_expiry_windows 1700000000000000000 1700000000000000000 (by decide)
      (by decide) (by decide) (by decide)).2.2.1 "m.receipt" (by decide) (by decide)
      (by decide) (by decide)).trans (by decide)⟩

/-! ### The cleanup path -/

theorem hasPayload_iff (t : Tables) (n : Int) :
    hasPayload t n = true ↔ ∃ p ∈ t.queueJSON, p.1 = n := by
  simp [hasPayload]

theorem cachedPDU_iff {P E : Type} (c : Cache P E) (n : Int) :
    cachedPDU c n = true ↔ ∃ p ∈ c.queuedPDUs, p.1 = n := by
  simp [cachedPDU, GetFederationQueuedPDU]

theorem cachedEDU_iff {P E : Type} (c : Cache P E) (n : Int) :
    cachedEDU c n = true ↔ ∃ p ∈ c.queuedEDUs, p.1 = n := by
  simp [cachedEDU, GetFederationQueuedEDU]

theorem exists_key_filter {β : Type} (l : List (Int × β)) (dl : List Int) (n : Int) :
    (∃ p ∈ l.filter (fun p => decide (p.1 ∉ dl)), p.1 = n) ↔ (∃ p ∈ l, p.1 = n) ∧ n ∉ dl := by
  constructor
  · rintro ⟨p, hp, rfl⟩
    rw [List.mem_filter] at hp
    exact ⟨⟨p, hp.1, rfl⟩, by simpa using hp.2⟩
  · rintro ⟨⟨p, hp, rfl⟩, hn⟩
    exact ⟨p, List.mem_filter.2 ⟨hp, by simpa using hn⟩, rfl⟩

theorem filter_key_filter {β : Type} (l : List (Int × β)) (n : Int) (dl : List Int) :
    (l.filter (fun p => decide (p.1 ≠ n))).filter (fun p => decide (p.1 ∉ dl))
      = l.filter (fun p => decide (p.1 ∉ n :: dl)) := by
  rw [List.filter_filter]
  congr 1
  funext p
  by_cases h : p.1 = n <;> simp [h]

theorem collectPDUs_ok {P E : Type} (F : Faults) (txn : Tables) :
    ∀ (nids dl : List Int) (c : Cache P E) (dl1 : List Int) (c1 : Cache P E),
      collectPDUs F txn nids dl c = (none, dl1, c1) →
      dl1 = dl ++ nids.filter (fun n => decide (pduRefs txn n = 0)) ∧
      c1.queuedPDUs = c.queuedPDUs.filter
        (fun p => decide (p.1 ∉ nids.filter (fun n => decide (pduRefs txn n = 0)))) ∧
      c1.queuedEDUs = c.queuedEDUs := by
  intro nids
  induction nids with
  | nil =>
    intro dl c dl1 c1 h
    simp only [collectPDUs, Prod.mk.injEq, true_and] at h
    obtain ⟨rfl, rfl⟩ := h
    simp
  | cons n rest ih =>
    intro dl c dl1 c1 h
    unfold collectPDUs SelectQueuePDUReferenceJSONCount at h
    cases hF : F.selectQueuePDUReferenceJSONCount n with
    | some e => simp [hF] at h
    | none =>
      simp only [hF] at h
      by_cases hc : txn.queuePDUs.countP (fun r => decide (r.jsonNID = n)) = 0
      · rw [if_pos hc] at h
        obtain ⟨a, b, d⟩ := ih _ _ _ _ h
        have hn : pduRefs txn n = 0 := hc
        refine ⟨?_, ?_, ?_⟩
        · rw [a]; simp [List.filter_cons, hn]
        · rw [b]
          simp only [EvictFederationQueuedPDU, List.filter_cons, hn, decide_True, if_true]
          exact filter_key_filter _ _ _
        · rw [d]; rfl
      · rw [if_neg hc] at h
        obtain ⟨a, b, d⟩ := ih _ _ _ _ h
        have hn : ¬ pduRefs txn n = 0 := hc
        refine ⟨?_, ?_, d⟩
        · rw [a]; simp [List.filter_cons, hn]
        · rw [b]; simp [List.filter_cons, hn]

theorem deleteQueuePDUs_ok (F : Faults) (txn t1 : Tables) (s : ServerName) (nids : List Int)
    (h : DeleteQueuePDUs F txn s nids = .ok t1) :
    t1 = { txn with queuePDUs :=
      txn.queuePDUs.filter (fun r => ¬ (r.serverName = s ∧ r.jsonNID ∈ nids)) } := by
  unfold DeleteQueuePDUs at h
  cases hF : F.deleteQueuePDUs s nids with
  | some e => simp [hF] at h
  | none =>
    simp only [hF, Except.ok.injEq] at h
    exact h.symm

theorem deleteQueueJSON_ok (F : Faults) (txn t1 : Tables) (nids : List Int)
    (h : DeleteQueueJSON F txn nids = .ok t1) :
    t1 = { txn with queueJSON := txn.queueJSON.filter (fun p => p.1 ∉ nids) } := by
  unfold DeleteQueueJSON at h
  cases hF : F.deleteQueueJSON nids with
  | some e => simp [hF] at h
  | none =>
    simp only [hF, Except.ok.injEq] at h
    exact h.symm

theorem cleanPDUs_ok {P E : Type} (F : Faults) (db : Tables) (cache : Cache P E)
    (s : ServerName) (receipts : List Receipt) (db1 : Tables) (c1 : Cache P E)
    (h : CleanPDUs F db cache s receipts = (none, db1, c1)) :
    db1.queuePDUs = db.queuePDUs.filter
      (fun r => ¬ (r.serverName = s ∧ r.jsonNID ∈ receipts.map Receipt.GetNID)) ∧
    db1.queueEDUs = db.queueEDUs ∧
    db1.queueJSON = db.queueJSON.filter (fun p => decide (p.1 ∉
      (receipts.map Receipt.GetNID).filter (fun n => decide (pduRefs db1 n = 0)))) ∧
    c1.queuedPDUs = cache.queuedPDUs.filter (fun p => decide (p.1 ∉
      (receipts.map Receipt.GetNID).filter (fun n => decide (pduRefs db1 n = 0)))) ∧
    c1.queuedEDUs = cache.queuedEDUs := by
  unfold CleanPDUs at h
  by_cases hl : receipts.length = 0
  · simp [hl] at h
  · rw [if_neg hl] at h
    simp only [WriterDo] at h
    cases hd : DeleteQueuePDUs F db s (receipts.map Receipt.GetNID) with
    | error e => simp [hd] at h
    | ok txn1 =>
      have e1 := deleteQueuePDUs_ok F db txn1 s _ hd
      simp only [hd] at h
      cases hc : collectPDUs F txn1 (receipts.map Receipt.GetNID) [] cache with
      | mk err rest =>
        obtain ⟨dl, c2⟩ := rest
        cases err with
        | some e => simp [hc] at h
        | none =>
          obtain ⟨a, b, d⟩ := collectPDUs_ok F txn1 _ _ _ _ _ hc
          simp only [hc, List.nil_append] at h a
          by_cases hlen : dl.length > 0
          · simp only [hlen, if_true] at h
            cases hj : DeleteQueueJSON F txn1 dl with
            | error e => simp [hj] at h
            | ok txn2 =>
              have e2 := deleteQueueJSON_ok F txn1 txn2 dl hj
              simp only [hj, Prod.mk.injEq, true_and] at h
              obtain ⟨rfl, rfl⟩ := h
              have hr : ∀ n, pduRefs txn2 n = pduRefs txn1 n := by
                intro n; rw [e2]; rfl
              simp only [hr]
              rw [← a]
              refine ⟨by rw [e2, e1], by rw [e2, e1], by rw [e2, e1], b.trans (by rw [a]), d⟩
          · simp only [hlen, if_false, Prod.mk.injEq, true_and] at h
            obtain ⟨rfl, rfl⟩ := h
            have hnil : dl = [] := by
              cases dl with
              | nil => rfl
              | cons x xs => simp at hlen
            rw [← a, hnil]
            refine ⟨by rw [e1], by rw [e1], by rw [e1]; simp, ?_, d⟩
            rw [b, ← a, hnil]

theorem collectEDUs_ok {P E : Type} (F : Faults) (txn : Tables) :
    ∀ (nids dl : List Int) (c : Cache P E) (dl1 : List Int) (c1 : Cache P E),
      collectEDUs F txn nids dl c = (none, dl1, c1) →
      dl1 = dl ++ nids.filter (fun n => decide (eduRefs txn n = 0)) ∧
      c1.queuedEDUs = c.queuedEDUs.filter
        (fun p => decide (p.1 ∉ nids.filter (fun n => decide (eduRefs txn n = 0)))) ∧
      c1.queuedPDUs = c.queuedPDUs := by
  intro nids
  induction nids with
  | nil =>
    intro dl c dl1 c1 h
    simp only [collectEDUs, Prod.mk.injEq, true_and] at h
    obtain ⟨rfl, rfl⟩ := h
    simp
  | cons n rest ih =>
    intro dl c dl1 c1 h
    unfold collectEDUs SelectQueueEDUReferenceJSONCount at h
    cases hF : F.selectQueueEDUReferenceJSONCount n with
    | some e => simp [hF] at h
    | none =>
      simp only [hF] at h
      by_cases hc : txn.queueEDUs.countP (fun r => decide (r.jsonNID = n)) = 0
      · rw [if_pos hc] at h
        obtain ⟨a, b, d⟩ := ih _ _ _ _ h
        have hn : eduRefs txn n = 0 := hc
        refine ⟨?_, ?_, ?_⟩
        · rw [a]; simp [List.filter_cons, hn]
        · rw [b]
          simp only [EvictFederationQueuedEDU, List.filter_cons, hn, decide_True, if_true]
          exact filter_key_filter _ _ _
        · rw [d]; rfl
      · rw [if_neg hc] at h
        obtain ⟨a, b, d⟩ := ih _ _ _ _ h
        have hn : ¬ eduRefs txn n = 0 := hc
        refine ⟨?_, ?_, d⟩
        · rw [a]; simp [List.filter_cons, hn]
        · rw [b]; simp [List.filter_cons, hn]

theorem deleteQueueEDUs_ok (F : Faults) (txn t1 : Tables) (s : ServerName) (nids : List Int)
    (h : DeleteQueueEDUs F txn s nids = .ok t1) :
    t1 = { txn with queueEDUs :=
      txn.queueEDUs.filter (fun r => ¬ (r.serverName = s ∧ r.jsonNID ∈ nids)) } := by
  unfold DeleteQueueEDUs at h
  cases hF : F.deleteQueueEDUs s nids with
  | some e => simp [hF] at h
  | none =>
    simp only [hF, Except.ok.injEq] at h
    exact h.symm

theorem cleanEDUs_ok {P E : Type} (F : Faults) (db : Tables) (cache : Cache P E)
    (s : ServerName) (receipts : List Receipt) (db1 : Tables) (c1 : Cache P E)
    (h : CleanEDUs F db cache s receipts = (none, db1, c1)) :
    db1.queueEDUs = db.queueEDUs.filter
      (fun r => ¬ (r.serverName = s ∧ r.jsonNID ∈ receipts.map Receipt.GetNID)) ∧
    db1.queuePDUs = db.queuePDUs ∧
    db1.queueJSON = db.queueJSON.filter (fun p => decide (p.1 ∉
      (receipts.map Receipt.GetNID).filter (fun n => decide (eduRefs db1 n = 0)))) ∧
    c1.queuedEDUs = cache.queuedEDUs.filter (fun p => decide (p.1 ∉
      (receipts.map Receipt.GetNID).filter (fun n => decide (eduRefs db1 n = 0)))) ∧
    c1.queuedPDUs = cache.queuedPDUs := by
  unfold CleanEDUs at h
  by_cases hl : receipts.length = 0
  · simp [hl] at h
  · rw [if_neg hl] at h
    simp only [WriterDo] at h
    cases hd : DeleteQueueEDUs F db s (receipts.map Receipt.GetNID) with
    | error e => simp [hd] at h
    | ok txn1 =>
      have e1 := deleteQueueEDUs_ok F db txn1 s _ hd
      simp only [hd] at h
      cases hc : collectEDUs F txn1 (receipts.map Receipt.GetNID) [] cache with
      | mk err rest =>
        obtain ⟨dl, c2⟩ := rest
        cases err with
        | some e => simp [hc] at h
        | none =>
          obtain ⟨a, b, d⟩ := collectEDUs_ok F txn1 _ _ _ _ _ hc
          simp only [hc, List.nil_append] at h a
          by_cases hlen : dl.length > 0
          · simp only [hlen, if_true] at h
            cases hj : DeleteQueueJSON F txn1 dl with
            | error e => simp [hj] at h
            | ok txn2 =>
              have e2 := deleteQueueJSON_ok F txn1 txn2 dl hj
              simp only [hj, Prod.mk.injEq, true_and] at h
              obtain ⟨rfl, rfl⟩ := h
              have hr : ∀ n, eduRefs txn2 n = eduRefs txn1 n := by
                intro n; rw [e2]; rfl
              simp only [hr]
              rw [← a]
              refine ⟨by rw [e2, e1], by rw [e2, e1], by rw [e2, e1], b.trans (by rw [a]), d⟩
          · simp only [hlen, if_false, Prod.mk.injEq, true_and] at h
            obtain ⟨rfl, rfl⟩ := h
            have hnil : dl = [] := by
              cases dl with
              | nil => rfl
              | cons x xs => simp at hlen
            rw [← a, hnil]
            refine ⟨by rw [e1], by rw [e1], by rw [e1]; simp, ?_, d⟩
            rw [b, ← a, hnil]

/-! ### The draining path -/

theorem resolveCachedPDUs_eq {P E : Type} (c : Cache P E) :
    ∀ (nids : List Int) (events : List (Receipt × P)) (retrieve : List Int),
      resolveCachedPDUs c nids events retrieve =
        (events ++ nids.filterMap
            (fun n => (GetFederationQueuedPDU c n).map (fun e => (NewReceipt n, e))),
          retrieve ++ nids.filter (fun n => (GetFederationQueuedPDU c n).isNone)) := by
  intro nids
  induction nids with
  | nil => intro events retrieve; simp [resolveCachedPDUs]
  | cons n rest ih =>
    intro events retrieve
    unfold resolveCachedPDUs
    cases hg : GetFederationQueuedPDU c n with
    | some e => simp [ih, hg, List.filterMap_cons, List.filter_cons]
    | none => simp [ih, hg, List.filterMap_cons, List.filter_cons]

theorem decodePDUs_eq {P E : Type} (um : Blob → Option P) :
    ∀ (blobs : List (Int × Blob)) (events : List (Receipt × P)) (c : Cache P E),
      decodePDUs um blobs events c =
        (if blobs.all (fun p => (um p.2).isSome) then none
          else some "json.Unmarshal: invalid blob",
         events ++ (blobs.takeWhile (fun p => (um p.2).isSome)).filterMap
            (fun p => (um p.2).map (fun e => (NewReceipt p.1, e))),
         (blobs.takeWhile (fun p => (um p.2).isSome)).foldl
            (fun c p => match um p.2 with
              | some e => StoreFederationQueuedPDU c p.1 e
              | none => c) c) := by
  intro blobs
  induction blobs with
  | nil => intro events c; simp [decodePDUs]
  | cons p rest ih =>
    intro events c
    obtain ⟨n, blob⟩ := p
    unfold decodePDUs
    cases hu : um blob with
    | none => simp [hu, List.takeWhile_cons]
    | some e =>
      simp only [ih, hu, List.takeWhile_cons, List.filterMap_cons, List.all_cons,
        Option.isSome_some, Bool.true_and, if_true, Option.map_some', List.foldl_cons,
        List.append_assoc, List.singleton_append]

theorem selectQueuePDUs_mem (F : Faults) (db : Tables) (s : ServerName) (limit : Nat)
    (nids : List Int) (h : SelectQueuePDUs F db s limit = .ok nids) :
    ∀ n ∈ nids, ∃ r ∈ db.queuePDUs, r.serverName = s ∧ r.jsonNID = n := by
  unfold SelectQueuePDUs at h
  cases hF : F.selectQueuePDUs s limit with
  | some e => simp [hF] at h
  | none =>
    simp only [hF, Except.ok.injEq] at h
    intro n hn
    rw [← h] at hn
    have := (List.mem_insertionSort (· ≤ ·)).1 (List.mem_of_mem_take hn)
    simp only [List.mem_map, List.mem_filter, decide_eq_true_eq] at this
    obtain ⟨r, ⟨hr, hs⟩, hj⟩ := this
    exact ⟨r, hr, hs, hj⟩

theorem selectQueueJSON_ok (F : Faults) (db : Tables) (l : List Int)
    (blobs : List (Int × Blob)) (h : SelectQueueJSON F db l = .ok blobs) :
    blobs = db.queueJSON.filter (fun p => p.1 ∈ l) := by
  unfold SelectQueueJSON at h
  cases hF : F.selectQueueJSON l with
  | some e => simp [hF] at h
  | none =>
    simp only [hF, Except.ok.injEq] at h
    exact h.symm

theorem getPendingPDUs_eq {P E : Type} (F : Faults) (um : Blob → Option P) (db : Tables)
    (cache : Cache P E) (s : ServerName) (limit : Nat) (nids : List Int)
    (blobs : List (Int × Blob))
    (hsel : SelectQueuePDUs F db s limit = .ok nids)
    (hfetch : SelectQueueJSON F db
      (nids.filter (fun n => (GetFederationQueuedPDU cache n).isNone)) = .ok blobs) :
    GetPendingPDUs F um db cache s limit =
      (if blobs.all (fun p => (um p.2).isSome) then none
        else some "json.Unmarshal: invalid blob",
       db,
       nids.filterMap (fun n => (GetFederationQueuedPDU cache n).map
          (fun e => (NewReceipt n, e))) ++
        (blobs.takeWhile (fun p => (um p.2).isSome)).filterMap
          (fun p => (um p.2).map (fun e => (NewReceipt p.1, e))),
       (blobs.takeWhile (fun p => (um p.2).isSome)).foldl
          (fun c p => match um p.2 with
            | some e => StoreFederationQueuedPDU c p.1 e
            | none => c) cache) := by
  unfold GetPendingPDUs WriterDo
  simp only [hsel, resolveCachedPDUs_eq, List.nil_append, hfetch, decodePDUs_eq]
  by_cases hall : blobs.all (fun p => (um p.2).isSome) = true
  · simp only [hall, if_true]
  · simp only [hall]
    rfl

theorem getPendingPDUs_mem {P E : Type} (F : Faults) (um : Blob → Option P) (db : Tables)
    (cache : Cache P E) (s : ServerName) (limit : Nat) :
    ∀ x ∈ (GetPendingPDUs F um db cache s limit).2.2.1,
      ∃ r ∈ db.queuePDUs, r.serverName = s ∧ r.jsonNID = x.1.GetNID := by
  intro x hx
  cases hsel : SelectQueuePDUs F db s limit with
  | error e =>
    simp [GetPendingPDUs, WriterDo, hsel] at hx
  | ok nids =>
    have hm := selectQueuePDUs_mem F db s limit nids hsel
    cases hfetch : SelectQueueJSON F db
        (nids.filter (fun n => (GetFederationQueuedPDU cache n).isNone)) with
    | error e =>
      simp only [GetPendingPDUs, WriterDo, hsel, resolveCachedPDUs_eq, List.nil_append,
        hfetch, List.mem_filterMap, Option.map_eq_some'] at hx
      obtain ⟨n, hn, e1, _, rfl⟩ := hx
      exact hm n hn
    | ok blobs =>
      rw [getPendingPDUs_eq F um db cache s limit nids blobs hsel hfetch] at hx
      simp only [List.mem_append, List.mem_filterMap, Option.map_eq_some'] at hx
      rcases hx with ⟨n, hn, e1, _, rfl⟩ | ⟨p, hp, e1, _, rfl⟩
      · exact hm n hn
      · have hb := selectQueueJSON_ok F db _ blobs hfetch
        have hp2 := (List.takeWhile_sublist _).subset hp
        rw [hb] at hp2
        have := (List.mem_filter.1 hp2).2
        simp only [decide_eq_true_eq] at this
        exact hm p.1 (List.mem_filter.1 this).1

theorem resolveCachedEDUs_eq {P E : Type} (c : Cache P E) :
    ∀ (nids : List Int) (events : List (Receipt × E)) (retrieve : List Int),
      resolveCachedEDUs c nids events retrieve =
        (events ++ nids.filterMap
            (fun n => (GetFederationQueuedEDU c n).map (fun e => (NewReceipt n, e))),
          retrieve ++ nids.filter (fun n => (GetFederationQueuedEDU c n).isNone)) := by
  intro nids
  induction nids with
  | nil => intro events retrieve; simp [resolveCachedEDUs]
  | cons n rest ih =>
    intro events retrieve
    unfold resolveCachedEDUs
    cases hg : GetFederationQueuedEDU c n with
    | some e => simp [ih, hg, List.filterMap_cons, List.filter_cons]
    | none => simp [ih, hg, List.filterMap_cons, List.filter_cons]

theorem decodeEDUs_eq {P E : Type} (um : Blob → Option E) :
    ∀ (blobs : List (Int × Blob)) (events : List (Receipt × E)) (c : Cache P E),
      decodeEDUs um blobs events c =
        (if blobs.all (fun p => (um p.2).isSome) then none
          else some "json.Unmarshal: invalid blob",
         events ++ (blobs.takeWhile (fun p => (um p.2).isSome)).filterMap
            (fun p => (um p.2).map (fun e => (NewReceipt p.1, e))),
         (blobs.takeWhile (fun p => (um p.2).isSome)).foldl
            (fun c p => match um p.2 with
              | some e => StoreFederationQueuedEDU c p.1 e
              | none => c) c) := by
  intro blobs
  induction blobs with
  | nil => intro events c; simp [decodeEDUs]
  | cons p rest ih =>
    intro events c
    obtain ⟨n, blob⟩ := p
    unfold decodeEDUs
    cases hu : um blob with
    | none => simp [hu, List.takeWhile_cons]
    | some e =>
      simp only [ih, hu, List.takeWhile_cons, List.filterMap_cons, List.all_cons,
        Option.isSome_some, Bool.true_and, if_true, Option.map_some', List.foldl_cons,
        List.append_assoc, List.singleton_append]

theorem selectQueueEDUs_mem (F : Faults) (db : Tables) (s : ServerName) (limit : Nat)
    (nids : List Int) (h : SelectQueueEDUs F db s limit = .ok nids) :
    ∀ n ∈ nids, ∃ r ∈ db.queueEDUs, r.serverName = s ∧ r.jsonNID = n := by
  unfold SelectQueueEDUs at h
  cases hF : F.selectQueueEDUs s limit with
  | some e => simp [hF] at h
  | none =>
    simp only [hF, Except.ok.injEq] at h
    intro n hn
    rw [← h] at hn
    have := (List.mem_insertionSort (· ≤ ·)).1 (List.mem_of_mem_take hn)
    simp only [List.mem_map, List.mem_filter, decide_eq_true_eq] at this
    obtain ⟨r, ⟨hr, hs⟩, hj⟩ := this
    exact ⟨r, hr, hs, hj⟩

theorem getPendingEDUs_eq {P E : Type} (F : Faults) (um : Blob → Option E) (db : Tables)
    (cache : Cache P E) (s : ServerName) (limit : Nat) (nids : List Int)
    (blobs : List (Int × Blob))
    (hsel : SelectQueueEDUs F db s limit = .ok nids)
    (hfetch : SelectQueueJSON F db
      (nids.filter (fun n => (GetFederationQueuedEDU cache n).isNone)) = .ok blobs) :
    GetPendingEDUs F um db cache s limit =
      (if blobs.all (fun p => (um p.2).isSome) then none
        else some "json.Unmarshal: invalid blob",
       db,
       nids.filterMap (fun n => (GetFederationQueuedEDU cache n).map
          (fun e => (NewReceipt n, e))) ++
        (blobs.takeWhile (fun p => (um p.2).isSome)).filterMap
          (fun p => (um p.2).map (fun e => (NewReceipt p.1, e))),
       (blobs.takeWhile (fun p => (um p.2).isSome)).foldl
          (fun c p => match um p.2 with
            | some e => StoreFederationQueuedEDU c p.1 e
            | none => c) cache) := by
  unfold GetPendingEDUs WriterDo
  simp only [hsel, resolveCachedEDUs_eq, List.nil_append, hfetch, decodeEDUs_eq]
  by_cases hall : blobs.all (fun p => (um p.2).isSome) = true
  · simp only [hall, if_true]
  · simp only [hall]
    rfl

theorem getPendingEDUs_mem {P E : Type} (F : Faults) (um : Blob → Option E) (db : Tables)
    (cache : Cache P E) (s : ServerName) (limit : Nat) :
    ∀ x ∈ (GetPendingEDUs F um db cache s limit).2.2.1,
      ∃ r ∈ db.queueEDUs, r.serverName = s ∧ r.jsonNID = x.1.GetNID := by
  intro x hx
  cases hsel : SelectQueueEDUs F db s limit with
  | error e =>
    simp [GetPendingEDUs, WriterDo, hsel] at hx
  | ok nids =>
    have hm := selectQueueEDUs_mem F db s limit nids hsel
    cases hfetch : SelectQueueJSON F db
        (nids.filter (fun n => (GetFederationQueuedEDU cache n).isNone)) with
    | error e =>
      simp only [GetPendingEDUs, WriterDo, hsel, resolveCachedEDUs_eq, List.nil_append,
        hfetch, List.mem_filterMap, Option.map_eq_some'] at hx
      obtain ⟨n, hn, e1, _, rfl⟩ := hx
      exact hm n hn
    | ok blobs =>
      rw [getPendingEDUs_eq F um db cache s limit nids blobs hsel hfetch] at hx
      simp only [List.mem_append, List.mem_filterMap, Option.map_eq_some'] at hx
      rcases hx with ⟨n, hn, e1, _, rfl⟩ | ⟨p, hp, e1, _, rfl⟩
      · exact hm n hn
      · have hb := selectQueueJSON_ok F db _ blobs hfetch
        have hp2 := (List.takeWhile_sublist _).subset hp
        rw [hb] at hp2
        have := (List.mem_filter.1 hp2).2
        simp only [decide_eq_true_eq] at this
        exact hm p.1 (List.mem_filter.1 this).1

/-! ### Consequences for the cleanup path -/

theorem pduRefs_pos_iff (t : Tables) (n : Int) :
    0 < pduRefs t n ↔ ∃ r ∈ t.queuePDUs, r.jsonNID = n := by
  simp [pduRefs, List.countP_pos_iff]

theorem eduRefs_pos_iff (t : Tables) (n : Int) :
    0 < eduRefs t n ↔ ∃ r ∈ t.queueEDUs, r.jsonNID = n := by
  simp [eduRefs, List.countP_pos_iff]

theorem key_kept_iff {β : Type} (l l1 : List (Int × β)) (nids : List Int) (refs : Int → Nat)
    (h : l1 = l.filter (fun p => decide (p.1 ∉ nids.filter (fun n => decide (refs n = 0)))))
    (n : Int) (hn : n ∈ nids) :
    (∃ p ∈ l1, p.1 = n) ↔ (∃ p ∈ l, p.1 = n) ∧ refs n ≠ 0 := by
  rw [h, exists_key_filter]
  simp [List.mem_filter, hn]

theorem key_kept_of_not_mem {β : Type} (l l1 : List (Int × β)) (nids : List Int)
    (refs : Int → Nat)
    (h : l1 = l.filter (fun p => decide (p.1 ∉ nids.filter (fun n => decide (refs n = 0)))))
    (n : Int) (hn : n ∉ nids) :
    (∃ p ∈ l1, p.1 = n) ↔ (∃ p ∈ l, p.1 = n) := by
  rw [h, exists_key_filter]
  simp [List.mem_filter, hn]

theorem cleanPDUs_payload_iff {P E : Type} (F : Faults) (db : Tables) (cache : Cache P E)
    (s : ServerName) (receipts : List Receipt) (db1 : Tables) (c1 : Cache P E)
    (h : CleanPDUs F db cache s receipts = (none, db1, c1))
    (n : Int) (hn : n ∈ receipts.map Receipt.GetNID) :
    (hasPayload db1 n = true ↔ hasPayload db n = true ∧ pduRefs db1 n ≠ 0) ∧
    (cachedPDU c1 n = true ↔ cachedPDU cache n = true ∧ pduRefs db1 n ≠ 0) := by
  obtain ⟨_, _, hj, hc, _⟩ := cleanPDUs_ok F db cache s receipts db1 c1 h
  rw [hasPayload_iff, hasPayload_iff, cachedPDU_iff, cachedPDU_iff]
  exact ⟨key_kept_iff _ _ _ (pduRefs db1) hj n hn, key_kept_iff _ _ _ (pduRefs db1) hc n hn⟩

theorem cleanEDUs_payload_iff {P E : Type} (F : Faults) (db : Tables) (cache : Cache P E)
    (s : ServerName) (receipts : List Receipt) (db1 : Tables) (c1 : Cache P E)
    (h : CleanEDUs F db cache s receipts = (none, db1, c1))
    (n : Int) (hn : n ∈ receipts.map Receipt.GetNID) :
    (hasPayload db1 n = true ↔ hasPayload db n = true ∧ eduRefs db1 n ≠ 0) ∧
    (cachedEDU c1 n = true ↔ cachedEDU cache n = true ∧ eduRefs db1 n ≠ 0) := by
  obtain ⟨_, _, hj, hc, _⟩ := cleanEDUs_ok F db cache s receipts db1 c1 h
  rw [hasPayload_iff, hasPayload_iff, cachedEDU_iff, cachedEDU_iff]
  exact ⟨key_kept_iff _ _ _ (eduRefs db1) hj n hn, key_kept_iff _ _ _ (eduRefs db1) hc n hn⟩

theorem cleanPDUs_two_destinations {P E : Type} (F G : Faults) (db : Tables)
    (cache : Cache P E) (a b : ServerName) (n : Int) (db1 db2 : Tables) (c1 c2 : Cache P E)
    (hab : a ≠ b) (hp : hasPayload db n = true)
    (hb : ∃ r ∈ db.queuePDUs, r.serverName = b ∧ r.jsonNID = n)
    (hall : ∀ r ∈ db.queuePDUs, r.jsonNID = n → r.serverName = a ∨ r.serverName = b)
    (h1 : CleanPDUs F db cache a [⟨n⟩] = (none, db1, c1))
    (h2 : CleanPDUs G db1 c1 b [⟨n⟩] = (none, db2, c2)) :
    hasPayload db1 n = true ∧ hasPayload db2 n = false := by
  have hn : n ∈ List.map Receipt.GetNID [⟨n⟩] := by simp [Receipt.GetNID]
  obtain ⟨q1, _⟩ := cleanPDUs_ok F db cache a _ db1 c1 h1
  obtain ⟨q2, _⟩ := cleanPDUs_ok G db1 c1 b _ db2 c2 h2
  have k1 := (cleanPDUs_payload_iff F db cache a _ db1 c1 h1 n hn).1
  have k2 := (cleanPDUs_payload_iff G db1 c1 b _ db2 c2 h2 n hn).1
  have r1 : pduRefs db1 n ≠ 0 := by
    obtain ⟨r, hr, hs, hj⟩ := hb
    have : 0 < pduRefs db1 n := by
      rw [pduRefs_pos_iff, q1]
      refine ⟨r, List.mem_filter.2 ⟨hr, ?_⟩, hj⟩
      simp only [decide_eq_true_eq, not_and]
      intro hsa
      exact absurd (hsa.symm.trans hs) hab
    omega
  have r2 : pduRefs db2 n = 0 := by
    by_contra hne
    have : 0 < pduRefs db2 n := by omega
    rw [pduRefs_pos_iff, q2, q1] at this
    obtain ⟨r, hr, hj⟩ := this
    have m2 := List.mem_filter.1 hr
    have m1 := List.mem_filter.1 m2.1
    have hmem : r.jsonNID ∈ List.map Receipt.GetNID [⟨n⟩] := by rw [hj]; exact hn
    have na : ¬ r.serverName = a := fun e => by
      have := m1.2
      simp only [decide_eq_true_eq, not_and] at this
      exact this e hmem
    have nb : ¬ r.serverName = b := fun e => by
      have := m2.2
      simp only [decide_eq_true_eq, not_and] at this
      exact this e hmem
    rcases hall r m1.1 hj with e | e
    · exact na e
    · exact nb e
  refine ⟨k1.2 ⟨hp, r1⟩, ?_⟩
  cases hh : hasPayload db2 n with
  | false => rfl
  | true => exact absurd r2 (k2.1 hh).2

theorem cleanEDUs_two_destinations {P E : Type} (F G : Faults) (db : Tables)
    (cache : Cache P E) (a b : ServerName) (n : Int) (db1 db2 : Tables) (c1 c2 : Cache P E)
    (hab : a ≠ b) (hp : hasPayload db n = true)
    (hb : ∃ r ∈ db.queueEDUs, r.serverName = b ∧ r.jsonNID = n)
    (hall : ∀ r ∈ db.queueEDUs, r.jsonNID = n → r.serverName = a ∨ r.serverName = b)
    (h1 : CleanEDUs F db cache a [⟨n⟩] = (none, db1, c1))
    (h2 : CleanEDUs G db1 c1 b [⟨n⟩] = (none, db2, c2)) :
    hasPayload db1 n = true ∧ hasPayload db2 n = false := by
  have hn : n ∈ List.map Receipt.GetNID [⟨n⟩] := by simp [Receipt.GetNID]
  obtain ⟨q1, _⟩ := cleanEDUs_ok F db cache a _ db1 c1 h1
  obtain ⟨q2, _⟩ := cleanEDUs_ok G db1 c1 b _ db2 c2 h2
  have k1 := (cleanEDUs_payload_iff F db cache a _ db1 c1 h1 n hn).1
  have k2 := (cleanEDUs_payload_iff G db1 c1 b _ db2 c2 h2 n hn).1
  have r1 : eduRefs db1 n ≠ 0 := by
    obtain ⟨r, hr, hs, hj⟩ := hb
    have : 0 < eduRefs db1 n := by
      rw [eduRefs_pos_iff, q1]
      refine ⟨r, List.mem_filter.2 ⟨hr, ?_⟩, hj⟩
      simp only [decide_eq_true_eq, not_and]
      intro hsa
      exact absurd (hsa.symm.trans hs) hab
    omega
  have r2 : eduRefs db2 n = 0 := by
    by_contra hne
    have : 0 < eduRefs db2 n := by omega
    rw [eduRefs_pos_iff, q2, q1] at this
    obtain ⟨r, hr, hj⟩ := this
    have m2 := List.mem_filter.1 hr
    have m1 := List.mem_filter.1 m2.1
    have hmem : r.jsonNID ∈ List.map Receipt.GetNID [⟨n⟩] := by rw [hj]; exact hn
    have na : ¬ r.serverName = a := fun e => by
      have := m1.2
      simp only [decide_eq_true_eq, not_and] at this
      exact this e hmem
    have nb : ¬ r.serverName = b := fun e => by
      have := m2.2
      simp only [decide_eq_true_eq, not_and] at this
      exact this e hmem
    rcases hall r m1.1 hj with e | e
    · exact na e
    · exact nb e
  refine ⟨k1.2 ⟨hp, r1⟩, ?_⟩
  cases hh : hasPayload db2 n with
  | false => rfl
  | true => exact absurd r2 (k2.1 hh).2

/-- C4: after a successful `CleanPDUs` (resp. `CleanEDUs`), for every NID `n` of
the receipts, the payload row of `n` is still present exactly when it was
present before and some PDU (resp. EDU) association still references `n` in the
table left after the destination's rows were removed, and likewise `n` is still
in the PDU (resp. EDU) cache exactly when it was cached before and is still
referenced: the payload is deleted and the cache entry evicted exactly when the
remaining reference count of that kind is zero.  In particular, when the
associations of `n` are for two distinct destinations, cleaning the first keeps
the payload row and a following clean of the second removes it. -/
theorem C4_clean_deletes_unreferenced {P E : Type} (F : Faults) (db : Tables)
    (cache : Cache P E) (s : ServerName) (receipts : List Receipt) :
    (∀ (db1 : Tables) (c1 : Cache P E),
      CleanPDUs F db cache s receipts = (none, db1, c1) →
      db1.queuePDUs = db.queuePDUs.filter
        (fun r => ¬ (r.serverName = s ∧ r.jsonNID ∈ receipts.map Receipt.GetNID)) ∧
      (∀ n ∈ receipts.map Receipt.GetNID,
        (hasPayload db1 n = true ↔ hasPayload db n = true ∧ pduRefs db1 n ≠ 0) ∧
        (cachedPDU c1 n = true ↔ cachedPDU cache n = true ∧ pduRefs db1 n ≠ 0)) ∧
      (∀ (G : Faults) (b : ServerName) (n : Int) (db2 : Tables) (c2 : Cache P E),
        receipts = [⟨n⟩] → s ≠ b → hasPayload db n = true →
        (∃ r ∈ db.queuePDUs, r.serverName = b ∧ r.jsonNID = n) →
        (∀ r ∈ db.queuePDUs, r.jsonNID = n → r.serverName = s ∨ r.serverName = b) →
        CleanPDUs G db1 c1 b [⟨n⟩] = (none, db2, c2) →
        hasPayload db1 n = true ∧ hasPayload db2 n = false)) ∧
    (∀ (db1 : Tables) (c1 : Cache P E),
      CleanEDUs F db cache s receipts = (none, db1, c1) →
      db1.queueEDUs = db.queueEDUs.filter
        (fun r => ¬ (r.serverName = s ∧ r.jsonNID ∈ receipts.map Receipt.GetNID)) ∧
      (∀ n ∈ receipts.map Receipt.GetNID,
        (hasPayload db1 n = true ↔ hasPayload db n = true ∧ eduRefs db1 n ≠ 0) ∧
        (cachedEDU c1 n = true ↔ cachedEDU cache n = true ∧ eduRefs db1 n ≠ 0)) ∧
      (∀ (G : Faults) (b : ServerName) (n : Int) (db2 : Tables) (c2 : Cache P E),
        receipts = [⟨n⟩] → s ≠ b → hasPayload db n = true →
        (∃ r ∈ db.queueEDUs, r.serverName = b ∧ r.jsonNID = n) →
        (∀ r ∈ db.queueEDUs, r.jsonNID = n → r.serverName = s ∨ r.serverName = b) →
        CleanEDUs G db1 c1 b [⟨n⟩] = (none, db2, c2) →
        hasPayload db1 n = true ∧ hasPayload db2 n = false)) := by
  constructor
  · intro db1 c1 h
    refine ⟨(cleanPDUs_ok F db cache s receipts db1 c1 h).1,
      fun n hn => cleanPDUs_payload_iff F db cache s receipts db1 c1 h n hn, ?_⟩
    intro G b n db2 c2 hr hsb hp hb hall h2
    subst hr
    exact cleanPDUs_two_destinations F G db cache s b n db1 db2 c1 c2 hsb hp hb hall h h2
  · intro db1 c1 h
    refine ⟨(cleanEDUs_ok F db cache s receipts db1 c1 h).1,
      fun n hn => cleanEDUs_payload_iff F db cache s receipts db1 c1 h n hn, ?_⟩
    intro G b n db2 c2 hr hsb hp hb hall h2
    subst hr
    exact cleanEDUs_two_destinations F G db cache s b n db1 db2 c1 c2 hsb hp hb hall h h2

/-- C4 witness: NID 1 is queued as a PDU, NID 2 as an EDU, each for `a` and `b`;
cleaning `a` keeps the payload row and cleaning `b` afterwards removes it. -/
theorem C4_clean_deletes_unreferenced_witness :
    (hasPayload (CleanPDUs noFaults fanOut warmCache "a" [⟨1⟩]).2.1 1 = true ∧
      hasPayload (CleanPDUs noFaults (CleanPDUs noFaults fanOut warmCache "a" [⟨1⟩]).2.1
        (CleanPDUs noFaults fanOut warmCache "a" [⟨1⟩]).2.2 "b" [⟨1⟩]).2.1 1 = false) ∧
    (hasPayload (CleanEDUs noFaults fanOut warmCache "a" [⟨2⟩]).2.1 2 = true ∧
      hasPayload (CleanEDUs noFaults (CleanEDUs noFaults fanOut warmCache "a" [⟨2⟩]).2.1
        (CleanEDUs noFaults fanOut warmCache "a" [⟨2⟩]).2.2 "b" [⟨2⟩]).2.1 2 = false) :=
  ⟨((C4_clean_deletes_unreferenced noFaults fanOut warmCache "a" [⟨1⟩]).1 _ _ rfl).2.2
      noFaults "b" 1 _ _ rfl (by decide) (by decide) (by decide) (by decide) rfl,
   ((C4_clean_deletes_unreferenced noFaults fanOut warmCache "a" [⟨2⟩]).2 _ _ rfl).2.2
      noFaults "b" 2 _ _ rfl (by decide) (by decide) (by decide) (by decide) rfl⟩

/-- C5: a successful `CleanPDUs` (resp. `CleanEDUs`) for destination `s` leaves
in the PDU (resp. EDU) association table exactly the former rows other than
those of `s` with a NID among the receipts, leaves the other association table
unchanged, and no entry returned by a following `GetPendingPDUs` (resp.
`GetPendingEDUs`) for `s`, with any limit and storage behaviour, has a cleaned
NID. -/
theorem C5_clean_frame {P E : Type} (F : Faults) (db : Tables) (cache : Cache P E)
    (s : ServerName) (receipts : List Receipt) :
    (∀ (db1 : Tables) (c1 : Cache P E),
      CleanPDUs F db cache s receipts = (none, db1, c1) →
      db1.queuePDUs = db.queuePDUs.filter
        (fun r => ¬ (r.serverName = s ∧ r.jsonNID ∈ receipts.map Receipt.GetNID)) ∧
      db1.queueEDUs = db.queueEDUs ∧
      ∀ (G : Faults) (um : Blob → Option P) (limit : Nat),
        ∀ x ∈ (GetPendingPDUs G um db1 c1 s limit).2.2.1,
          x.1.GetNID ∉ receipts.map Receipt.GetNID) ∧
    (∀ (db1 : Tables) (c1 : Cache P E),
      CleanEDUs F db cache s receipts = (none, db1, c1) →
      db1.queueEDUs = db.queueEDUs.filter
        (fun r => ¬ (r.serverName = s ∧ r.jsonNID ∈ receipts.map Receipt.GetNID)) ∧
      db1.queuePDUs = db.queuePDUs ∧
      ∀ (G : Faults) (um : Blob → Option E) (limit : Nat),
        ∀ x ∈ (GetPendingEDUs G um db1 c1 s limit).2.2.1,
          x.1.GetNID ∉ receipts.map Receipt.GetNID) := by
  constructor
  · intro db1 c1 h
    obtain ⟨q1, q2, _⟩ := cleanPDUs_ok F db cache s receipts db1 c1 h
    refine ⟨q1, q2, ?_⟩
    intro G um limit x hx hmem
    obtain ⟨r, hr, hs, hj⟩ := getPendingPDUs_mem G um db1 c1 s limit x hx
    rw [q1] at hr
    have := (List.mem_filter.1 hr).2
    simp only [decide_eq_true_eq, not_and] at this
    exact this hs (hj ▸ hmem)
  · intro db1 c1 h
    obtain ⟨q1, q2, _⟩ := cleanEDUs_ok F db cache s receipts db1 c1 h
    refine ⟨q1, q2, ?_⟩
    intro G um limit x hx hmem
    obtain ⟨r, hr, hs, hj⟩ := getPendingEDUs_mem G um db1 c1 s limit x hx
    rw [q1] at hr
    have := (List.mem_filter.1 hr).2
    simp only [decide_eq_true_eq, not_and] at this
    exact this hs (hj ▸ hmem)

/-- C5 witness: cleaning NID 1 for `a` in `twoPDUs` leaves the row of NID 2, and
the following pending select returns NID 2 only. -/
theorem C5_clean_frame_witness :
    (CleanPDUs noFaults twoPDUs warmCache "a" [⟨1⟩]).2.1.queuePDUs = [⟨"", "a", 2⟩] ∧
    (∀ x ∈ (GetPendingPDUs noFaults (fun b => some b)
        (CleanPDUs noFaults twoPDUs warmCache "a" [⟨1⟩]).2.1
        (CleanPDUs noFaults twoPDUs warmCache "a" [⟨1⟩]).2.2 "a" 10).2.2.1,
      x.1.GetNID ∉ List.map Receipt.GetNID [⟨1⟩]) ∧
    (CleanEDUs noFaults twoEDUs warmCache "a" [⟨1⟩]).2.1.queueEDUs
      = [⟨"m.typing", "a", 2, 0⟩] :=
  ⟨((C5_clean_frame noFaults twoPDUs warmCache "a" [⟨1⟩]).1 _ _ rfl).1.trans (by decide),
   ((C5_clean_frame noFaults twoPDUs warmCache "a" [⟨1⟩]).1 _ _ rfl).2.2
      noFaults (fun b => some b) 10,
   ((C5_clean_frame noFaults twoEDUs warmCache "a" [⟨1⟩]).2 _ _ rfl).1.trans (by decide)⟩

/-- C9 (the claim fails): NIDs 1 and 2 are pending for `a` and the blob of NID 2
is malformed.  `GetPendingPDUs` returns an error, but the returned mapping holds
the entry of NID 1, deserialized before the bad blob, and that entry has been
added to the PDU cache; likewise for `GetPendingEDUs` with NIDs 3 and 4. -/
theorem C9_partial_result_on_bad_blob :
    GetPendingPDUs noFaults strictUnmarshal corruptQueue coldCache "a" 10
      = (some "json.Unmarshal: invalid blob", corruptQueue, [(⟨1⟩, "good")],
          ⟨[(1, "good")], []⟩) ∧
    GetPendingEDUs noFaults strictUnmarshal corruptQueue coldCache "a" 10
      = (some "json.Unmarshal: invalid blob", corruptQueue, [(⟨3⟩, "good")],
          ⟨[], [(3, "good")]⟩) := by
  constructor <;> decide

/-- C9 (amended): when a blob fetched by `GetPendingPDUs` (resp.
`GetPendingEDUs`) fails to deserialize, the call returns an error and leaves the
tables unchanged; the returned mapping holds exactly the cache hits followed by
the blobs deserialized before the first bad one, and exactly those blobs have
been stored in the cache.  Nothing of the bad blob or of later blobs is
returned or cached. -/
theorem C9_bad_blob_fails_call {P E : Type} (F : Faults) (db : Tables) (cache : Cache P E)
    (s : ServerName) (limit : Nat) :
    (∀ (um : Blob → Option P) (nids : List Int) (blobs : List (Int × Blob)),
      SelectQueuePDUs F db s limit = .ok nids →
      SelectQueueJSON F db
        (nids.filter (fun n => (GetFederationQueuedPDU cache n).isNone)) = .ok blobs →
      (∃ p ∈ blobs, um p.2 = none) →
      GetPendingPDUs F um db cache s limit =
        (some "json.Unmarshal: invalid blob", db,
         nids.filterMap (fun n => (GetFederationQueuedPDU cache n).map
            (fun e => (NewReceipt n, e))) ++
          (blobs.takeWhile (fun p => (um p.2).isSome)).filterMap
            (fun p => (um p.2).map (fun e => (NewReceipt p.1, e))),
         (blobs.takeWhile (fun p => (um p.2).isSome)).foldl
            (fun c p => match um p.2 with
              | some e => StoreFederationQueuedPDU c p.1 e
              | none => c) cache)) ∧
    (∀ (um : Blob → Option E) (nids : List Int) (blobs : List (Int × Blob)),
      SelectQueueEDUs F db s limit = .ok nids →
      SelectQueueJSON F db
        (nids.filter (fun n => (GetFederationQueuedEDU cache n).isNone)) = .ok blobs →
      (∃ p ∈ blobs, um p.2 = none) →
      GetPendingEDUs F um db cache s limit =
        (some "json.Unmarshal: invalid blob", db,
         nids.filterMap (fun n => (GetFederationQueuedEDU cache n).map
            (fun e => (NewReceipt n, e))) ++
          (blobs.takeWhile (fun p => (um p.2).isSome)).filterMap
            (fun p => (um p.2).map (fun e => (NewReceipt p.1, e))),
         (blobs.takeWhile (fun p => (um p.2).isSome)).foldl
            (fun c p => match um p.2 with
              | some e => StoreFederationQueuedEDU c p.1 e
              | none => c) cache)) := by
  constructor
  · intro um nids blobs hsel hfetch hbad
    have hall : blobs.all (fun p => (um p.2).isSome) = false := by
      obtain ⟨p, hp, hu⟩ := hbad
      rw [List.all_eq_false]
      exact ⟨p, hp, by simp [hu]⟩
    rw [getPendingPDUs_eq F um db cache s limit nids blobs hsel hfetch, hall]
    rfl
  · intro um nids blobs hsel hfetch hbad
    have hall : blobs.all (fun p => (um p.2).isSome) = false := by
      obtain ⟨p, hp, hu⟩ := hbad
      rw [List.all_eq_false]
      exact ⟨p, hp, by simp [hu]⟩
    rw [getPendingEDUs_eq F um db cache s limit nids blobs hsel hfetch, hall]
    rfl

/-- C9 witness: the malformed blob of NID 2 (resp. NID 4) in `corruptQueue`. -/
theorem C9_bad_blob_fails_call_witness :
    (GetPendingPDUs noFaults strictUnmarshal corruptQueue coldCache "a" 10).1
      = some "json.Unmarshal: invalid blob" ∧
    (GetPendingEDUs noFaults strictUnmarshal corruptQueue coldCache "a" 10).1
      = some "json.Unmarshal: invalid blob" :=
  ⟨congrArg Prod.fst ((C9_bad_blob_fails_call noFaults corruptQueue coldCache "a" 10).1
      strictUnmarshal [1, 2] [(1, "good"), (2, "bad")] rfl rfl
      ⟨(2, "bad"), by decide, by decide⟩),
   congrArg Prod.fst ((C9_bad_blob_fails_call noFaults corruptQueue coldCache "a" 10).2
      strictUnmarshal [3, 4] [(3, "good"), (4, "bad")] rfl rfl
      ⟨(4, "bad"), by decide, by decide⟩)⟩

/-! ### The reference-count invariant -/

theorem insertQueuePDU_cases (F : Faults) (txn : Tables) (d : ServerName) (nid : Int) :
    (∃ e, InsertQueuePDU F txn "" d nid = .error e) ∨
    InsertQueuePDU F txn "" d nid = .ok txn ∨
    InsertQueuePDU F txn "" d nid =
      .ok { txn with queuePDUs := txn.queuePDUs ++ [⟨"", d, nid⟩] } := by
  unfold InsertQueuePDU
  cases F.insertQueuePDU d nid with
  | some e => exact Or.inl ⟨e, rfl⟩
  | none =>
    by_cases hany : txn.queuePDUs.any (fun r => r.serverName = d ∧ r.jsonNID = nid) = true
    · exact Or.inr (Or.inl (if_pos hany))
    · exact Or.inr (Or.inr (if_neg hany))

theorem insertPDULoop_rows (F : Faults) (nid : Int) :
    ∀ (ds : List ServerName) (txn : Tables) (err : Option Error),
      ∃ extra : List QueuePDU,
        (insertPDULoop F nid ds txn err).2 =
          { txn with queuePDUs := txn.queuePDUs ++ extra } ∧
        ∀ r ∈ extra, r.jsonNID = nid ∧ r.serverName ∈ ds := by
  intro ds
  induction ds with
  | nil => intro txn err; exact ⟨[], by simp [insertPDULoop], by simp⟩
  | cons d rest ih =>
    intro txn err
    rcases insertQueuePDU_cases F txn d nid with ⟨e, h⟩ | h | h
    · obtain ⟨extra, h1, h2⟩ := ih txn (some e)
      refine ⟨extra, by simpa only [insertPDULoop, h] using h1, ?_⟩
      intro r hr
      exact ⟨(h2 r hr).1, List.mem_cons_of_mem _ (h2 r hr).2⟩
    · obtain ⟨extra, h1, h2⟩ := ih txn none
      refine ⟨extra, by simpa only [insertPDULoop, h] using h1, ?_⟩
      intro r hr
      exact ⟨(h2 r hr).1, List.mem_cons_of_mem _ (h2 r hr).2⟩
    · obtain ⟨extra, h1, h2⟩ :=
        ih { txn with queuePDUs := txn.queuePDUs ++ [⟨"", d, nid⟩] } none
      refine ⟨⟨"", d, nid⟩ :: extra, ?_, ?_⟩
      · simp only [insertPDULoop, h]
        simpa using h1
      · intro r hr
        rcases List.mem_cons.1 hr with rfl | hr
        · simp
        · exact ⟨(h2 r hr).1, List.mem_cons_of_mem _ (h2 r hr).2⟩

theorem associatePDU_rows (F : Faults) (db : Tables) (destinations : List ServerName)
    (dbReceipt : Receipt) :
    ∃ extra : List QueuePDU,
      (AssociatePDUWithDestinations F db destinations dbReceipt).2 =
        { db with queuePDUs := db.queuePDUs ++ extra } ∧
      ∀ r ∈ extra, r.jsonNID = dbReceipt.GetNID ∧ r.serverName ∈ destinations := by
  obtain ⟨extra, h1, h2⟩ := insertPDULoop_rows F dbReceipt.GetNID destinations db none
  cases hl : insertPDULoop F dbReceipt.GetNID destinations db none with
  | mk err txn =>
    rw [hl] at h1
    cases err with
    | none =>
      refine ⟨extra, ?_, h2⟩
      simp only [AssociatePDUWithDestinations, WriterDo, hl]
      exact h1
    | some e =>
      refine ⟨[], ?_, by simp⟩
      simp only [AssociatePDUWithDestinations, WriterDo, hl]
      simp

theorem refInvariant_add_pdus (db : Tables) (extra : List QueuePDU) (m : Int)
    (hinv : RefInvariant db) (hp : hasPayload db m = true)
    (hx : ∀ r ∈ extra, r.jsonNID = m) :
    RefInvariant { db with queuePDUs := db.queuePDUs ++ extra } := by
  intro n
  have h := hinv n
  have hm := hinv m
  simp only [hasPayload, pduRefs, eduRefs, List.countP_append] at h hm hp ⊢
  by_cases hn : n = m
  · subst hn
    constructor
    · intro _
      have := hm.1 hp
      omega
    · intro _; exact hp
  · have : extra.countP (fun r => decide (r.jsonNID = n)) = 0 := by
      rw [List.countP_eq_zero]
      intro r hr
      simp only [decide_eq_true_eq]
      rw [hx r hr]
      exact fun e => hn e.symm
    rw [this]
    simpa using h

theorem refInvariant_add_edus (db : Tables) (extra : List QueueEDU) (m : Int)
    (hinv : RefInvariant db) (hp : hasPayload db m = true)
    (hx : ∀ r ∈ extra, r.jsonNID = m) :
    RefInvariant { db with queueEDUs := db.queueEDUs ++ extra } := by
  intro n
  have h := hinv n
  have hm := hinv m
  simp only [hasPayload, pduRefs, eduRefs, List.countP_append] at h hm hp ⊢
  by_cases hn : n = m
  · subst hn
    constructor
    · intro _
      have := hm.1 hp
      omega
    · intro _; exact hp
  · have : extra.countP (fun r => decide (r.jsonNID = n)) = 0 := by
      rw [List.countP_eq_zero]
      intro r hr
      simp only [decide_eq_true_eq]
      rw [hx r hr]
      exact fun e => hn e.symm
    rw [this]
    simpa using h

theorem countP_filter_of_imp {α : Type} (l : List α) (p q : α → Bool)
    (h : ∀ a ∈ l, p a = true → q a = true) : (l.filter q).countP p = l.countP p := by
  induction l with
  | nil => rfl
  | cons a rest ih =>
    have ih2 := ih (fun b hb => h b (List.mem_cons_of_mem _ hb))
    by_cases hq : q a = true
    · rw [List.filter_cons_of_pos hq, List.countP_cons, List.countP_cons, ih2]
    · have hp : ¬ p a = true := fun e => hq (h a (List.mem_cons_self _ _) e)
      rw [List.filter_cons_of_neg hq, List.countP_cons_of_neg _ _ hp, ih2]

theorem countP_filter_le {α : Type} (l : List α) (p q : α → Bool) :
    (l.filter q).countP p ≤ l.countP p :=
  (List.filter_sublist l).countP_le p

theorem refInvariant_cleanPDUs {P E : Type} (F : Faults) (db : Tables) (cache : Cache P E)
    (s : ServerName) (receipts : List Receipt) (db1 : Tables) (c1 : Cache P E)
    (hinv : RefInvariant db) (hk : ∀ r ∈ receipts, eduRefs db r.GetNID = 0)
    (h : CleanPDUs F db cache s receipts = (none, db1, c1)) : RefInvariant db1 := by
  obtain ⟨q1, q2, hj, _, _⟩ := cleanPDUs_ok F db cache s receipts db1 c1 h
  intro n
  have he : eduRefs db1 n = eduRefs db n := by simp [eduRefs, q2]
  have hle : pduRefs db1 n ≤ pduRefs db n := by
    unfold pduRefs
    rw [q1]
    exact countP_filter_le _ _ _
  have hi := hinv n
  by_cases hn : n ∈ receipts.map Receipt.GetNID
  · have k := (cleanPDUs_payload_iff F db cache s receipts db1 c1 h n hn).1
    have e0 : eduRefs db n = 0 := by
      obtain ⟨r, hr, rfl⟩ := List.mem_map.1 hn
      exact hk r hr
    rw [k, he, e0]
    constructor
    · rintro ⟨_, h2⟩; omega
    · intro h3; exact ⟨hi.2 (by omega), by omega⟩
  · have k : hasPayload db1 n = true ↔ hasPayload db n = true := by
      rw [hasPayload_iff, hasPayload_iff]
      exact key_kept_of_not_mem _ _ _ (pduRefs db1) hj n hn
    have hp : pduRefs db1 n = pduRefs db n := by
      unfold pduRefs
      rw [q1]
      apply countP_filter_of_imp
      intro r _ hr
      simp only [decide_eq_true_eq] at hr
      simp only [decide_eq_true_eq, not_and]
      intro _
      rw [hr]
      exact hn
    rw [k, he, hp]
    exact hi

theorem refInvariant_cleanEDUs {P E : Type} (F : Faults) (db : Tables) (cache : Cache P E)
    (s : ServerName) (receipts : List Receipt) (db1 : Tables) (c1 : Cache P E)
    (hinv : RefInvariant db) (hk : ∀ r ∈ receipts, pduRefs db r.GetNID = 0)
    (h : CleanEDUs F db cache s receipts = (none, db1, c1)) : RefInvariant db1 := by
  obtain ⟨q1, q2, hj, _, _⟩ := cleanEDUs_ok F db cache s receipts db1 c1 h
  intro n
  have he : pduRefs db1 n = pduRefs db n := by simp [pduRefs, q2]
  have hle : eduRefs db1 n ≤ eduRefs db n := by
    unfold eduRefs
    rw [q1]
    exact countP_filter_le _ _ _
  have hi := hinv n
  by_cases hn : n ∈ receipts.map Receipt.GetNID
  · have k := (cleanEDUs_payload_iff F db cache s receipts db1 c1 h n hn).1
    have e0 : pduRefs db n = 0 := by
      obtain ⟨r, hr, rfl⟩ := List.mem_map.1 hn
      exact hk r hr
    rw [k, he, e0]
    constructor
    · rintro ⟨_, h2⟩; omega
    · intro h3; exact ⟨hi.2 (by omega), by omega⟩
  · have k : hasPayload db1 n = true ↔ hasPayload db n = true := by
      rw [hasPayload_iff, hasPayload_iff]
      exact key_kept_of_not_mem _ _ _ (eduRefs db1) hj n hn
    have hp : eduRefs db1 n = eduRefs db n := by
      unfold eduRefs
      rw [q1]
      apply countP_filter_of_imp
      intro r _ hr
      simp only [decide_eq_true_eq] at hr
      simp only [decide_eq_true_eq, not_and]
      intro _
      rw [hr]
      exact hn
    rw [k, he, hp]
    exact hi

theorem selectExpiredEDUs_ok (F : Faults) (db : Tables) (cutoff : Nat) (sel : List Int)
    (h : SelectExpiredEDUs F db cutoff = .ok sel) :
    sel = ((db.queueEDUs.filter (isExpired cutoff)).map QueueEDU.jsonNID).dedup := by
  unfold SelectExpiredEDUs at h
  cases hF : F.selectExpiredEDUs cutoff with
  | some e => simp [hF] at h
  | none =>
    simp only [hF, Except.ok.injEq] at h
    exact h.symm

theorem tableDeleteExpiredEDUs_ok (F : Faults) (txn t1 : Tables) (cutoff : Nat)
    (h : TableDeleteExpiredEDUs F txn cutoff = .ok t1) :
    t1 = { txn with queueEDUs := txn.queueEDUs.filter (fun r => ¬ isExpired cutoff r) } := by
  unfold TableDeleteExpiredEDUs at h
  cases hF : F.deleteExpiredEDUs cutoff with
  | some e => simp [hF] at h
  | none =>
    simp only [hF, Except.ok.injEq] at h
    exact h.symm

theorem mem_selected_iff (db : Tables) (cutoff : Nat) (n : Int) :
    n ∈ ((db.queueEDUs.filter (isExpired cutoff)).map QueueEDU.jsonNID).dedup ↔
      ∃ r ∈ db.queueEDUs, isExpired cutoff r = true ∧ r.jsonNID = n := by
  simp only [List.mem_dedup, List.mem_map, List.mem_filter]
  constructor
  · rintro ⟨r, ⟨hr, he⟩, hj⟩; exact ⟨r, hr, he, hj⟩
  · rintro ⟨r, hr, he, hj⟩; exact ⟨r, ⟨hr, he⟩, hj⟩

theorem deleteExpiredEDUs_ok {P E : Type} (F : Faults) (db : Tables) (cache : Cache P E)
    (now : Int) (db1 : Tables) (c1 : Cache P E)
    (h : DeleteExpiredEDUs F db cache now = (none, db1, c1)) :
    db1.queuePDUs = db.queuePDUs ∧
    db1.queueEDUs = db.queueEDUs.filter (fun r => ¬ isExpired (AsTimestamp now) r) ∧
    db1.queueJSON = db.queueJSON.filter (fun p => decide (p.1 ∉
      ((db.queueEDUs.filter (isExpired (AsTimestamp now))).map QueueEDU.jsonNID).dedup)) ∧
    c1 = (((db.queueEDUs.filter (isExpired (AsTimestamp now))).map QueueEDU.jsonNID).dedup).foldl
      (fun c nid => EvictFederationQueuedEDU c nid) cache := by
  unfold DeleteExpiredEDUs WriterDo at h
  cases hs : SelectExpiredEDUs F db (AsTimestamp now) with
  | error e => simp [hs] at h
  | ok sel =>
    have es := selectExpiredEDUs_ok F db _ sel hs
    simp only [hs] at h
    by_cases hl : sel.length = 0
    · simp only [hl, if_true, Prod.mk.injEq, true_and] at h
      obtain ⟨rfl, rfl⟩ := h
      have hnil : sel = [] := List.length_eq_zero.1 hl
      rw [← es, hnil]
      refine ⟨rfl, ?_, by simp, rfl⟩
      symm
      rw [List.filter_eq_self]
      intro r hr
      have hne : ¬ ∃ q ∈ db.queueEDUs, isExpired (AsTimestamp now) q = true ∧
          q.jsonNID = r.jsonNID := by
        rw [← mem_selected_iff, ← es, hnil]
        simp
      simp only [Bool.not_eq_true, decide_eq_true_eq]
      cases hx : isExpired (AsTimestamp now) r with
      | false => rfl
      | true => exact absurd ⟨r, hr, hx, rfl⟩ hne
    · simp only [hl, if_false] at h
      cases hj : DeleteQueueJSON F db sel with
      | error e => simp [hj] at h
      | ok txn1 =>
        have e1 := deleteQueueJSON_ok F db txn1 sel hj
        simp only [hj] at h
        cases hd : TableDeleteExpiredEDUs F txn1 (AsTimestamp now) with
        | error e => simp [hd] at h
        | ok txn2 =>
          have e2 := tableDeleteExpiredEDUs_ok F txn1 txn2 _ hd
          simp only [hd, Prod.mk.injEq, true_and] at h
          obtain ⟨rfl, rfl⟩ := h
          rw [← es]
          refine ⟨by rw [e2, e1], by rw [e2, e1], by rw [e2, e1], rfl⟩

theorem refInvariant_deleteExpiredEDUs {P E : Type} (F : Faults) (db : Tables)
    (cache : Cache P E) (now : Int) (db1 : Tables) (c1 : Cache P E)
    (hinv : RefInvariant db)
    (hk : ∀ r ∈ db.queueEDUs, isExpired (AsTimestamp now) r = true →
      pduRefs db r.jsonNID = 0 ∧
      ∀ q ∈ db.queueEDUs, q.jsonNID = r.jsonNID → isExpired (AsTimestamp now) q = true)
    (h : DeleteExpiredEDUs F db cache now = (none, db1, c1)) : RefInvariant db1 := by
  obtain ⟨q1, q2, hj, _⟩ := deleteExpiredEDUs_ok F db cache now db1 c1 h
  intro n
  have hp : pduRefs db1 n = pduRefs db n := by simp [pduRefs, q1]
  have hi := hinv n
  rw [hasPayload_iff, hj, exists_key_filter, mem_selected_iff, ← hasPayload_iff, hp]
  by_cases hsel : ∃ r ∈ db.queueEDUs, isExpired (AsTimestamp now) r = true ∧ r.jsonNID = n
  · obtain ⟨r, hr, hx, rfl⟩ := hsel
    obtain ⟨k1, k2⟩ := hk r hr hx
    have e0 : eduRefs db1 r.jsonNID = 0 := by
      unfold eduRefs
      rw [q2, List.countP_eq_zero]
      intro q hq
      have hm := List.mem_filter.1 hq
      simp only [decide_eq_true_eq]
      intro hjq
      have := hm.2
      simp only [Bool.not_eq_true, decide_eq_true_eq] at this
      rw [k2 q hm.1 hjq] at this
      exact absurd this (by decide)
    rw [k1, e0]
    constructor
    · rintro ⟨_, h2⟩; exact absurd ⟨r, hr, hx, rfl⟩ h2
    · intro h3; omega
  · have e1 : eduRefs db1 n = eduRefs db n := by
      unfold eduRefs
      rw [q2]
      apply countP_filter_of_imp
      intro r hr hjr
      simp only [decide_eq_true_eq] at hjr
      simp only [Bool.not_eq_true, decide_eq_true_eq]
      cases hx : isExpired (AsTimestamp now) r with
      | false => rfl
      | true => exact absurd ⟨r, hr, hx, hjr⟩ hsel
    rw [e1]
    constructor
    · rintro ⟨h1, _⟩; exact hi.1 h1
    · intro h3; exact ⟨hi.2 h3, hsel⟩

theorem crossKind_eq :
    crossKind = ⟨[(1, "x")], [⟨"", "a", 1⟩], [⟨"m.direct_to_device", "b", 1, 0⟩]⟩ := by
  decide

theorem mixedExpiry_eq :
    mixedExpiry = ⟨[(1, "x")], [],
      [⟨"m.typing", "a", 1, 60000⟩, ⟨"m.typing", "b", 1, 90000⟩]⟩ := by
  decide

theorem crossKind_invariant : RefInvariant crossKind := by
  intro n
  rw [crossKind_eq]
  by_cases h : n = 1
  · subst h; decide
  · have h2 : ¬ (1 : Int) = n := fun e => h e.symm
    simp [hasPayload, pduRefs, eduRefs, h2]

theorem mixedExpiry_invariant : RefInvariant mixedExpiry := by
  intro n
  rw [mixedExpiry_eq]
  by_cases h : n = 1
  · subst h; decide
  · have h2 : ¬ (1 : Int) = n := fun e => h e.symm
    simp [hasPayload, pduRefs, eduRefs, h2]

theorem fanOut_invariant : RefInvariant fanOut := by
  intro n
  by_cases h : n = 1
  · subst h; decide
  · by_cases k : n = 2
    · subst k; decide
    · have h2 : ¬ (1 : Int) = n := fun e => h e.symm
      have k2 : ¬ (2 : Int) = n := fun e => k e.symm
      simp [fanOut, hasPayload, pduRefs, eduRefs, h2, k2]

/-- C2 (the claim fails): in `crossKind` the invariant holds and receipt 1 refers
to a stored payload, NID 1 being referenced by one PDU and one EDU association;
a successful `CleanPDUs` for `a` counts PDU references only, deletes the payload
row and leaves the EDU association, so the invariant no longer holds.  In
`mixedExpiry` the invariant holds; a successful `DeleteExpiredEDUs` at 70 s
deletes the payload row of NID 1 while the association of `b` remains, so the
invariant no longer holds. -/
theorem C2_invariant_broken :
    (RefInvariant crossKind ∧ hasPayload crossKind 1 = true ∧
      (CleanPDUs noFaults crossKind coldCache "a" [⟨1⟩]).1 = none ∧
      ¬ RefInvariant (CleanPDUs noFaults crossKind coldCache "a" [⟨1⟩]).2.1) ∧
    (RefInvariant mixedExpiry ∧
      (DeleteExpiredEDUs noFaults mixedExpiry coldCache 70000000000).1 = none ∧
      ¬ RefInvariant (DeleteExpiredEDUs noFaults mixedExpiry coldCache 70000000000).2.1) := by
  refine ⟨⟨crossKind_invariant, by decide, by decide, ?_⟩,
    ⟨mixedExpiry_invariant, by decide, ?_⟩⟩
  · intro hinv
    exact absurd ((hinv 1).2 (by decide)) (by decide)
  · intro hinv
    exact absurd ((hinv 1).2 (by decide)) (by decide)

/-- C2 (amended): starting from tables in which a payload row exists exactly
when some PDU or EDU association references its NID, the predicate still holds
after `AssociatePDUWithDestinations` and `AssociateEDUWithDestinations` with a
receipt of a stored payload; after a successful `CleanPDUs` (resp. `CleanEDUs`)
none of whose receipt NIDs is referenced by an EDU (resp. PDU) association; and
after a successful `DeleteExpiredEDUs` in which every NID with an expired
association has no PDU association and no unexpired EDU association. -/
theorem C2_ref_invariant_preserved {P E : Type} (F : Faults) (db : Tables)
    (cache : Cache P E) (hinv : RefInvariant db) :
    (∀ (destinations : List ServerName) (dbReceipt : Receipt),
      hasPayload db dbReceipt.GetNID = true →
      RefInvariant (AssociatePDUWithDestinations F db destinations dbReceipt).2) ∧
    (∀ (destinations : List ServerName) (dbReceipt : Receipt) (eduType : String)
      (expireEDUTypes : Option (String → Option Int)) (now0 now1 : Int),
      hasPayload db dbReceipt.GetNID = true →
      RefInvariant (AssociateEDUWithDestinations F db destinations dbReceipt eduType
        expireEDUTypes now0 now1).2) ∧
    (∀ (s : ServerName) (receipts : List Receipt) (db1 : Tables) (c1 : Cache P E),
      (∀ r ∈ receipts, eduRefs db r.GetNID = 0) →
      CleanPDUs F db cache s receipts = (none, db1, c1) → RefInvariant db1) ∧
    (∀ (s : ServerName) (receipts : List Receipt) (db1 : Tables) (c1 : Cache P E),
      (∀ r ∈ receipts, pduRefs db r.GetNID = 0) →
      CleanEDUs F db cache s receipts = (none, db1, c1) → RefInvariant db1) ∧
    (∀ (now : Int) (db1 : Tables) (c1 : Cache P E),
      (∀ r ∈ db.queueEDUs, isExpired (AsTimestamp now) r = true →
        pduRefs db r.jsonNID = 0 ∧
        ∀ q ∈ db.queueEDUs, q.jsonNID = r.jsonNID → isExpired (AsTimestamp now) q = true) →
      DeleteExpiredEDUs F db cache now = (none, db1, c1) → RefInvariant db1) := by
  refine ⟨?_, ?_, ?_, ?_, ?_⟩
  · intro destinations dbReceipt hp
    obtain ⟨extra, h1, h2⟩ := associatePDU_rows F db destinations dbReceipt
    rw [h1]
    exact refInvariant_add_pdus db extra _ hinv hp (fun r hr => (h2 r hr).1)
  · intro destinations dbReceipt eduType expireEDUTypes now0 now1 hp
    obtain ⟨extra, h1, h2⟩ := associateEDU_rows F db destinations dbReceipt eduType
      expireEDUTypes now0 now1
    rw [h1]
    exact refInvariant_add_edus db extra _ hinv hp (fun r hr => (h2 r hr).2.1)
  · intro s receipts db1 c1 hk h
    exact refInvariant_cleanPDUs F db cache s receipts db1 c1 hinv hk h
  · intro s receipts db1 c1 hk h
    exact refInvariant_cleanEDUs F db cache s receipts db1 c1 hinv hk h
  · intro now db1 c1 hk h
    exact refInvariant_deleteExpiredEDUs F db cache now db1 c1 hinv hk h

/-- C2 witness: in `fanOut` NID 1 has PDU associations only and NID 2 EDU
associations only; the invariant holds after associating, cleaning and
sweeping. -/
theorem C2_ref_invariant_preserved_witness :
    RefInvariant fanOut ∧
    RefInvariant (AssociatePDUWithDestinations noFaults fanOut ["c"] ⟨1⟩).2 ∧
    RefInvariant (CleanPDUs noFaults fanOut warmCache "a" [⟨1⟩]).2.1 ∧
    RefInvariant (CleanEDUs noFaults fanOut warmCache "a" [⟨2⟩]).2.1 ∧
    RefInvariant (DeleteExpiredEDUs noFaults fanOut warmCache 70000000000).2.1 :=
  ⟨fanOut_invariant,
   (C2_ref_invariant_preserved noFaults fanOut warmCache fanOut_invariant).1
      ["c"] ⟨1⟩ (by decide),
   (C2_ref_invariant_preserved noFaults fanOut warmCache fanOut_invariant).2.2.1
      "a" [⟨1⟩] _ _ (by decide) rfl,
   (C2_ref_invariant_preserved noFaults fanOut warmCache fanOut_invariant).2.2.2.1
      "a" [⟨2⟩] _ _ (by decide) rfl,
   (C2_ref_invariant_preserved noFaults fanOut warmCache fanOut_invariant).2.2.2.2
      70000000000 _ _ (by decide) rfl⟩

/-! ### The expiry sweep -/

theorem foldl_evictEDU {P E : Type} (sel : List Int) :
    ∀ c : Cache P E,
      sel.foldl (fun c nid => EvictFederationQueuedEDU c nid) c =
        { c with queuedEDUs := c.queuedEDUs.filter (fun p => decide (p.1 ∉ sel)) } := by
  induction sel with
  | nil => intro c; simp
  | cons n rest ih =>
    intro c
    rw [List.foldl_cons, ih]
    simp only [EvictFederationQueuedEDU]
    rw [filter_key_filter]

theorem deleteExpiredEDUs_err {P E : Type} (F : Faults) (db : Tables) (cache : Cache P E)
    (now : Int) (e : Error) (db1 : Tables) (c1 : Cache P E)
    (h : DeleteExpiredEDUs F db cache now = (some e, db1, c1)) : db1 = db ∧ c1 = cache := by
  unfold DeleteExpiredEDUs WriterDo at h
  cases hs : SelectExpiredEDUs F db (AsTimestamp now) with
  | error e0 =>
    simp only [hs, Prod.mk.injEq] at h
    exact ⟨h.2.1.symm, h.2.2.symm⟩
  | ok sel =>
    simp only [hs] at h
    by_cases hl : sel.length = 0
    · simp [hl] at h
    · simp only [hl, if_false] at h
      cases hj : DeleteQueueJSON F db sel with
      | error e0 =>
        simp only [hj, Prod.mk.injEq] at h
        exact ⟨h.2.1.symm, h.2.2.symm⟩
      | ok txn1 =>
        simp only [hj] at h
        cases hd : TableDeleteExpiredEDUs F txn1 (AsTimestamp now) with
        | error e0 =>
          simp only [hd, Prod.mk.injEq] at h
          exact ⟨h.2.1.symm, h.2.2.symm⟩
        | ok txn2 => simp [hd] at h

theorem deleteExpiredEDUs_selected {P E : Type} (F : Faults) (db : Tables)
    (cache : Cache P E) (now : Int) (db1 : Tables) (c1 : Cache P E)
    (h : DeleteExpiredEDUs F db cache now = (none, db1, c1)) :
    ∃ sel, SelectExpiredEDUs F db (AsTimestamp now) = .ok sel := by
  cases hs : SelectExpiredEDUs F db (AsTimestamp now) with
  | error e0 => simp [DeleteExpiredEDUs, WriterDo, hs] at h
  | ok sel => exact ⟨sel, rfl⟩

/-- C11: when `DeleteExpiredEDUs` fails, the tables and both caches are as
before.  When it succeeds, the select of expired NIDs succeeded with some list
`sel`, which holds exactly the NIDs having an expired association; the EDU cache
afterwards is the former one without the entries whose NID is in `sel`, the
payload store afterwards is the former one without the rows whose NID is in
`sel`, and the PDU cache is unchanged.  When the select succeeds and no EDU
association is expired, the call succeeds and changes nothing. -/
theorem C11_sweep_evicts_selected {P E : Type} (F : Faults) (db : Tables)
    (cache : Cache P E) (now : Int) :
    (∀ (e : Error) (db1 : Tables) (c1 : Cache P E),
      DeleteExpiredEDUs F db cache now = (some e, db1, c1) → db1 = db ∧ c1 = cache) ∧
    (∀ (db1 : Tables) (c1 : Cache P E),
      DeleteExpiredEDUs F db cache now = (none, db1, c1) →
      ∃ sel : List Int, SelectExpiredEDUs F db (AsTimestamp now) = .ok sel ∧
        (∀ n, n ∈ sel ↔
          ∃ r ∈ db.queueEDUs, isExpired (AsTimestamp now) r = true ∧ r.jsonNID = n) ∧
        c1.queuedEDUs = cache.queuedEDUs.filter (fun p => decide (p.1 ∉ sel)) ∧
        c1.queuedPDUs = cache.queuedPDUs ∧
        db1.queueJSON = db.queueJSON.filter (fun p => decide (p.1 ∉ sel))) ∧
    (F.selectExpiredEDUs (AsTimestamp now) = none →
      (∀ r ∈ db.queueEDUs, isExpired (AsTimestamp now) r = false) →
      DeleteExpiredEDUs F db cache now = (none, db, cache)) := by
  refine ⟨?_, ?_, ?_⟩
  · intro e db1 c1 h
    exact deleteExpiredEDUs_err F db cache now e db1 c1 h
  · intro db1 c1 h
    obtain ⟨sel, hs⟩ := deleteExpiredEDUs_selected F db cache now db1 c1 h
    have es := selectExpiredEDUs_ok F db _ sel hs
    obtain ⟨_, _, hj, hc⟩ := deleteExpiredEDUs_ok F db cache now db1 c1 h
    rw [← es] at hj hc
    refine ⟨sel, hs, ?_, ?_, ?_, hj⟩
    · intro n
      rw [es]
      exact mem_selected_iff db _ n
    · rw [hc, foldl_evictEDU]
    · rw [hc, foldl_evictEDU]
  · intro hF hnone
    have hf : db.queueEDUs.filter (isExpired (AsTimestamp now)) = [] := by
      rw [List.filter_eq_nil_iff]
      intro r hr
      simp [hnone r hr]
    simp [DeleteExpiredEDUs, WriterDo, SelectExpiredEDUs, hF, hf]

/-- C11 witness: the sweep of `mixedExpiry` at 70 s evicts NID 1 from the EDU
cache only; the sweep of `fanOut` at time 0 finds nothing expired. -/
theorem C11_sweep_evicts_selected_witness :
    (∃ sel : List Int, SelectExpiredEDUs noFaults mixedExpiry (AsTimestamp 70000000000)
        = .ok sel ∧
      (∀ n, n ∈ sel ↔ ∃ r ∈ mixedExpiry.queueEDUs,
        isExpired (AsTimestamp 70000000000) r = true ∧ r.jsonNID = n) ∧
      (DeleteExpiredEDUs noFaults mixedExpiry warmCache 70000000000).2.2.queuedEDUs
        = warmCache.queuedEDUs.filter (fun p => decide (p.1 ∉ sel)) ∧
      (DeleteExpiredEDUs noFaults mixedExpiry warmCache 70000000000).2.2.queuedPDUs
        = warmCache.queuedPDUs ∧
      (DeleteExpiredEDUs noFaults mixedExpiry warmCache 70000000000).2.1.queueJSON
        = mixedExpiry.queueJSON.filter (fun p => decide (p.1 ∉ sel))) ∧
    DeleteExpiredEDUs noFaults fanOut warmCache 0 = (none, fanOut, warmCache) :=
  ⟨(C11_sweep_evicts_selected noFaults mixedExpiry warmCache 70000000000).2.1 _ _ rfl,
   (C11_sweep_evicts_selected noFaults fanOut warmCache 0).2.2 rfl (by decide)⟩

/-! ### Limit zero and override tables -/

/-- C14: with `limit = 0`, `GetPendingPDUs` and `GetPendingEDUs` return an empty
mapping and leave the tables and both caches unchanged whatever the storage
does, and they return no error when the two select statements they issue do not
fail. -/
theorem C14_pending_limit_zero {P E : Type} (F : Faults) (db : Tables) (cache : Cache P E)
    (s : ServerName) (umP : Blob → Option P) (umE : Blob → Option E) :
    (GetPendingPDUs F umP db cache s 0).2 = (db, [], cache) ∧
    (GetPendingEDUs F umE db cache s 0).2 = (db, [], cache) ∧
    (F.selectQueuePDUs s 0 = none → F.selectQueueJSON [] = none →
      GetPendingPDUs F umP db cache s 0 = (none, db, [], cache)) ∧
    (F.selectQueueEDUs s 0 = none → F.selectQueueJSON [] = none →
      GetPendingEDUs F umE db cache s 0 = (none, db, [], cache)) := by
  refine ⟨?_, ?_, ?_, ?_⟩
  · cases h1 : F.selectQueuePDUs s 0 with
    | some e => simp [GetPendingPDUs, WriterDo, SelectQueuePDUs, h1]
    | none =>
      cases h2 : F.selectQueueJSON [] with
      | some e =>
        simp [GetPendingPDUs, WriterDo, SelectQueuePDUs, h1, resolveCachedPDUs,
          SelectQueueJSON, h2]
      | none =>
        simp [GetPendingPDUs, WriterDo, SelectQueuePDUs, h1, resolveCachedPDUs,
          SelectQueueJSON, h2, decodePDUs]
  · cases h1 : F.selectQueueEDUs s 0 with
    | some e => simp [GetPendingEDUs, WriterDo, SelectQueueEDUs, h1]
    | none =>
      cases h2 : F.selectQueueJSON [] with
      | some e =>
        simp [GetPendingEDUs, WriterDo, SelectQueueEDUs, h1, resolveCachedEDUs,
          SelectQueueJSON, h2]
      | none =>
        simp [GetPendingEDUs, WriterDo, SelectQueueEDUs, h1, resolveCachedEDUs,
          SelectQueueJSON, h2, decodeEDUs]
  · intro h1 h2
    simp [GetPendingPDUs, WriterDo, SelectQueuePDUs, h1, resolveCachedPDUs,
      SelectQueueJSON, h2, decodePDUs]
  · intro h1 h2
    simp [GetPendingEDUs, WriterDo, SelectQueueEDUs, h1, resolveCachedEDUs,
      SelectQueueJSON, h2, decodeEDUs]

/-- C14 witness: limit zero on `twoPDUs` and `twoEDUs` with a warm cache. -/
theorem C14_pending_limit_zero_witness :
    GetPendingPDUs noFaults strictUnmarshal twoPDUs warmCache "a" 0
      = (none, twoPDUs, [], warmCache) ∧
    GetPendingEDUs noFaults strictUnmarshal twoEDUs warmCache "a" 0
      = (none, twoEDUs, [], warmCache) :=
  ⟨(C14_pending_limit_zero noFaults twoPDUs warmCache "a" strictUnmarshal
      strictUnmarshal).2.2.1 rfl rfl,
   (C14_pending_limit_zero noFaults twoEDUs warmCache "a" strictUnmarshal
      strictUnmarshal).2.2.2 rfl rfl⟩

/-- C15 (the claim fails): the table `presenceOnly` is non-nil and does not list
`m.direct_to_device`, yet for that type `AssociateEDUWithDestinations` computes
and stores the expiry 0, not the call time plus 24 hours (1700086400000 for a
call at Unix time 1700000000 s). -/
theorem C15_never_expire_not_default :
    presenceOnly "m.direct_to_device" = none ∧
    eduExpiresAt "m.direct_to_device" (some presenceOnly) 1700000000000000000
      1700000000000000000 = 0 ∧
    AsTimestamp 1700000000000000000 + 86400000 = 1700086400000 ∧
    (AssociateEDUWithDestinations noFaults onePayload ["a"] ⟨1⟩ "m.direct_to_device"
      (some presenceOnly) 1700000000000000000 1700000000000000000).2.queueEDUs
      = [⟨"m.direct_to_device", "a", 1, 0⟩] := by
  refine ⟨?_, ?_, ?_, ?_⟩ <;> decide

/-- C15 (amended): with a non-nil override table that does not list the EDU type,
for a type other than `m.direct_to_device` and `m.device_list_update` and a call
made after the epoch within the `int64` range, `AssociateEDUWithDestinations`
computes and stores the expiry call time plus 86400000 ms (24 hours); the
built-in table is not consulted, so for `m.typing` and `m.presence` this differs
from the expiry computed at the same time with no override table. -/
theorem C15_override_replaces_builtin (m : String → Option Int) (eduType : String)
    (now0 now1 : Int) (h0 : 0 ≤ now0) (h0b : now0 + defaultExpiry < 2 ^ 63)
    (hm : m eduType = none) (hd : eduType ≠ MDirectToDevice)
    (hl : eduType ≠ MDeviceListUpdate) :
    eduExpiresAt eduType (some m) now0 now1 = AsTimestamp now0 + 86400000 ∧
    (∀ (F : Faults) (db : Tables) (destinations : List ServerName) (dbReceipt : Receipt),
      ∀ r ∈ (AssociateEDUWithDestinations F db destinations dbReceipt eduType (some m)
          now0 now1).2.queueEDUs,
        r ∈ db.queueEDUs ∨ r.expiresAt = AsTimestamp now0 + 86400000) ∧
    (eduType = MTyping ∨ eduType = MPresence →
      eduExpiresAt eduType (some m) now0 now1 ≠ eduExpiresAt eduType none now0 now0) := by
  have hdv := defaultExpiry_eq
  have hmn := minute_eq
  have hx : eduExpiresAt eduType (some m) now0 now1 = AsTimestamp now0 + 86400000 := by
    have := asTimestamp_add now0 defaultExpiry 86400000 (by rw [hdv]; rfl) h0 h0b
    simpa [eduExpiresAt, hm, hd, hl] using this
  refine ⟨hx, ?_, ?_⟩
  · intro F db destinations dbReceipt r hr
    obtain ⟨extra, e1, e2⟩ := associateEDU_rows F db destinations dbReceipt eduType
      (some m) now0 now1
    rw [e1] at hr
    rcases List.mem_append.1 hr with hr | hr
    · exact Or.inl hr
    · exact Or.inr ((e2 r hr).2.2.1.trans hx)
  · intro hty
    rw [hx]
    rcases hty with rfl | rfl
    · have := asTimestamp_add now0 Minute 60000 (by rw [hmn]; rfl) h0 (by omega)
      have e : eduExpiresAt MTyping none now0 now0 = AsTimestamp now0 + 60000 := by
        simpa [eduExpiresAt, defaultExpireEDUTypes, MTyping, MDirectToDevice,
          MDeviceListUpdate] using this
      rw [e]
      omega
    · have := asTimestamp_add now0 (Minute * 10) 600000 (by rw [hmn]; rfl) h0 (by omega)
      have e : eduExpiresAt MPresence none now0 now0 = AsTimestamp now0 + 600000 := by
        simpa [eduExpiresAt, defaultExpireEDUTypes, MTyping, MPresence, MDirectToDevice,
          MDeviceListUpdate] using this
      rw [e]
      omega

/-- C15 witness: a table listing only `m.presence`, with type `m.typing`, at Unix
time 1700000000 s. -/
theorem C15_override_replaces_builtin_witness :
    eduExpiresAt "m.typing" (some presenceOnly) 1700000000000000000 1700000000000000000
      = 1700086400000 ∧
    eduExpiresAt "m.typing" (some presenceOnly) 1700000000000000000 1700000000000000000
      ≠ eduExpiresAt "m.typing" none 1700000000000000000 1700000000000000000 :=
  ⟨(C15_override_replaces_builtin presenceOnly "m.typing" 1700000000000000000
      1700000000000000000 (by decide) (by decide) (by decide) (by decide)
      (by decide)).1.trans (by decide),
   (C15_override_replaces_builtin presenceOnly "m.typing" 1700000000000000000
      1700000000000000000 (by decide) (by decide) (by decide) (by decide)
      (by decide)).2.2 (Or.inl rfl)⟩

/-! ### Successful draining -/

theorem getNID_newReceipt (n : Int) : (NewReceipt n).GetNID = n := rfl

theorem find_key_filter_ne {β : Type} (l : List (Int × β)) (n k : Int) (h : n ≠ k) :
    (l.filter (fun p => decide (p.1 ≠ k))).find? (fun p => decide (p.1 = n))
      = l.find? (fun p => decide (p.1 = n)) := by
  induction l with
  | nil => rfl
  | cons p rest ih =>
    by_cases hp : p.1 = k
    · have hpn : ¬ p.1 = n := fun e => h (e.symm.trans hp)
      rw [List.filter_cons_of_neg (by simpa using hp),
        List.find?_cons_of_neg _ (by simpa using hpn), ih]
    · rw [List.filter_cons_of_pos (by simpa using hp)]
      by_cases hpn : p.1 = n
      · rw [List.find?_cons_of_pos _ (by simpa using hpn),
          List.find?_cons_of_pos _ (by simpa using hpn)]
      · rw [List.find?_cons_of_neg _ (by simpa using hpn),
          List.find?_cons_of_neg _ (by simpa using hpn), ih]

theorem getPDU_store {P E : Type} (c : Cache P E) (k : Int) (e : P) (n : Int) :
    GetFederationQueuedPDU (StoreFederationQueuedPDU c k e) n =
      if n = k then some e else GetFederationQueuedPDU c n := by
  unfold GetFederationQueuedPDU StoreFederationQueuedPDU
  by_cases h : n = k
  · subst h
    simp [List.find?_cons]
  · have hk : ¬ k = n := fun e => h e.symm
    rw [if_neg h, List.find?_cons_of_neg _ (by simpa using hk), find_key_filter_ne _ n k h]

theorem foldl_storePDU_other {P E : Type} (um : Blob → Option P) :
    ∀ (blobs : List (Int × Blob)) (c : Cache P E) (n : Int),
      n ∉ blobs.map Prod.fst →
      GetFederationQueuedPDU (blobs.foldl (fun c p => match um p.2 with
        | some e => StoreFederationQueuedPDU c p.1 e
        | none => c) c) n = GetFederationQueuedPDU c n := by
  intro blobs
  induction blobs with
  | nil => intro c n _; rfl
  | cons p rest ih =>
    intro c n hn
    simp only [List.map_cons, List.mem_cons, not_or] at hn
    rw [List.foldl_cons, ih _ n hn.2]
    cases hu : um p.2 with
    | none => rfl
    | some e => simp [getPDU_store, hn.1]

theorem foldl_storePDU_mem {P E : Type} (um : Blob → Option P) :
    ∀ (blobs : List (Int × Blob)) (c : Cache P E) (n : Int) (blob : Blob) (e : P),
      (blobs.map Prod.fst).Nodup → (n, blob) ∈ blobs → um blob = some e →
      GetFederationQueuedPDU (blobs.foldl (fun c p => match um p.2 with
        | some e => StoreFederationQueuedPDU c p.1 e
        | none => c) c) n = some e := by
  intro blobs
  induction blobs with
  | nil => intro c n blob e _ hm; simp at hm
  | cons p rest ih =>
    intro c n blob e hnd hm hu
    simp only [List.map_cons, List.nodup_cons] at hnd
    rw [List.foldl_cons]
    rcases List.mem_cons.1 hm with rfl | hm
    · rw [foldl_storePDU_other um rest _ _ hnd.1]
      simp [hu, getPDU_store]
    · exact ih _ n blob e hnd.2 hm hu

theorem foldl_storePDU_kind {P E : Type} (um : Blob → Option P) :
    ∀ (blobs : List (Int × Blob)) (c : Cache P E),
      (blobs.foldl (fun c p => match um p.2 with
        | some e => StoreFederationQueuedPDU c p.1 e
        | none => c) c).queuedEDUs = c.queuedEDUs := by
  intro blobs
  induction blobs with
  | nil => intro c; rfl
  | cons p rest ih =>
    intro c
    rw [List.foldl_cons, ih]
    cases um p.2 <;> rfl

theorem getPendingPDUs_ok {P E : Type} (F : Faults) (um : Blob → Option P) (db : Tables)
    (cache : Cache P E) (s : ServerName) (limit : Nat) (db1 : Tables)
    (events : List (Receipt × P)) (c1 : Cache P E)
    (h : GetPendingPDUs F um db cache s limit = (none, db1, events, c1)) :
    ∃ (nids : List Int) (blobs : List (Int × Blob)),
      SelectQueuePDUs F db s limit = .ok nids ∧
      SelectQueueJSON F db
        (nids.filter (fun n => (GetFederationQueuedPDU cache n).isNone)) = .ok blobs ∧
      (∀ p ∈ blobs, (um p.2).isSome = true) ∧
      db1 = db ∧
      events = nids.filterMap (fun n => (GetFederationQueuedPDU cache n).map
          (fun e => (NewReceipt n, e))) ++
        blobs.filterMap (fun p => (um p.2).map (fun e => (NewReceipt p.1, e))) ∧
      c1 = blobs.foldl (fun c p => match um p.2 with
        | some e => StoreFederationQueuedPDU c p.1 e
        | none => c) cache := by
  cases hsel : SelectQueuePDUs F db s limit with
  | error e => simp [GetPendingPDUs, WriterDo, hsel] at h
  | ok nids =>
    cases hfetch : SelectQueueJSON F db
        (nids.filter (fun n => (GetFederationQueuedPDU cache n).isNone)) with
    | error e =>
      simp [GetPendingPDUs, WriterDo, hsel, resolveCachedPDUs_eq, hfetch] at h
    | ok blobs =>
      rw [getPendingPDUs_eq F um db cache s limit nids blobs hsel hfetch] at h
      by_cases hall : blobs.all (fun p => (um p.2).isSome) = true
      · have hall2 : ∀ p ∈ blobs, (um p.2).isSome = true := by
          simpa [List.all_eq_true] using hall
        have htw : blobs.takeWhile (fun p => (um p.2).isSome) = blobs :=
          List.takeWhile_eq_self_iff.2 hall2
        simp only [hall, if_true, htw, Prod.mk.injEq, true_and] at h
        exact ⟨nids, blobs, rfl, hfetch, hall2, h.1.symm, h.2.1.symm, h.2.2.symm⟩
      · simp [hall] at h

theorem hits_nids {P : Type} (get : Int → Option P) (nids : List Int) :
    (nids.filterMap (fun n => (get n).map (fun e => (NewReceipt n, e)))).map
      (fun x => x.1.GetNID) = nids.filter (fun n => (get n).isSome) := by
  induction nids with
  | nil => rfl
  | cons n rest ih =>
    cases hg : get n with
    | none => simp [List.filterMap_cons, List.filter_cons, hg, ih]
    | some e =>
      simp [List.filterMap_cons, List.filter_cons, hg, ih, getNID_newReceipt]

theorem decoded_nids {P : Type} (um : Blob → Option P) (blobs : List (Int × Blob))
    (hall : ∀ p ∈ blobs, (um p.2).isSome = true) :
    (blobs.filterMap (fun p => (um p.2).map (fun e => (NewReceipt p.1, e)))).map
      (fun x => x.1.GetNID) = blobs.map Prod.fst := by
  induction blobs with
  | nil => rfl
  | cons p rest ih =>
    have hp := hall p (List.mem_cons_self _ _)
    have ih2 := ih (fun q hq => hall q (List.mem_cons_of_mem _ hq))
    cases hu : um p.2 with
    | none => simp [hu] at hp
    | some e =>
      simp [List.filterMap_cons, hu, ih2, getNID_newReceipt]

theorem length_filter_add_miss (nids : List Int) (cached miss : Int → Bool)
    (hm : ∀ n, miss n = !cached n) :
    (nids.filter cached).length + (nids.filter miss).length = nids.length := by
  induction nids with
  | nil => rfl
  | cons n rest ih =>
    cases hc : cached n with
    | true =>
      have : miss n = false := by rw [hm, hc]; rfl
      simp only [List.filter_cons, hc, this, if_true, List.length_cons]
      simp only [Bool.false_eq_true, if_false]
      omega
    | false =>
      have : miss n = true := by rw [hm, hc]; rfl
      simp only [List.filter_cons, hc, this, if_true, List.length_cons]
      simp only [Bool.false_eq_true, if_false]
      omega

theorem pending_nids_core (nids keys : List Int) (cached miss : Int → Bool)
    (hm : ∀ n, miss n = !cached n) (hk : keys.Nodup) :
    (∀ n, n ∈ nids.filter cached ++ keys.filter (fun k => decide (k ∈ nids.filter miss)) ↔
      n ∈ nids ∧ (cached n = true ∨ n ∈ keys)) ∧
    (nids.Nodup →
      (nids.filter cached ++ keys.filter (fun k => decide (k ∈ nids.filter miss))).Nodup) ∧
    (nids.filter cached ++ keys.filter (fun k => decide (k ∈ nids.filter miss))).length
      ≤ nids.length := by
  refine ⟨?_, ?_, ?_⟩
  · intro n
    simp only [List.mem_append, List.mem_filter, decide_eq_true_eq, hm]
    cases hc : cached n <;> simp
    · tauto
  · intro hn
    rw [List.nodup_append]
    refine ⟨hn.filter _, hk.filter _, ?_⟩
    intro a ha hb
    have h1 := (List.mem_filter.1 ha).2
    have h2 := (List.mem_filter.1 hb).2
    simp only [decide_eq_true_eq, List.mem_filter, hm] at h2
    rw [h1] at h2
    simp at h2
  · have hsub : keys.filter (fun k => decide (k ∈ nids.filter miss)) ⊆ nids.filter miss := by
      intro a ha
      simpa using (List.mem_filter.1 ha).2
    have hle := (List.subperm_of_subset (hk.filter _) hsub).length_le
    have := length_filter_add_miss nids cached miss hm
    rw [List.length_append]
    omega

theorem getPendingPDUs_nids {P E : Type} (F : Faults) (um : Blob → Option P) (db : Tables)
    (cache : Cache P E) (s : ServerName) (limit : Nat) (db1 : Tables)
    (events : List (Receipt × P)) (c1 : Cache P E)
    (h : GetPendingPDUs F um db cache s limit = (none, db1, events, c1)) :
    ∃ nids : List Int, SelectQueuePDUs F db s limit = .ok nids ∧ nids.length ≤ limit ∧
      events.map (fun x => x.1.GetNID) =
        nids.filter (fun n => (GetFederationQueuedPDU cache n).isSome) ++
        (db.queueJSON.map Prod.fst).filter (fun k => decide (k ∈
          nids.filter (fun n => (GetFederationQueuedPDU cache n).isNone))) := by
  obtain ⟨nids, blobs, hsel, hfetch, hall, _, hev, _⟩ :=
    getPendingPDUs_ok F um db cache s limit db1 events c1 h
  refine ⟨nids, hsel, ?_, ?_⟩
  · unfold SelectQueuePDUs at hsel
    cases hF : F.selectQueuePDUs s limit with
    | some e => simp [hF] at hsel
    | none =>
      simp only [hF, Except.ok.injEq] at hsel
      rw [← hsel]
      exact List.length_take_le _ _
  · have hb := selectQueueJSON_ok F db _ blobs hfetch
    rw [hev, List.map_append, hits_nids, decoded_nids um blobs hall, hb, List.filter_map]
    rfl

theorem getEDU_store {P E : Type} (c : Cache P E) (k : Int) (e : E) (n : Int) :
    GetFederationQueuedEDU (StoreFederationQueuedEDU c k e) n =
      if n = k then some e else GetFederationQueuedEDU c n := by
  unfold GetFederationQueuedEDU StoreFederationQueuedEDU
  by_cases h : n = k
  · subst h
    simp [List.find?_cons]
  · have hk : ¬ k = n := fun e => h e.symm
    rw [if_neg h, List.find?_cons_of_neg _ (by simpa using hk), find_key_filter_ne _ n k h]

theorem foldl_storeEDU_other {P E : Type} (um : Blob → Option E) :
    ∀ (blobs : List (Int × Blob)) (c : Cache P E) (n : Int),
      n ∉ blobs.map Prod.fst →
      GetFederationQueuedEDU (blobs.foldl (fun c p => match um p.2 with
        | some e => StoreFederationQueuedEDU c p.1 e
        | none => c) c) n = GetFederationQueuedEDU c n := by
  intro blobs
  induction blobs with
  | nil => intro c n _; rfl
  | cons p rest ih =>
    intro c n hn
    simp only [List.map_cons, List.mem_cons, not_or] at hn
    rw [List.foldl_cons, ih _ n hn.2]
    cases hu : um p.2 with
    | none => rfl
    | some e => simp [getEDU_store, hn.1]

theorem foldl_storeEDU_mem {P E : Type} (um : Blob → Option E) :
    ∀ (blobs : List (Int × Blob)) (c : Cache P E) (n : Int) (blob : Blob) (e : E),
      (blobs.map Prod.fst).Nodup → (n, blob) ∈ blobs → um blob = some e →
      GetFederationQueuedEDU (blobs.foldl (fun c p => match um p.2 with
        | some e => StoreFederationQueuedEDU c p.1 e
        | none => c) c) n = some e := by
  intro blobs
  induction blobs with
  | nil => intro c n blob e _ hm; simp at hm
  | cons p rest ih =>
    intro c n blob e hnd hm hu
    simp only [List.map_cons, List.nodup_cons] at hnd
    rw [List.foldl_cons]
    rcases List.mem_cons.1 hm with rfl | hm
    · rw [foldl_storeEDU_other um rest _ _ hnd.1]
      simp [hu, getEDU_store]
    · exact ih _ n blob e hnd.2 hm hu

theorem foldl_storeEDU_kind {P E : Type} (um : Blob → Option E) :
    ∀ (blobs : List (Int × Blob)) (c : Cache P E),
      (blobs.foldl (fun c p => match um p.2 with
        | some e => StoreFederationQueuedEDU c p.1 e
        | none => c) c).queuedPDUs = c.queuedPDUs := by
  intro blobs
  induction blobs with
  | nil => intro c; rfl
  | cons p rest ih =>
    intro c
    rw [List.foldl_cons, ih]
    cases um p.2 <;> rfl

theorem getPendingEDUs_ok {P E : Type} (F : Faults) (um : Blob → Option E) (db : Tables)
    (cache : Cache P E) (s : ServerName) (limit : Nat) (db1 : Tables)
    (events : List (Receipt × E)) (c1 : Cache P E)
    (h : GetPendingEDUs F um db cache s limit = (none, db1, events, c1)) :
    ∃ (nids : List Int) (blobs : List (Int × Blob)),
      SelectQueueEDUs F db s limit = .ok nids ∧
      SelectQueueJSON F db
        (nids.filter (fun n => (GetFederationQueuedEDU cache n).isNone)) = .ok blobs ∧
      (∀ p ∈ blobs, (um p.2).isSome = true) ∧
      db1 = db ∧
      events = nids.filterMap (fun n => (GetFederationQueuedEDU cache n).map
          (fun e => (NewReceipt n, e))) ++
        blobs.filterMap (fun p => (um p.2).map (fun e => (NewReceipt p.1, e))) ∧
      c1 = blobs.foldl (fun c p => match um p.2 with
        | some e => StoreFederationQueuedEDU c p.1 e
        | none => c) cache := by
  cases hsel : SelectQueueEDUs F db s limit with
  | error e => simp [GetPendingEDUs, WriterDo, hsel] at h
  | ok nids =>
    cases hfetch : SelectQueueJSON F db
        (nids.filter (fun n => (GetFederationQueuedEDU cache n).isNone)) with
    | error e =>
      simp [GetPendingEDUs, WriterDo, hsel, resolveCachedEDUs_eq, hfetch] at h
    | ok blobs =>
      rw [getPendingEDUs_eq F um db cache s limit nids blobs hsel hfetch] at h
      by_cases hall : blobs.all (fun p => (um p.2).isSome) = true
      · have hall2 : ∀ p ∈ blobs, (um p.2).isSome = true := by
          simpa [List.all_eq_true] using hall
        have htw : blobs.takeWhile (fun p => (um p.2).isSome) = blobs :=
          List.takeWhile_eq_self_iff.2 hall2
        simp only [hall, if_true, htw, Prod.mk.injEq, true_and] at h
        exact ⟨nids, blobs, rfl, hfetch, hall2, h.1.symm, h.2.1.symm, h.2.2.symm⟩
      · simp [hall] at h

theorem getPendingEDUs_nids {P E : Type} (F : Faults) (um : Blob → Option E) (db : Tables)
    (cache : Cache P E) (s : ServerName) (limit : Nat) (db1 : Tables)
    (events : List (Receipt × E)) (c1 : Cache P E)
    (h : GetPendingEDUs F um db cache s limit = (none, db1, events, c1)) :
    ∃ nids : List Int, SelectQueueEDUs F db s limit = .ok nids ∧ nids.length ≤ limit ∧
      events.map (fun x => x.1.GetNID) =
        nids.filter (fun n => (GetFederationQueuedEDU cache n).isSome) ++
        (db.queueJSON.map Prod.fst).filter (fun k => decide (k ∈
          nids.filter (fun n => (GetFederationQueuedEDU cache n).isNone))) := by
  obtain ⟨nids, blobs, hsel, hfetch, hall, _, hev, _⟩ :=
    getPendingEDUs_ok F um db cache s limit db1 events c1 h
  refine ⟨nids, hsel, ?_, ?_⟩
  · unfold SelectQueueEDUs at hsel
    cases hF : F.selectQueueEDUs s limit with
    | some e => simp [hF] at hsel
    | none =>
      simp only [hF, Except.ok.injEq] at hsel
      rw [← hsel]
      exact List.length_take_le _ _
  · have hb := selectQueueJSON_ok F db _ blobs hfetch
    rw [hev, List.map_append, hits_nids, decoded_nids um blobs hall, hb, List.filter_map]
    rfl

theorem isNone_eq_not_isSome {α : Type} (o : Option α) : o.isNone = !o.isSome := by
  cases o <;> rfl

theorem hasPayload_iff_mem_keys (t : Tables) (n : Int) :
    hasPayload t n = true ↔ n ∈ t.queueJSON.map Prod.fst := by
  rw [hasPayload_iff, List.mem_map]

/-- C12: on tables whose payload rows have distinct NIDs, a successful
`GetPendingPDUs` (resp. `GetPendingEDUs`) returns entries whose NIDs are exactly
the selected NIDs that are in the cache or have a payload row; these NIDs are
pairwise distinct when the selected NIDs are; and the number of entries is at
most the number of selected NIDs, which is at most `limit`.  A selected NID
that is neither cached nor stored causes no error: when the two selects do not
fail and every stored blob deserializes, the call returns no error. -/
theorem C12_pending_entries {P E : Type} (F : Faults) (db : Tables) (cache : Cache P E)
    (s : ServerName) (limit : Nat) (hkeys : (db.queueJSON.map Prod.fst).Nodup) :
    (∀ (um : Blob → Option P) (db1 : Tables) (events : List (Receipt × P))
      (c1 : Cache P E),
      GetPendingPDUs F um db cache s limit = (none, db1, events, c1) →
      ∃ nids : List Int, SelectQueuePDUs F db s limit = .ok nids ∧
        (∀ n, n ∈ events.map (fun x => x.1.GetNID) ↔
          n ∈ nids ∧ (cachedPDU cache n = true ∨ hasPayload db n = true)) ∧
        (nids.Nodup → (events.map (fun x => x.1.GetNID)).Nodup) ∧
        events.length ≤ nids.length ∧ nids.length ≤ limit) ∧
    (∀ (um : Blob → Option E) (db1 : Tables) (events : List (Receipt × E))
      (c1 : Cache P E),
      GetPendingEDUs F um db cache s limit = (none, db1, events, c1) →
      ∃ nids : List Int, SelectQueueEDUs F db s limit = .ok nids ∧
        (∀ n, n ∈ events.map (fun x => x.1.GetNID) ↔
          n ∈ nids ∧ (cachedEDU cache n = true ∨ hasPayload db n = true)) ∧
        (nids.Nodup → (events.map (fun x => x.1.GetNID)).Nodup) ∧
        events.length ≤ nids.length ∧ nids.length ≤ limit) ∧
    (∀ um : Blob → Option P, F.selectQueuePDUs s limit = none →
      (∀ l, F.selectQueueJSON l = none) → (∀ p ∈ db.queueJSON, (um p.2).isSome = true) →
      (GetPendingPDUs F um db cache s limit).1 = none) ∧
    (∀ um : Blob → Option E, F.selectQueueEDUs s limit = none →
      (∀ l, F.selectQueueJSON l = none) → (∀ p ∈ db.queueJSON, (um p.2).isSome = true) →
      (GetPendingEDUs F um db cache s limit).1 = none) := by
  refine ⟨?_, ?_, ?_, ?_⟩
  · intro um db1 events c1 h
    obtain ⟨nids, hsel, hlim, hev⟩ := getPendingPDUs_nids F um db cache s limit db1 events c1 h
    obtain ⟨k1, k2, k3⟩ := pending_nids_core nids (db.queueJSON.map Prod.fst)
      (fun n => (GetFederationQueuedPDU cache n).isSome)
      (fun n => (GetFederationQueuedPDU cache n).isNone)
      (fun n => isNone_eq_not_isSome _) hkeys
    refine ⟨nids, hsel, ?_, ?_, ?_, hlim⟩
    · intro n
      rw [hev, k1 n, hasPayload_iff_mem_keys]
      rfl
    · intro hn
      rw [hev]
      exact k2 hn
    · have : events.length = (events.map (fun x => x.1.GetNID)).length := by simp
      rw [this, hev]
      exact k3
  · intro um db1 events c1 h
    obtain ⟨nids, hsel, hlim, hev⟩ := getPendingEDUs_nids F um db cache s limit db1 events c1 h
    obtain ⟨k1, k2, k3⟩ := pending_nids_core nids (db.queueJSON.map Prod.fst)
      (fun n => (GetFederationQueuedEDU cache n).isSome)
      (fun n => (GetFederationQueuedEDU cache n).isNone)
      (fun n => isNone_eq_not_isSome _) hkeys
    refine ⟨nids, hsel, ?_, ?_, ?_, hlim⟩
    · intro n
      rw [hev, k1 n, hasPayload_iff_mem_keys]
      rfl
    · intro hn
      rw [hev]
      exact k2 hn
    · have : events.length = (events.map (fun x => x.1.GetNID)).length := by simp
      rw [this, hev]
      exact k3
  · intro um h1 h2 h3
    have hsel : SelectQueuePDUs F db s limit = .ok ((((db.queuePDUs.filter
        (fun r => r.serverName = s)).map QueuePDU.jsonNID).insertionSort (· ≤ ·)).take
        limit) := by
      simp [SelectQueuePDUs, h1]
    have hfetch : ∀ l, SelectQueueJSON F db l = .ok (db.queueJSON.filter (fun p => p.1 ∈ l)) := by
      intro l
      simp [SelectQueueJSON, h2 l]
    rw [getPendingPDUs_eq F um db cache s limit _ _ hsel (hfetch _)]
    have hall : (db.queueJSON.filter (fun p => decide (p.1 ∈ List.filter
        (fun n => (GetFederationQueuedPDU cache n).isNone) ((((db.queuePDUs.filter
        (fun r => r.serverName = s)).map QueuePDU.jsonNID).insertionSort (· ≤ ·)).take
        limit)))).all (fun p => (um p.2).isSome) = true := by
      rw [List.all_eq_true]
      intro p hp
      exact h3 p (List.mem_filter.1 hp).1
    simp only [hall, if_true]
  · intro um h1 h2 h3
    have hsel : SelectQueueEDUs F db s limit = .ok ((((db.queueEDUs.filter
        (fun r => r.serverName = s)).map QueueEDU.jsonNID).insertionSort (· ≤ ·)).take
        limit) := by
      simp [SelectQueueEDUs, h1]
    have hfetch : ∀ l, SelectQueueJSON F db l = .ok (db.queueJSON.filter (fun p => p.1 ∈ l)) := by
      intro l
      simp [SelectQueueJSON, h2 l]
    rw [getPendingEDUs_eq F um db cache s limit _ _ hsel (hfetch _)]
    have hall : (db.queueJSON.filter (fun p => decide (p.1 ∈ List.filter
        (fun n => (GetFederationQueuedEDU cache n).isNone) ((((db.queueEDUs.filter
        (fun r => r.serverName = s)).map QueueEDU.jsonNID).insertionSort (· ≤ ·)).take
        limit)))).all (fun p => (um p.2).isSome) = true := by
      rw [List.all_eq_true]
      intro p hp
      exact h3 p (List.mem_filter.1 hp).1
    simp only [hall, if_true]

/-- C12 witness: in `dangling` NID 2 (resp. 5) is selected but neither cached nor
stored; the call succeeds and returns the entries of the other two NIDs. -/
theorem C12_pending_entries_witness :
    (GetPendingPDUs noFaults strictUnmarshal dangling partCache "a" 10).1 = none ∧
    (GetPendingEDUs noFaults strictUnmarshal dangling partCache "a" 10).1 = none ∧
    (∃ nids : List Int, SelectQueuePDUs noFaults dangling "a" 10 = .ok nids ∧
      (∀ n, n ∈ List.map (fun x => x.1.GetNID)
          (GetPendingPDUs noFaults strictUnmarshal dangling partCache "a" 10).2.2.1 ↔
        n ∈ nids ∧ (cachedPDU partCache n = true ∨ hasPayload dangling n = true)) ∧
      (nids.Nodup → (List.map (fun x => x.1.GetNID)
          (GetPendingPDUs noFaults strictUnmarshal dangling partCache "a" 10).2.2.1).Nodup) ∧
      (GetPendingPDUs noFaults strictUnmarshal dangling partCache "a" 10).2.2.1.length
        ≤ nids.length ∧ nids.length ≤ 10) :=
  ⟨(C12_pending_entries noFaults dangling partCache "a" 10 (by decide)).2.2.1
      strictUnmarshal rfl (fun _ => rfl) (by decide),
   (C12_pending_entries noFaults dangling partCache "a" 10 (by decide)).2.2.2
      strictUnmarshal rfl (fun _ => rfl) (by decide),
   (C12_pending_entries noFaults dangling partCache "a" 10 (by decide)).1
      strictUnmarshal _ _ _ rfl⟩

/-! ### Reading twice -/

theorem fetched_keys_nodup (db : Tables) (l : List Int)
    (hkeys : (db.queueJSON.map Prod.fst).Nodup) :
    ((db.queueJSON.filter (fun p => decide (p.1 ∈ l))).map Prod.fst).Nodup :=
  List.Nodup.sublist ((List.filter_sublist _).map _) hkeys

theorem getPDU_after_fetch {P E : Type} (um : Blob → Option P) (db : Tables)
    (cache : Cache P E) (nids : List Int) (blobs : List (Int × Blob)) (c1 : Cache P E)
    (hkeys : (db.queueJSON.map Prod.fst).Nodup)
    (hb : blobs = db.queueJSON.filter (fun p => decide (p.1 ∈
      nids.filter (fun n => (GetFederationQueuedPDU cache n).isNone))))
    (hall : ∀ p ∈ blobs, (um p.2).isSome = true)
    (hc : c1 = blobs.foldl (fun c p => match um p.2 with
        | some e => StoreFederationQueuedPDU c p.1 e
        | none => c) cache) :
    (∀ p ∈ blobs, GetFederationQueuedPDU c1 p.1 = um p.2 ∧ p.1 ∈ nids ∧
      GetFederationQueuedPDU cache p.1 = none) ∧
    (∀ n, n ∉ blobs.map Prod.fst →
      GetFederationQueuedPDU c1 n = GetFederationQueuedPDU cache n) ∧
    (∀ n ∈ nids, GetFederationQueuedPDU c1 n = none →
      GetFederationQueuedPDU cache n = none ∧ n ∉ blobs.map Prod.fst ∧
      hasPayload db n = false) := by
  have hnd : (blobs.map Prod.fst).Nodup := by
    rw [hb]; exact fetched_keys_nodup db _ hkeys
  have h1 : ∀ p ∈ blobs, GetFederationQueuedPDU c1 p.1 = um p.2 ∧ p.1 ∈ nids ∧
      GetFederationQueuedPDU cache p.1 = none := by
    intro p hp
    have hs := hall p hp
    obtain ⟨e, he⟩ := Option.isSome_iff_exists.1 hs
    refine ⟨?_, ?_, ?_⟩
    · rw [hc, he]
      exact foldl_storePDU_mem um blobs cache p.1 p.2 e hnd hp he
    · rw [hb] at hp
      have := (List.mem_filter.1 hp).2
      simp only [decide_eq_true_eq] at this
      exact (List.mem_filter.1 this).1
    · rw [hb] at hp
      have := (List.mem_filter.1 hp).2
      simp only [decide_eq_true_eq] at this
      simpa using (List.mem_filter.1 this).2
  have h2 : ∀ n, n ∉ blobs.map Prod.fst →
      GetFederationQueuedPDU c1 n = GetFederationQueuedPDU cache n := by
    intro n hn
    rw [hc]
    exact foldl_storePDU_other um blobs cache n hn
  refine ⟨h1, h2, ?_⟩
  intro n hn hnone
  have hnk : n ∉ blobs.map Prod.fst := by
    intro hmem
    obtain ⟨p, hp, rfl⟩ := List.mem_map.1 hmem
    have := (h1 p hp).1
    rw [hnone] at this
    have hs := hall p hp
    rw [← this] at hs
    simp at hs
  have hcn : GetFederationQueuedPDU cache n = none := by rw [← h2 n hnk]; exact hnone
  refine ⟨hcn, hnk, ?_⟩
  cases hh : hasPayload db n with
  | false => rfl
  | true =>
    exfalso
    obtain ⟨p, hp, rfl⟩ := (hasPayload_iff db _).1 hh
    apply hnk
    rw [hb]
    refine List.mem_map.2 ⟨p, List.mem_filter.2 ⟨hp, ?_⟩, rfl⟩
    simp only [decide_eq_true_eq]
    exact List.mem_filter.2 ⟨hn, by simp [hcn]⟩

theorem getPendingPDUs_again {P E : Type} (G : Faults) (um : Blob → Option P) (db : Tables)
    (cache : Cache P E) (s : ServerName) (limit : Nat) (nids : List Int)
    (blobs : List (Int × Blob)) (c1 : Cache P E)
    (hkeys : (db.queueJSON.map Prod.fst).Nodup)
    (hb : blobs = db.queueJSON.filter (fun p => decide (p.1 ∈
      nids.filter (fun n => (GetFederationQueuedPDU cache n).isNone))))
    (hall : ∀ p ∈ blobs, (um p.2).isSome = true)
    (hc : c1 = blobs.foldl (fun c p => match um p.2 with
        | some e => StoreFederationQueuedPDU c p.1 e
        | none => c) cache)
    (hsel : SelectQueuePDUs G db s limit = .ok nids) :
    (∀ bl, SelectQueueJSON G db (resolveCachedPDUs c1 nids [] []).2 = .ok bl → bl = []) ∧
    (GetPendingPDUs G um db c1 s limit).2 =
      (db, nids.filterMap (fun n => (GetFederationQueuedPDU c1 n).map
        (fun e => (NewReceipt n, e))), c1) ∧
    (G.selectQueueJSON (resolveCachedPDUs c1 nids [] []).2 = none →
      (GetPendingPDUs G um db c1 s limit).1 = none) := by
  obtain ⟨_, _, h3⟩ := getPDU_after_fetch um db cache nids blobs c1 hkeys hb hall hc
  have hempty : ∀ bl, SelectQueueJSON G db
      (nids.filter (fun n => (GetFederationQueuedPDU c1 n).isNone)) = .ok bl → bl = [] := by
    intro bl hbl
    rw [selectQueueJSON_ok G db _ bl hbl, List.filter_eq_nil_iff]
    intro p hp hmem
    simp only [decide_eq_true_eq] at hmem
    have hm := List.mem_filter.1 hmem
    have hnone : GetFederationQueuedPDU c1 p.1 = none := by simpa using hm.2
    have := (h3 p.1 hm.1 hnone).2.2
    rw [(hasPayload_iff db p.1).2 ⟨p, hp, rfl⟩] at this
    exact absurd this (by decide)
  have hr : (resolveCachedPDUs c1 nids [] []).2 =
      nids.filter (fun n => (GetFederationQueuedPDU c1 n).isNone) := by
    rw [resolveCachedPDUs_eq]; rfl
  rw [hr]
  cases hfetch : SelectQueueJSON G db
      (nids.filter (fun n => (GetFederationQueuedPDU c1 n).isNone)) with
  | error e =>
    refine ⟨fun bl hbl => by simp at hbl, ?_, ?_⟩
    · simp [GetPendingPDUs, WriterDo, hsel, resolveCachedPDUs_eq, hfetch]
    · intro hG
      simp [SelectQueueJSON, hG] at hfetch
  | ok bl =>
    have hbl := hempty bl hfetch
    subst hbl
    refine ⟨fun bl2 hbl2 => by simp only [Except.ok.injEq] at hbl2; exact hbl2.symm, ?_, ?_⟩
    · rw [getPendingPDUs_eq G um db c1 s limit nids [] hsel hfetch]
      simp
    · intro _
      rw [getPendingPDUs_eq G um db c1 s limit nids [] hsel hfetch]
      simp

theorem hitsPDU_again_iff {P E : Type} (um : Blob → Option P) (db : Tables)
    (cache : Cache P E) (nids : List Int) (blobs : List (Int × Blob)) (c1 : Cache P E)
    (hkeys : (db.queueJSON.map Prod.fst).Nodup)
    (hb : blobs = db.queueJSON.filter (fun p => decide (p.1 ∈
      nids.filter (fun n => (GetFederationQueuedPDU cache n).isNone))))
    (hall : ∀ p ∈ blobs, (um p.2).isSome = true)
    (hc : c1 = blobs.foldl (fun c p => match um p.2 with
        | some e => StoreFederationQueuedPDU c p.1 e
        | none => c) cache) (x : Receipt × P) :
    x ∈ nids.filterMap (fun n => (GetFederationQueuedPDU c1 n).map
        (fun e => (NewReceipt n, e))) ↔
    x ∈ nids.filterMap (fun n => (GetFederationQueuedPDU cache n).map
        (fun e => (NewReceipt n, e))) ++
      blobs.filterMap (fun p => (um p.2).map (fun e => (NewReceipt p.1, e))) := by
  obtain ⟨h1, h2, _⟩ := getPDU_after_fetch um db cache nids blobs c1 hkeys hb hall hc
  simp only [List.mem_append, List.mem_filterMap, Option.map_eq_some']
  constructor
  · rintro ⟨n, hn, e, he, rfl⟩
    by_cases hk : n ∈ blobs.map Prod.fst
    · obtain ⟨p, hp, rfl⟩ := List.mem_map.1 hk
      right
      exact ⟨p, hp, e, by rw [← (h1 p hp).1]; exact he, rfl⟩
    · left
      exact ⟨n, hn, e, by rw [← h2 n hk]; exact he, rfl⟩
  · rintro (⟨n, hn, e, he, rfl⟩ | ⟨p, hp, e, he, rfl⟩)
    · have hk : n ∉ blobs.map Prod.fst := by
        intro hmem
        obtain ⟨p, hp, rfl⟩ := List.mem_map.1 hmem
        rw [(h1 p hp).2.2] at he
        simp at he
      exact ⟨n, hn, e, by rw [h2 n hk]; exact he, rfl⟩
    · exact ⟨p.1, (h1 p hp).2.1, e, by rw [(h1 p hp).1]; exact he, rfl⟩

theorem selectQueuePDUs_det (F G : Faults) (db : Tables) (s : ServerName) (limit : Nat)
    (nids : List Int) (h : SelectQueuePDUs F db s limit = .ok nids)
    (hG : G.selectQueuePDUs s limit = none) : SelectQueuePDUs G db s limit = .ok nids := by
  unfold SelectQueuePDUs at h ⊢
  cases hF : F.selectQueuePDUs s limit with
  | some e => simp [hF] at h
  | none =>
    simp only [hF] at h
    simp only [hG]
    exact h

theorem getEDU_after_fetch {P E : Type} (um : Blob → Option E) (db : Tables)
    (cache : Cache P E) (nids : List Int) (blobs : List (Int × Blob)) (c1 : Cache P E)
    (hkeys : (db.queueJSON.map Prod.fst).Nodup)
    (hb : blobs = db.queueJSON.filter (fun p => decide (p.1 ∈
      nids.filter (fun n => (GetFederationQueuedEDU cache n).isNone))))
    (hall : ∀ p ∈ blobs, (um p.2).isSome = true)
    (hc : c1 = blobs.foldl (fun c p => match um p.2 with
        | some e => StoreFederationQueuedEDU c p.1 e
        | none => c) cache) :
    (∀ p ∈ blobs, GetFederationQueuedEDU c1 p.1 = um p.2 ∧ p.1 ∈ nids ∧
      GetFederationQueuedEDU cache p.1 = none) ∧
    (∀ n, n ∉ blobs.map Prod.fst →
      GetFederationQueuedEDU c1 n = GetFederationQueuedEDU cache n) ∧
    (∀ n ∈ nids, GetFederationQueuedEDU c1 n = none →
      GetFederationQueuedEDU cache n = none ∧ n ∉ blobs.map Prod.fst ∧
      hasPayload db n = false) := by
  have hnd : (blobs.map Prod.fst).Nodup := by
    rw [hb]; exact fetched_keys_nodup db _ hkeys
  have h1 : ∀ p ∈ blobs, GetFederationQueuedEDU c1 p.1 = um p.2 ∧ p.1 ∈ nids ∧
      GetFederationQueuedEDU cache p.1 = none := by
    intro p hp
    have hs := hall p hp
    obtain ⟨e, he⟩ := Option.isSome_iff_exists.1 hs
    refine ⟨?_, ?_, ?_⟩
    · rw [hc, he]
      exact foldl_storeEDU_mem um blobs cache p.1 p.2 e hnd hp he
    · rw [hb] at hp
      have := (List.mem_filter.1 hp).2
      simp only [decide_eq_true_eq] at this
      exact (List.mem_filter.1 this).1
    · rw [hb] at hp
      have := (List.mem_filter.1 hp).2
      simp only [decide_eq_true_eq] at this
      simpa using (List.mem_filter.1 this).2
  have h2 : ∀ n, n ∉ blobs.map Prod.fst →
      GetFederationQueuedEDU c1 n = GetFederationQueuedEDU cache n := by
    intro n hn
    rw [hc]
    exact foldl_storeEDU_other um blobs cache n hn
  refine ⟨h1, h2, ?_⟩
  intro n hn hnone
  have hnk : n ∉ blobs.map Prod.fst := by
    intro hmem
    obtain ⟨p, hp, rfl⟩ := List.mem_map.1 hmem
    have := (h1 p hp).1
    rw [hnone] at this
    have hs := hall p hp
    rw [← this] at hs
    simp at hs
  have hcn : GetFederationQueuedEDU cache n = none := by rw [← h2 n hnk]; exact hnone
  refine ⟨hcn, hnk, ?_⟩
  cases hh : hasPayload db n with
  | false => rfl
  | true =>
    exfalso
    obtain ⟨p, hp, rfl⟩ := (hasPayload_iff db _).1 hh
    apply hnk
    rw [hb]
    refine List.mem_map.2 ⟨p, List.mem_filter.2 ⟨hp, ?_⟩, rfl⟩
    simp only [decide_eq_true_eq]
    exact List.mem_filter.2 ⟨hn, by simp [hcn]⟩

theorem getPendingEDUs_again {P E : Type} (G : Faults) (um : Blob → Option E) (db : Tables)
    (cache : Cache P E) (s : ServerName) (limit : Nat) (nids : List Int)
    (blobs : List (Int × Blob)) (c1 : Cache P E)
    (hkeys : (db.queueJSON.map Prod.fst).Nodup)
    (hb : blobs = db.queueJSON.filter (fun p => decide (p.1 ∈
      nids.filter (fun n => (GetFederationQueuedEDU cache n).isNone))))
    (hall : ∀ p ∈ blobs, (um p.2).isSome = true)
    (hc : c1 = blobs.foldl (fun c p => match um p.2 with
        | some e => StoreFederationQueuedEDU c p.1 e
        | none => c) cache)
    (hsel : SelectQueueEDUs G db s limit = .ok nids) :
    (∀ bl, SelectQueueJSON G db (resolveCachedEDUs c1 nids [] []).2 = .ok bl → bl = []) ∧
    (GetPendingEDUs G um db c1 s limit).2 =
      (db, nids.filterMap (fun n => (GetFederationQueuedEDU c1 n).map
        (fun e => (NewReceipt n, e))), c1) ∧
    (G.selectQueueJSON (resolveCachedEDUs c1 nids [] []).2 = none →
      (GetPendingEDUs G um db c1 s limit).1 = none) := by
  obtain ⟨_, _, h3⟩ := getEDU_after_fetch um db cache nids blobs c1 hkeys hb hall hc
  have hempty : ∀ bl, SelectQueueJSON G db
      (nids.filter (fun n => (GetFederationQueuedEDU c1 n).isNone)) = .ok bl → bl = [] := by
    intro bl hbl
    rw [selectQueueJSON_ok G db _ bl hbl, List.filter_eq_nil_iff]
    intro p hp hmem
    simp only [decide_eq_true_eq] at hmem
    have hm := List.mem_filter.1 hmem
    have hnone : GetFederationQueuedEDU c1 p.1 = none := by simpa using hm.2
    have := (h3 p.1 hm.1 hnone).2.2
    rw [(hasPayload_iff db p.1).2 ⟨p, hp, rfl⟩] at this
    exact absurd this (by decide)
  have hr : (resolveCachedEDUs c1 nids [] []).2 =
      nids.filter (fun n => (GetFederationQueuedEDU c1 n).isNone) := by
    rw [resolveCachedEDUs_eq]; rfl
  rw [hr]
  cases hfetch : SelectQueueJSON G db
      (nids.filter (fun n => (GetFederationQueuedEDU c1 n).isNone)) with
  | error e =>
    refine ⟨fun bl hbl => by simp at hbl, ?_, ?_⟩
    · simp [GetPendingEDUs, WriterDo, hsel, resolveCachedEDUs_eq, hfetch]
    · intro hG
      simp [SelectQueueJSON, hG] at hfetch
  | ok bl =>
    have hbl := hempty bl hfetch
    subst hbl
    refine ⟨fun bl2 hbl2 => by simp only [Except.ok.injEq] at hbl2; exact hbl2.symm, ?_, ?_⟩
    · rw [getPendingEDUs_eq G um db c1 s limit nids [] hsel hfetch]
      simp
    · intro _
      rw [getPendingEDUs_eq G um db c1 s limit nids [] hsel hfetch]
      simp

theorem hitsEDU_again_iff {P E : Type} (um : Blob → Option E) (db : Tables)
    (cache : Cache P E) (nids : List Int) (blobs : List (Int × Blob)) (c1 : Cache P E)
    (hkeys : (db.queueJSON.map Prod.fst).Nodup)
    (hb : blobs = db.queueJSON.filter (fun p => decide (p.1 ∈
      nids.filter (fun n => (GetFederationQueuedEDU cache n).isNone))))
    (hall : ∀ p ∈ blobs, (um p.2).isSome = true)
    (hc : c1 = blobs.foldl (fun c p => match um p.2 with
        | some e => StoreFederationQueuedEDU c p.1 e
        | none => c) cache) (x : Receipt × E) :
    x ∈ nids.filterMap (fun n => (GetFederationQueuedEDU c1 n).map
        (fun e => (NewReceipt n, e))) ↔
    x ∈ nids.filterMap (fun n => (GetFederationQueuedEDU cache n).map
        (fun e => (NewReceipt n, e))) ++
      blobs.filterMap (fun p => (um p.2).map (fun e => (NewReceipt p.1, e))) := by
  obtain ⟨h1, h2, _⟩ := getEDU_after_fetch um db cache nids blobs c1 hkeys hb hall hc
  simp only [List.mem_append, List.mem_filterMap, Option.map_eq_some']
  constructor
  · rintro ⟨n, hn, e, he, rfl⟩
    by_cases hk : n ∈ blobs.map Prod.fst
    · obtain ⟨p, hp, rfl⟩ := List.mem_map.1 hk
      right
      exact ⟨p, hp, e, by rw [← (h1 p hp).1]; exact he, rfl⟩
    · left
      exact ⟨n, hn, e, by rw [← h2 n hk]; exact he, rfl⟩
  · rintro (⟨n, hn, e, he, rfl⟩ | ⟨p, hp, e, he, rfl⟩)
    · have hk : n ∉ blobs.map Prod.fst := by
        intro hmem
        obtain ⟨p, hp, rfl⟩ := List.mem_map.1 hmem
        rw [(h1 p hp).2.2] at he
        simp at he
      exact ⟨n, hn, e, by rw [h2 n hk]; exact he, rfl⟩
    · exact ⟨p.1, (h1 p hp).2.1, e, by rw [(h1 p hp).1]; exact he, rfl⟩

theorem selectQueueEDUs_det (F G : Faults) (db : Tables) (s : ServerName) (limit : Nat)
    (nids : List Int) (h : SelectQueueEDUs F db s limit = .ok nids)
    (hG : G.selectQueueEDUs s limit = none) : SelectQueueEDUs G db s limit = .ok nids := by
  unfold SelectQueueEDUs at h ⊢
  cases hF : F.selectQueueEDUs s limit with
  | some e => simp [hF] at h
  | none =>
    simp only [hF] at h
    simp only [hG]
    exact h

/-- C13: on tables whose payload rows have distinct NIDs, after a successful
`GetPendingPDUs` (resp. `GetPendingEDUs`) the cache holds, for every fetched
blob, the event deserialized from it.  A second call with the same arguments on
the unchanged tables, whose select does not fail, builds a fetch list that
holds only NIDs absent from the cache and none of the NIDs fetched before;
the payload store returns no blob for it, so nothing is deserialized and the
cache is unchanged; and the call returns the same receipt-to-event entries as
the first, without error when its fetch statement does not fail. -/
theorem C13_read_twice {P E : Type} (F G : Faults) (db : Tables) (cache : Cache P E)
    (s : ServerName) (limit : Nat) (hkeys : (db.queueJSON.map Prod.fst).Nodup) :
    (∀ (um : Blob → Option P) (db1 : Tables) (events : List (Receipt × P))
      (c1 : Cache P E),
      GetPendingPDUs F um db cache s limit = (none, db1, events, c1) →
      ∃ (nids : List Int) (blobs : List (Int × Blob)),
        SelectQueuePDUs F db s limit = .ok nids ∧
        SelectQueueJSON F db (resolveCachedPDUs cache nids [] []).2 = .ok blobs ∧
        db1 = db ∧
        (∀ p ∈ blobs, (um p.2).isSome = true ∧ GetFederationQueuedPDU c1 p.1 = um p.2) ∧
        (G.selectQueuePDUs s limit = none →
          (∀ n ∈ (resolveCachedPDUs c1 nids [] []).2,
            GetFederationQueuedPDU c1 n = none ∧ n ∉ blobs.map Prod.fst) ∧
          (∀ bl, SelectQueueJSON G db1 (resolveCachedPDUs c1 nids [] []).2 = .ok bl →
            bl = []) ∧
          (∀ x, x ∈ (GetPendingPDUs G um db1 c1 s limit).2.2.1 ↔ x ∈ events) ∧
          (GetPendingPDUs G um db1 c1 s limit).2.1 = db1 ∧
          (GetPendingPDUs G um db1 c1 s limit).2.2.2 = c1 ∧
          (G.selectQueueJSON (resolveCachedPDUs c1 nids [] []).2 = none →
            (GetPendingPDUs G um db1 c1 s limit).1 = none))) ∧
    (∀ (um : Blob → Option E) (db1 : Tables) (events : List (Receipt × E))
      (c1 : Cache P E),
      GetPendingEDUs F um db cache s limit = (none, db1, events, c1) →
      ∃ (nids : List Int) (blobs : List (Int × Blob)),
        SelectQueueEDUs F db s limit = .ok nids ∧
        SelectQueueJSON F db (resolveCachedEDUs cache nids [] []).2 = .ok blobs ∧
        db1 = db ∧
        (∀ p ∈ blobs, (um p.2).isSome = true ∧ GetFederationQueuedEDU c1 p.1 = um p.2) ∧
        (G.selectQueueEDUs s limit = none →
          (∀ n ∈ (resolveCachedEDUs c1 nids [] []).2,
            GetFederationQueuedEDU c1 n = none ∧ n ∉ blobs.map Prod.fst) ∧
          (∀ bl, SelectQueueJSON G db1 (resolveCachedEDUs c1 nids [] []).2 = .ok bl →
            bl = []) ∧
          (∀ x, x ∈ (GetPendingEDUs G um db1 c1 s limit).2.2.1 ↔ x ∈ events) ∧
          (GetPendingEDUs G um db1 c1 s limit).2.1 = db1 ∧
          (GetPendingEDUs G um db1 c1 s limit).2.2.2 = c1 ∧
          (G.selectQueueJSON (resolveCachedEDUs c1 nids [] []).2 = none →
            (GetPendingEDUs G um db1 c1 s limit).1 = none))) := by
  constructor
  · intro um db1 events c1 h
    obtain ⟨nids, blobs, hsel, hfetch, hall, hdb, hev, hc⟩ :=
      getPendingPDUs_ok F um db cache s limit db1 events c1 h
    subst hdb
    have hb := selectQueueJSON_ok F db1 _ blobs hfetch
    obtain ⟨h1, _, h3⟩ := getPDU_after_fetch um db1 cache nids blobs c1 hkeys hb hall hc
    have hr0 : (resolveCachedPDUs cache nids [] []).2 =
        nids.filter (fun n => (GetFederationQueuedPDU cache n).isNone) := by
      rw [resolveCachedPDUs_eq]; rfl
    refine ⟨nids, blobs, hsel, by rw [hr0]; exact hfetch, rfl,
      fun p hp => ⟨hall p hp, (h1 p hp).1⟩, ?_⟩
    intro hG
    have hsel2 := selectQueuePDUs_det F G db1 s limit nids hsel hG
    obtain ⟨a1, a2, a3⟩ := getPendingPDUs_again G um db1 cache s limit nids blobs c1 hkeys
      hb hall hc hsel2
    refine ⟨?_, a1, ?_, ?_, ?_, a3⟩
    · intro n hn
      rw [resolveCachedPDUs_eq] at hn
      simp only [List.nil_append] at hn
      have hm := List.mem_filter.1 hn
      have hnone : GetFederationQueuedPDU c1 n = none := by simpa using hm.2
      exact ⟨hnone, (h3 n hm.1 hnone).2.1⟩
    · intro x
      rw [a2, hev]
      exact hitsPDU_again_iff um db1 cache nids blobs c1 hkeys hb hall hc x
    · rw [a2]
    · rw [a2]
  · intro um db1 events c1 h
    obtain ⟨nids, blobs, hsel, hfetch, hall, hdb, hev, hc⟩ :=
      getPendingEDUs_ok F um db cache s limit db1 events c1 h
    subst hdb
    have hb := selectQueueJSON_ok F db1 _ blobs hfetch
    obtain ⟨h1, _, h3⟩ := getEDU_after_fetch um db1 cache nids blobs c1 hkeys hb hall hc
    have hr0 : (resolveCachedEDUs cache nids [] []).2 =
        nids.filter (fun n => (GetFederationQueuedEDU cache n).isNone) := by
      rw [resolveCachedEDUs_eq]; rfl
    refine ⟨nids, blobs, hsel, by rw [hr0]; exact hfetch, rfl,
      fun p hp => ⟨hall p hp, (h1 p hp).1⟩, ?_⟩
    intro hG
    have hsel2 := selectQueueEDUs_det F G db1 s limit nids hsel hG
    obtain ⟨a1, a2, a3⟩ := getPendingEDUs_again G um db1 cache s limit nids blobs c1 hkeys
      hb hall hc hsel2
    refine ⟨?_, a1, ?_, ?_, ?_, a3⟩
    · intro n hn
      rw [resolveCachedEDUs_eq] at hn
      simp only [List.nil_append] at hn
      have hm := List.mem_filter.1 hn
      have hnone : GetFederationQueuedEDU c1 n = none := by simpa using hm.2
      exact ⟨hnone, (h3 n hm.1 hnone).2.1⟩
    · intro x
      rw [a2, hev]
      exact hitsEDU_again_iff um db1 cache nids blobs c1 hkeys hb hall hc x
    · rw [a2]
    · rw [a2]

/-- C13 witness: reading `dangling` for `a` twice; the second read returns the
entries of the first and leaves the cache filled by the first unchanged. -/
theorem C13_read_twice_witness :
    ((∀ x, x ∈ (GetPendingPDUs noFaults strictUnmarshal dangling
          (GetPendingPDUs noFaults strictUnmarshal dangling partCache "a" 10).2.2.2
          "a" 10).2.2.1 ↔
        x ∈ (GetPendingPDUs noFaults strictUnmarshal dangling partCache "a" 10).2.2.1) ∧
      (GetPendingPDUs noFaults strictUnmarshal dangling
          (GetPendingPDUs noFaults strictUnmarshal dangling partCache "a" 10).2.2.2
          "a" 10).2.2.2
        = (GetPendingPDUs noFaults strictUnmarshal dangling partCache "a" 10).2.2.2) ∧
    ((∀ x, x ∈ (GetPendingEDUs noFaults strictUnmarshal dangling
          (GetPendingEDUs noFaults strictUnmarshal dangling partCache "a" 10).2.2.2
          "a" 10).2.2.1 ↔
        x ∈ (GetPendingEDUs noFaults strictUnmarshal dangling partCache "a" 10).2.2.1) ∧
      (GetPendingEDUs noFaults strictUnmarshal dangling
          (GetPendingEDUs noFaults strictUnmarshal dangling partCache "a" 10).2.2.2
          "a" 10).2.2.2
        = (GetPendingEDUs noFaults strictUnmarshal dangling partCache "a" 10).2.2.2) :=
  ⟨match (C13_read_twice noFaults noFaults dangling partCache "a" 10 (by decide)).1
      strictUnmarshal dangling _ _ rfl with
    | ⟨_, _, _, _, _, _, h⟩ => ⟨(h rfl).2.2.1, (h rfl).2.2.2.2.1⟩,
   match (C13_read_twice noFaults noFaults dangling partCache "a" 10 (by decide)).2
      strictUnmarshal dangling _ _ rfl with
    | ⟨_, _, _, _, _, _, h⟩ => ⟨(h rfl).2.2.1, (h rfl).2.2.2.2.1⟩⟩

/-! ### Cache entries and payload rows -/

theorem cachedPDU_filter {P E : Type} (c c1 : Cache P E) (q : Int × P → Bool)
    (h : c1.queuedPDUs = c.queuedPDUs.filter q) (n : Int) (hn : cachedPDU c1 n = true) :
    cachedPDU c n = true := by
  rw [cachedPDU_iff] at hn ⊢
  obtain ⟨p, hp, rfl⟩ := hn
  rw [h] at hp
  exact ⟨p, (List.mem_filter.1 hp).1, rfl⟩

theorem collectPDUs_any {P E : Type} (F : Faults) (txn : Tables) :
    ∀ (nids dl : List Int) (c : Cache P E),
      (collectPDUs F txn nids dl c).2.2.queuedEDUs = c.queuedEDUs ∧
      ∀ n, cachedPDU (collectPDUs F txn nids dl c).2.2 n = true → cachedPDU c n = true := by
  intro nids
  induction nids with
  | nil => intro dl c; exact ⟨rfl, fun n h => h⟩
  | cons m rest ih =>
    intro dl c
    unfold collectPDUs
    cases hc : SelectQueuePDUReferenceJSONCount F txn m with
    | error e => exact ⟨rfl, fun n h => h⟩
    | ok count =>
      by_cases h0 : count = 0
      · simp only [h0, if_true]
        obtain ⟨a, b⟩ := ih (dl ++ [m]) (EvictFederationQueuedPDU c m)
        refine ⟨a, fun n hn => ?_⟩
        exact cachedPDU_filter c (EvictFederationQueuedPDU c m) _ rfl n (b n hn)
      · simp only [h0, if_false]
        exact ih dl c

theorem cleanPDUs_err {P E : Type} (F : Faults) (db : Tables) (cache : Cache P E)
    (s : ServerName) (receipts : List Receipt) (e : Error) (db1 : Tables) (c1 : Cache P E)
    (h : CleanPDUs F db cache s receipts = (some e, db1, c1)) :
    db1 = db ∧ c1.queuedEDUs = cache.queuedEDUs ∧
    ∀ n, cachedPDU c1 n = true → cachedPDU cache n = true := by
  unfold CleanPDUs at h
  by_cases hl : receipts.length = 0
  · simp only [hl, if_true, Prod.mk.injEq] at h
    obtain ⟨_, rfl, rfl⟩ := h
    exact ⟨rfl, rfl, fun n hn => hn⟩
  · rw [if_neg hl] at h
    simp only [WriterDo] at h
    cases hd : DeleteQueuePDUs F db s (receipts.map Receipt.GetNID) with
    | error e0 =>
      simp only [hd, Prod.mk.injEq] at h
      obtain ⟨_, rfl, rfl⟩ := h
      exact ⟨rfl, rfl, fun n hn => hn⟩
    | ok txn1 =>
      simp only [hd] at h
      have hany := collectPDUs_any F txn1 (receipts.map Receipt.GetNID) [] cache
      cases hc : collectPDUs F txn1 (receipts.map Receipt.GetNID) [] cache with
      | mk err rest =>
        obtain ⟨dl, c2⟩ := rest
        rw [hc] at hany
        cases err with
        | some e0 =>
          simp only [hc, Prod.mk.injEq] at h
          obtain ⟨_, rfl, rfl⟩ := h
          exact ⟨rfl, hany.1, hany.2⟩
        | none =>
          simp only [hc] at h
          by_cases hlen : dl.length > 0
          · simp only [hlen, if_true] at h
            cases hj : DeleteQueueJSON F txn1 dl with
            | error e0 =>
              simp only [hj, Prod.mk.injEq] at h
              obtain ⟨_, rfl, rfl⟩ := h
              exact ⟨rfl, hany.1, hany.2⟩
            | ok txn2 => simp [hj] at h
          · simp [hlen] at h

theorem foldl_storePDU_cached {P E : Type} (um : Blob → Option P) :
    ∀ (blobs : List (Int × Blob)) (c : Cache P E) (n : Int),
      cachedPDU (blobs.foldl (fun c p => match um p.2 with
        | some e => StoreFederationQueuedPDU c p.1 e
        | none => c) c) n = true →
      cachedPDU c n = true ∨ n ∈ blobs.map Prod.fst := by
  intro blobs
  induction blobs with
  | nil => intro c n h; exact Or.inl h
  | cons p rest ih =>
    intro c n h
    rw [List.foldl_cons] at h
    rcases ih _ n h with h1 | h1
    · cases hu : um p.2 with
      | none => rw [hu] at h1; exact Or.inl h1
      | some e =>
        rw [hu] at h1
        by_cases hn : n = p.1
        · exact Or.inr (by rw [hn]; simp)
        · left
          unfold cachedPDU at h1 ⊢
          rw [getPDU_store, if_neg hn] at h1
          exact h1
    · exact Or.inr (List.mem_cons_of_mem _ h1)

theorem getPendingPDUs_any {P E : Type} (F : Faults) (um : Blob → Option P) (db : Tables)
    (cache : Cache P E) (s : ServerName) (limit : Nat) :
    (GetPendingPDUs F um db cache s limit).2.1 = db ∧
    (GetPendingPDUs F um db cache s limit).2.2.2.queuedEDUs = cache.queuedEDUs ∧
    ∀ n, cachedPDU (GetPendingPDUs F um db cache s limit).2.2.2 n = true →
      cachedPDU cache n = true ∨ hasPayload db n = true := by
  cases hsel : SelectQueuePDUs F db s limit with
  | error e =>
    simp only [GetPendingPDUs, WriterDo, hsel]
    exact ⟨trivial, trivial, fun n hn => Or.inl hn⟩
  | ok nids =>
    cases hfetch : SelectQueueJSON F db
        (nids.filter (fun n => (GetFederationQueuedPDU cache n).isNone)) with
    | error e =>
      simp only [GetPendingPDUs, WriterDo, hsel, resolveCachedPDUs_eq, List.nil_append,
        hfetch]
      exact ⟨trivial, trivial, fun n hn => Or.inl hn⟩
    | ok blobs =>
      rw [getPendingPDUs_eq F um db cache s limit nids blobs hsel hfetch]
      refine ⟨rfl, foldl_storePDU_kind um _ cache, ?_⟩
      intro n hn
      rcases foldl_storePDU_cached um _ cache n hn with h1 | h1
      · exact Or.inl h1
      · right
        obtain ⟨p, hp, rfl⟩ := List.mem_map.1 h1
        have hp2 := (List.takeWhile_sublist _).subset hp
        rw [selectQueueJSON_ok F db _ blobs hfetch] at hp2
        exact (hasPayload_iff db p.1).2 ⟨p, (List.mem_filter.1 hp2).1, rfl⟩

theorem cachedEDU_filter {P E : Type} (c c1 : Cache P E) (q : Int × E → Bool)
    (h : c1.queuedEDUs = c.queuedEDUs.filter q) (n : Int) (hn : cachedEDU c1 n = true) :
    cachedEDU c n = true := by
  rw [cachedEDU_iff] at hn ⊢
  obtain ⟨p, hp, rfl⟩ := hn
  rw [h] at hp
  exact ⟨p, (List.mem_filter.1 hp).1, rfl⟩

theorem collectEDUs_any {P E : Type} (F : Faults) (txn : Tables) :
    ∀ (nids dl : List Int) (c : Cache P E),
      (collectEDUs F txn nids dl c).2.2.queuedPDUs = c.queuedPDUs ∧
      ∀ n, cachedEDU (collectEDUs F txn nids dl c).2.2 n = true → cachedEDU c n = true := by
  intro nids
  induction nids with
  | nil => intro dl c; exact ⟨rfl, fun n h => h⟩
  | cons m rest ih =>
    intro dl c
    unfold collectEDUs
    cases hc : SelectQueueEDUReferenceJSONCount F txn m with
    | error e => exact ⟨rfl, fun n h => h⟩
    | ok count =>
      by_cases h0 : count = 0
      · simp only [h0, if_true]
        obtain ⟨a, b⟩ := ih (dl ++ [m]) (EvictFederationQueuedEDU c m)
        refine ⟨a, fun n hn => ?_⟩
        exact cachedEDU_filter c (EvictFederationQueuedEDU c m) _ rfl n (b n hn)
      · simp only [h0, if_false]
        exact ih dl c

theorem cleanEDUs_err {P E : Type} (F : Faults) (db : Tables) (cache : Cache P E)
    (s : ServerName) (receipts : List Receipt) (e : Error) (db1 : Tables) (c1 : Cache P E)
    (h : CleanEDUs F db cache s receipts = (some e, db1, c1)) :
    db1 = db ∧ c1.queuedPDUs = cache.queuedPDUs ∧
    ∀ n, cachedEDU c1 n = true → cachedEDU cache n = true := by
  unfold CleanEDUs at h
  by_cases hl : receipts.length = 0
  · simp only [hl, if_true, Prod.mk.injEq] at h
    obtain ⟨_, rfl, rfl⟩ := h
    exact ⟨rfl, rfl, fun n hn => hn⟩
  · rw [if_neg hl] at h
    simp only [WriterDo] at h
    cases hd : DeleteQueueEDUs F db s (receipts.map Receipt.GetNID) with
    | error e0 =>
      simp only [hd, Prod.mk.injEq] at h
      obtain ⟨_, rfl, rfl⟩ := h
      exact ⟨rfl, rfl, fun n hn => hn⟩
    | ok txn1 =>
      simp only [hd] at h
      have hany := collectEDUs_any F txn1 (receipts.map Receipt.GetNID) [] cache
      cases hc : collectEDUs F txn1 (receipts.map Receipt.GetNID) [] cache with
      | mk err rest =>
        obtain ⟨dl, c2⟩ := rest
        rw [hc] at hany
        cases err with
        | some e0 =>
          simp only [hc, Prod.mk.injEq] at h
          obtain ⟨_, rfl, rfl⟩ := h
          exact ⟨rfl, hany.1, hany.2⟩
        | none =>
          simp only [hc] at h
          by_cases hlen : dl.length > 0
          · simp only [hlen, if_true] at h
            cases hj : DeleteQueueJSON F txn1 dl with
            | error e0 =>
              simp only [hj, Prod.mk.injEq] at h
              obtain ⟨_, rfl, rfl⟩ := h
              exact ⟨rfl, hany.1, hany.2⟩
            | ok txn2 => simp [hj] at h
          · simp [hlen] at h

theorem foldl_storeEDU_cached {P E : Type} (um : Blob → Option E) :
    ∀ (blobs : List (Int × Blob)) (c : Cache P E) (n : Int),
      cachedEDU (blobs.foldl (fun c p => match um p.2 with
        | some e => StoreFederationQueuedEDU c p.1 e
        | none => c) c) n = true →
      cachedEDU c n = true ∨ n ∈ blobs.map Prod.fst := by
  intro blobs
  induction blobs with
  | nil => intro c n h; exact Or.inl h
  | cons p rest ih =>
    intro c n h
    rw [List.foldl_cons] at h
    rcases ih _ n h with h1 | h1
    · cases hu : um p.2 with
      | none => rw [hu] at h1; exact Or.inl h1
      | some e =>
        rw [hu] at h1
        by_cases hn : n = p.1
        · exact Or.inr (by rw [hn]; simp)
        · left
          unfold cachedEDU at h1 ⊢
          rw [getEDU_store, if_neg hn] at h1
          exact h1
    · exact Or.inr (List.mem_cons_of_mem _ h1)

theorem getPendingEDUs_any {P E : Type} (F : Faults) (um : Blob → Option E) (db : Tables)
    (cache : Cache P E) (s : ServerName) (limit : Nat) :
    (GetPendingEDUs F um db cache s limit).2.1 = db ∧
    (GetPendingEDUs F um db cache s limit).2.2.2.queuedPDUs = cache.queuedPDUs ∧
    ∀ n, cachedEDU (GetPendingEDUs F um db cache s limit).2.2.2 n = true →
      cachedEDU cache n = true ∨ hasPayload db n = true := by
  cases hsel : SelectQueueEDUs F db s limit with
  | error e =>
    simp only [GetPendingEDUs, WriterDo, hsel]
    exact ⟨trivial, trivial, fun n hn => Or.inl hn⟩
  | ok nids =>
    cases hfetch : SelectQueueJSON F db
        (nids.filter (fun n => (GetFederationQueuedEDU cache n).isNone)) with
    | error e =>
      simp only [GetPendingEDUs, WriterDo, hsel, resolveCachedEDUs_eq, List.nil_append,
        hfetch]
      exact ⟨trivial, trivial, fun n hn => Or.inl hn⟩
    | ok blobs =>
      rw [getPendingEDUs_eq F um db cache s limit nids blobs hsel hfetch]
      refine ⟨rfl, foldl_storeEDU_kind um _ cache, ?_⟩
      intro n hn
      rcases foldl_storeEDU_cached um _ cache n hn with h1 | h1
      · exact Or.inl h1
      · right
        obtain ⟨p, hp, rfl⟩ := List.mem_map.1 h1
        have hp2 := (List.takeWhile_sublist _).subset hp
        rw [selectQueueJSON_ok F db _ blobs hfetch] at hp2
        exact (hasPayload_iff db p.1).2 ⟨p, (List.mem_filter.1 hp2).1, rfl⟩

theorem cleanPDUs_backed_own {P E : Type} (F : Faults) (db : Tables) (cache : Cache P E)
    (s : ServerName) (receipts : List Receipt) (hb : PDUCacheBacked db cache) :
    PDUCacheBacked (CleanPDUs F db cache s receipts).2.1
      (CleanPDUs F db cache s receipts).2.2 := by
  cases hres : CleanPDUs F db cache s receipts with
  | mk err rest =>
    obtain ⟨db1, c1⟩ := rest
    cases err with
    | some e =>
      obtain ⟨rfl, _, h3⟩ := cleanPDUs_err F db cache s receipts e db1 c1 hres
      exact fun n hn => hb n (h3 n hn)
    | none =>
      obtain ⟨_, _, hj, hc, _⟩ := cleanPDUs_ok F db cache s receipts db1 c1 hres
      intro n hn
      show hasPayload db1 n = true
      have hn2 : cachedPDU c1 n = true := hn
      rw [cachedPDU_iff, hc, exists_key_filter, ← cachedPDU_iff] at hn2
      rw [hasPayload_iff, hj, exists_key_filter, ← hasPayload_iff]
      exact ⟨hb n hn2.1, hn2.2⟩

theorem cleanPDUs_backed_other {P E : Type} (F : Faults) (db : Tables) (cache : Cache P E)
    (s : ServerName) (receipts : List Receipt) (hb : EDUCacheBacked db cache)
    (hk : ∀ r ∈ receipts, cachedEDU cache r.GetNID = false) :
    EDUCacheBacked (CleanPDUs F db cache s receipts).2.1
      (CleanPDUs F db cache s receipts).2.2 := by
  cases hres : CleanPDUs F db cache s receipts with
  | mk err rest =>
    obtain ⟨db1, c1⟩ := rest
    cases err with
    | some e =>
      obtain ⟨rfl, h2, _⟩ := cleanPDUs_err F db cache s receipts e db1 c1 hres
      intro n hn
      have hn2 : cachedEDU c1 n = true := hn
      rw [cachedEDU_iff, h2, ← cachedEDU_iff] at hn2
      exact hb n hn2
    | none =>
      obtain ⟨_, _, hj, _, hc⟩ := cleanPDUs_ok F db cache s receipts db1 c1 hres
      intro n hn
      show hasPayload db1 n = true
      have hn2 : cachedEDU c1 n = true := hn
      rw [cachedEDU_iff, hc, ← cachedEDU_iff] at hn2
      rw [hasPayload_iff, hj, exists_key_filter, ← hasPayload_iff]
      refine ⟨hb n hn2, ?_⟩
      intro hmem
      obtain ⟨r, hr, rfl⟩ := List.mem_map.1 (List.mem_filter.1 hmem).1
      rw [hk r hr] at hn2
      exact absurd hn2 (by decide)

theorem getPendingPDUs_backed_own {P E : Type} (F : Faults) (um : Blob → Option P)
    (db : Tables) (cache : Cache P E) (s : ServerName) (limit : Nat)
    (hb : PDUCacheBacked db cache) :
    PDUCacheBacked (GetPendingPDUs F um db cache s limit).2.1
      (GetPendingPDUs F um db cache s limit).2.2.2 := by
  obtain ⟨h1, _, h3⟩ := getPendingPDUs_any F um db cache s limit
  intro n hn
  rw [h1]
  rcases h3 n hn with h | h
  · exact hb n h
  · exact h

theorem getPendingPDUs_backed_other {P E : Type} (F : Faults) (um : Blob → Option P)
    (db : Tables) (cache : Cache P E) (s : ServerName) (limit : Nat)
    (hb : EDUCacheBacked db cache) :
    EDUCacheBacked (GetPendingPDUs F um db cache s limit).2.1
      (GetPendingPDUs F um db cache s limit).2.2.2 := by
  obtain ⟨h1, h2, _⟩ := getPendingPDUs_any F um db cache s limit
  intro n hn
  rw [h1]
  have hn2 : cachedEDU (GetPendingPDUs F um db cache s limit).2.2.2 n = true := hn
  rw [cachedEDU_iff, h2, ← cachedEDU_iff] at hn2
  exact hb n hn2

theorem cleanEDUs_backed_own {P E : Type} (F : Faults) (db : Tables) (cache : Cache P E)
    (s : ServerName) (receipts : List Receipt) (hb : EDUCacheBacked db cache) :
    EDUCacheBacked (CleanEDUs F db cache s receipts).2.1
      (CleanEDUs F db cache s receipts).2.2 := by
  cases hres : CleanEDUs F db cache s receipts with
  | mk err rest =>
    obtain ⟨db1, c1⟩ := rest
    cases err with
    | some e =>
      obtain ⟨rfl, _, h3⟩ := cleanEDUs_err F db cache s receipts e db1 c1 hres
      exact fun n hn => hb n (h3 n hn)
    | none =>
      obtain ⟨_, _, hj, hc, _⟩ := cleanEDUs_ok F db cache s receipts db1 c1 hres
      intro n hn
      show hasPayload db1 n = true
      have hn2 : cachedEDU c1 n = true := hn
      rw [cachedEDU_iff, hc, exists_key_filter, ← cachedEDU_iff] at hn2
      rw [hasPayload_iff, hj, exists_key_filter, ← hasPayload_iff]
      exact ⟨hb n hn2.1, hn2.2⟩

theorem cleanEDUs_backed_other {P E : Type} (F : Faults) (db : Tables) (cache : Cache P E)
    (s : ServerName) (receipts : List Receipt) (hb : PDUCacheBacked db cache)
    (hk : ∀ r ∈ receipts, cachedPDU cache r.GetNID = false) :
    PDUCacheBacked (CleanEDUs F db cache s receipts).2.1
      (CleanEDUs F db cache s receipts).2.2 := by
  cases hres : CleanEDUs F db cache s receipts with
  | mk err rest =>
    obtain ⟨db1, c1⟩ := rest
    cases err with
    | some e =>
      obtain ⟨rfl, h2, _⟩ := cleanEDUs_err F db cache s receipts e db1 c1 hres
      intro n hn
      have hn2 : cachedPDU c1 n = true := hn
      rw [cachedPDU_iff, h2, ← cachedPDU_iff] at hn2
      exact hb n hn2
    | none =>
      obtain ⟨_, _, hj, _, hc⟩ := cleanEDUs_ok F db cache s receipts db1 c1 hres
      intro n hn
      show hasPayload db1 n = true
      have hn2 : cachedPDU c1 n = true := hn
      rw [cachedPDU_iff, hc, ← cachedPDU_iff] at hn2
      rw [hasPayload_iff, hj, exists_key_filter, ← hasPayload_iff]
      refine ⟨hb n hn2, ?_⟩
      intro hmem
      obtain ⟨r, hr, rfl⟩ := List.mem_map.1 (List.mem_filter.1 hmem).1
      rw [hk r hr] at hn2
      exact absurd hn2 (by decide)

theorem getPendingEDUs_backed_own {P E : Type} (F : Faults) (um : Blob → Option E)
    (db : Tables) (cache : Cache P E) (s : ServerName) (limit : Nat)
    (hb : EDUCacheBacked db cache) :
    EDUCacheBacked (GetPendingEDUs F um db cache s limit).2.1
      (GetPendingEDUs F um db cache s limit).2.2.2 := by
  obtain ⟨h1, _, h3⟩ := getPendingEDUs_any F um db cache s limit
  intro n hn
  rw [h1]
  rcases h3 n hn with h | h
  · exact hb n h
  · exact h

theorem getPendingEDUs_backed_other {P E : Type} (F : Faults) (um : Blob → Option E)
    (db : Tables) (cache : Cache P E) (s : ServerName) (limit : Nat)
    (hb : PDUCacheBacked db cache) :
    PDUCacheBacked (GetPendingEDUs F um db cache s limit).2.1
      (GetPendingEDUs F um db cache s limit).2.2.2 := by
  obtain ⟨h1, h2, _⟩ := getPendingEDUs_any F um db cache s limit
  intro n hn
  rw [h1]
  have hn2 : cachedPDU (GetPendingEDUs F um db cache s limit).2.2.2 n = true := hn
  rw [cachedPDU_iff, h2, ← cachedPDU_iff] at hn2
  exact hb n hn2

theorem sweep_backed_edu {P E : Type} (F : Faults) (db : Tables) (cache : Cache P E)
    (now : Int) (hb : EDUCacheBacked db cache) :
    EDUCacheBacked (DeleteExpiredEDUs F db cache now).2.1
      (DeleteExpiredEDUs F db cache now).2.2 := by
  cases hres : DeleteExpiredEDUs F db cache now with
  | mk err rest =>
    obtain ⟨db1, c1⟩ := rest
    cases err with
    | some e =>
      obtain ⟨rfl, rfl⟩ := deleteExpiredEDUs_err F db cache now e db1 c1 hres
      exact hb
    | none =>
      obtain ⟨_, _, hj, hc⟩ := deleteExpiredEDUs_ok F db cache now db1 c1 hres
      intro n hn
      show hasPayload db1 n = true
      have hn2 : cachedEDU c1 n = true := hn
      rw [hc, foldl_evictEDU, cachedEDU_iff, exists_key_filter, ← cachedEDU_iff] at hn2
      rw [hasPayload_iff, hj, exists_key_filter, ← hasPayload_iff]
      exact ⟨hb n hn2.1, hn2.2⟩

theorem sweep_backed_pdu {P E : Type} (F : Faults) (db : Tables) (cache : Cache P E)
    (now : Int) (hb : PDUCacheBacked db cache)
    (hk : ∀ r ∈ db.queueEDUs, cachedPDU cache r.jsonNID = false) :
    PDUCacheBacked (DeleteExpiredEDUs F db cache now).2.1
      (DeleteExpiredEDUs F db cache now).2.2 := by
  cases hres : DeleteExpiredEDUs F db cache now with
  | mk err rest =>
    obtain ⟨db1, c1⟩ := rest
    cases err with
    | some e =>
      obtain ⟨rfl, rfl⟩ := deleteExpiredEDUs_err F db cache now e db1 c1 hres
      exact hb
    | none =>
      obtain ⟨_, _, hj, hc⟩ := deleteExpiredEDUs_ok F db cache now db1 c1 hres
      intro n hn
      show hasPayload db1 n = true
      have hn2 : cachedPDU c1 n = true := hn
      rw [hc, foldl_evictEDU] at hn2
      have hn3 : cachedPDU cache n = true := hn2
      rw [hasPayload_iff, hj, exists_key_filter, ← hasPayload_iff]
      refine ⟨hb n hn3, ?_⟩
      intro hmem
      obtain ⟨r, hr, _, rfl⟩ := (mem_selected_iff db _ _).1 hmem
      rw [hk r hr] at hn3
      exact absurd hn3 (by decide)

theorem splitCache_pdu_backed : PDUCacheBacked fanOut splitCache := by
  intro n hn
  rw [cachedPDU_iff] at hn
  obtain ⟨p, hp, rfl⟩ := hn
  simp only [splitCache, List.mem_singleton] at hp
  subst hp
  decide

theorem splitCache_edu_backed : EDUCacheBacked fanOut splitCache := by
  intro n hn
  rw [cachedEDU_iff] at hn
  obtain ⟨p, hp, rfl⟩ := hn
  simp only [splitCache, List.mem_singleton] at hp
  subst hp
  decide

/-- C16: the predicate that every NID held in the PDU cache has a payload row,
and the predicate that every NID held in the EDU cache has one, are each
preserved by `GetPendingPDUs`, `GetPendingEDUs`, `CleanPDUs`, `CleanEDUs` and
`DeleteExpiredEDUs`, whatever the outcome of the call, provided PDU and EDU
payloads do not share a NID: no receipt given to `CleanEDUs` and no NID with an
EDU association is held in the PDU cache, and no receipt given to `CleanPDUs`
is held in the EDU cache. -/
theorem C16_cache_backed {P E : Type} (F : Faults) (db : Tables) (cache : Cache P E) :
    (PDUCacheBacked db cache →
      (∀ (um : Blob → Option P) (s : ServerName) (limit : Nat),
        PDUCacheBacked (GetPendingPDUs F um db cache s limit).2.1
          (GetPendingPDUs F um db cache s limit).2.2.2) ∧
      (∀ (um : Blob → Option E) (s : ServerName) (limit : Nat),
        PDUCacheBacked (GetPendingEDUs F um db cache s limit).2.1
          (GetPendingEDUs F um db cache s limit).2.2.2) ∧
      (∀ (s : ServerName) (receipts : List Receipt),
        PDUCacheBacked (CleanPDUs F db cache s receipts).2.1
          (CleanPDUs F db cache s receipts).2.2) ∧
      (∀ (s : ServerName) (receipts : List Receipt),
        (∀ r ∈ receipts, cachedPDU cache r.GetNID = false) →
        PDUCacheBacked (CleanEDUs F db cache s receipts).2.1
          (CleanEDUs F db cache s receipts).2.2) ∧
      (∀ now : Int, (∀ r ∈ db.queueEDUs, cachedPDU cache r.jsonNID = false) →
        PDUCacheBacked (DeleteExpiredEDUs F db cache now).2.1
          (DeleteExpiredEDUs F db cache now).2.2)) ∧
    (EDUCacheBacked db cache →
      (∀ (um : Blob → Option P) (s : ServerName) (limit : Nat),
        EDUCacheBacked (GetPendingPDUs F um db cache s limit).2.1
          (GetPendingPDUs F um db cache s limit).2.2.2) ∧
      (∀ (um : Blob → Option E) (s : ServerName) (limit : Nat),
        EDUCacheBacked (GetPendingEDUs F um db cache s limit).2.1
          (GetPendingEDUs F um db cache s limit).2.2.2) ∧
      (∀ (s : ServerName) (receipts : List Receipt),
        (∀ r ∈ receipts, cachedEDU cache r.GetNID = false) →
        EDUCacheBacked (CleanPDUs F db cache s receipts).2.1
          (CleanPDUs F db cache s receipts).2.2) ∧
      (∀ (s : ServerName) (receipts : List Receipt),
        EDUCacheBacked (CleanEDUs F db cache s receipts).2.1
          (CleanEDUs F db cache s receipts).2.2) ∧
      (∀ now : Int,
        EDUCacheBacked (DeleteExpiredEDUs F db cache now).2.1
          (DeleteExpiredEDUs F db cache now).2.2)) := by
  constructor
  · intro hb
    exact ⟨fun um s limit => getPendingPDUs_backed_own F um db cache s limit hb,
      fun um s limit => getPendingEDUs_backed_other F um db cache s limit hb,
      fun s receipts => cleanPDUs_backed_own F db cache s receipts hb,
      fun s receipts hk => cleanEDUs_backed_other F db cache s receipts hb hk,
      fun now hk => sweep_backed_pdu F db cache now hb hk⟩
  · intro hb
    exact ⟨fun um s limit => getPendingPDUs_backed_other F um db cache s limit hb,
      fun um s limit => getPendingEDUs_backed_own F um db cache s limit hb,
      fun s receipts hk => cleanPDUs_backed_other F db cache s receipts hb hk,
      fun s receipts => cleanEDUs_backed_own F db cache s receipts hb,
      fun now => sweep_backed_edu F db cache now hb⟩

/-- C16 witness: `fanOut` with NID 1 cached as a PDU and NID 2 as an EDU; a
failing `CleanPDUs`, a `CleanEDUs` and a sweep that deletes the payload of
NID 2. -/
theorem C16_cache_backed_witness :
    PDUCacheBacked (CleanPDUs (countFailsFor 1) fanOut splitCache "a" [⟨1⟩]).2.1
      (CleanPDUs (countFailsFor 1) fanOut splitCache "a" [⟨1⟩]).2.2 ∧
    PDUCacheBacked (CleanEDUs noFaults fanOut splitCache "a" [⟨2⟩]).2.1
      (CleanEDUs noFaults fanOut splitCache "a" [⟨2⟩]).2.2 ∧
    PDUCacheBacked (DeleteExpiredEDUs noFaults fanOut splitCache 70000000000).2.1
      (DeleteExpiredEDUs noFaults fanOut splitCache 70000000000).2.2 ∧
    EDUCacheBacked (DeleteExpiredEDUs noFaults fanOut splitCache 70000000000).2.1
      (DeleteExpiredEDUs noFaults fanOut splitCache 70000000000).2.2 ∧
    EDUCacheBacked (CleanPDUs noFaults fanOut splitCache "b" [⟨1⟩]).2.1
      (CleanPDUs noFaults fanOut splitCache "b" [⟨1⟩]).2.2 :=
  ⟨((C16_cache_backed (countFailsFor 1) fanOut splitCache).1 splitCache_pdu_backed).2.2.1
      "a" [⟨1⟩],
   ((C16_cache_backed noFaults fanOut splitCache).1 splitCache_pdu_backed).2.2.2.1
      "a" [⟨2⟩] (by decide),
   ((C16_cache_backed noFaults fanOut splitCache).1 splitCache_pdu_backed).2.2.2.2
      70000000000 (by decide),
   ((C16_cache_backed noFaults fanOut splitCache).2 splitCache_edu_backed).2.2.2.2
      70000000000,
   ((C16_cache_backed noFaults fanOut splitCache).2 splitCache_edu_backed).2.2.1
      "b" [⟨1⟩] (by decide)⟩

/-! ### Account data -/

theorem mapGet_map_set (data : List (String × List String)) (k : String) (v : List String)
    (k2 : String) :
    mapGet (data.map (fun p => if p.1 = k then (k, v) else p)) k2 =
      if k2 = k then (if data.any (fun p => p.1 = k) then v else []) else mapGet data k2 := by
  induction data with
  | nil => by_cases h : k2 = k <;> simp [mapGet, h]
  | cons p rest ih =>
    unfold mapGet at ih ⊢
    by_cases hp : p.1 = k
    · by_cases h : k2 = k
      · subst h
        simp [List.find?_cons, hp]
      · have h2 : ¬ k = k2 := fun e => h e.symm
        have h3 : ¬ p.1 = k2 := fun e => h (e.symm.trans hp)
        simp only [List.map_cons, hp, if_true, List.find?_cons, h2, decide_False, h3]
        rw [ih]
        simp [h]
    · by_cases h : p.1 = k2
      · have h2 : ¬ k2 = k := fun e => hp (h.trans e)
        simp [List.find?_cons, hp, h, h2]
      · by_cases hk : k2 = k
        · subst hk
          simp only [List.map_cons, hp, if_false, List.find?_cons, h, decide_False,
            List.any_cons, Bool.false_or]
          rw [ih]
          simp
        · simp only [List.map_cons, hp, if_false, List.find?_cons, h, decide_False]
          rw [ih]
          simp [hk]

theorem mapGet_mapSet (data : List (String × List String)) (k : String) (v : List String)
    (k2 : String) :
    mapGet (mapSet data k v) k2 = if k2 = k then v else mapGet data k2 := by
  unfold mapSet
  by_cases hany : data.any (fun p => p.1 = k) = true
  · rw [if_pos hany, mapGet_map_set]
    by_cases h : k2 = k
    · simp [h, hany]
    · simp [h]
  · rw [if_neg hany]
    have hnone : data.find? (fun p => decide (p.1 = k)) = none := by
      rw [List.find?_eq_none]
      intro p hp hk
      exact hany (List.any_eq_true.2 ⟨p, hp, hk⟩)
    unfold mapGet
    rw [List.find?_append]
    by_cases h : k2 = k
    · subst h
      simp [hnone]
    · have h2 : ¬ k = k2 := fun e => h e.symm
      simp [h, h2]

theorem mapSet_ne_nil (data : List (String × List String)) (k : String) (v : List String) :
    mapSet data k v ≠ [] := by
  unfold mapSet
  by_cases hany : data.any (fun p => p.1 = k) = true
  · rw [if_pos hany]
    cases data with
    | nil => simp at hany
    | cons p rest => simp
  · rw [if_neg hany]
    simp

theorem mapSet_values (data : List (String × List String)) (k : String) (v : List String)
    (hd : ∀ p ∈ data, p.2 ≠ []) (hv : v ≠ []) : ∀ p ∈ mapSet data k v, p.2 ≠ [] := by
  unfold mapSet
  by_cases hany : data.any (fun p => p.1 = k) = true
  · rw [if_pos hany]
    intro p hp
    obtain ⟨q, hq, rfl⟩ := List.mem_map.1 hp
    by_cases hk : q.1 = k
    · simpa [hk] using hv
    · simpa [hk] using hd q hq
  · rw [if_neg hany]
    intro p hp
    rcases List.mem_append.1 hp with h | h
    · exact hd p h
    · simp only [List.mem_singleton] at h
      subst h
      exact hv

theorem scanAccountData_step (row : AccountDataRow)
    (rest : List (Except Error AccountDataRow)) (data : List (String × List String))
    (pos : Int) :
    scanAccountData (.ok row :: rest) data pos =
      scanAccountData rest (mapSet data row.roomID (mapGet data row.roomID ++ [row.dataType]))
        (max pos row.id) := by
  have hd : (if (mapGet data row.roomID).length > 0 then
        mapSet data row.roomID (mapGet data row.roomID ++ [row.dataType])
      else mapSet data row.roomID [row.dataType]) =
      mapSet data row.roomID (mapGet data row.roomID ++ [row.dataType]) := by
    by_cases h : (mapGet data row.roomID).length > 0
    · rw [if_pos h]
    · rw [if_neg h]
      have : mapGet data row.roomID = [] := by
        cases hm : mapGet data row.roomID with
        | nil => rfl
        | cons x xs => rw [hm] at h; simp at h
      rw [this]
      rfl
  have hp : (if row.id > pos then row.id else pos) = max pos row.id := by
    by_cases h : row.id > pos
    · rw [if_pos h]; omega
    · rw [if_neg h]; omega
  simp only [scanAccountData]
  rw [hd, hp]

theorem scanAccountData_ok :
    ∀ (rows : List AccountDataRow) (data : List (String × List String)) (pos : Int),
      (scanAccountData (rows.map Except.ok) data pos).2.2 = none ∧
      (∀ roomID, mapGet (scanAccountData (rows.map Except.ok) data pos).1 roomID =
        mapGet data roomID ++
          (rows.filter (fun r => r.roomID = roomID)).map AccountDataRow.dataType) ∧
      ((∀ p ∈ data, p.2 ≠ []) →
        ∀ p ∈ (scanAccountData (rows.map Except.ok) data pos).1, p.2 ≠ []) ∧
      (rows ≠ [] → (scanAccountData (rows.map Except.ok) data pos).1 ≠ []) ∧
      pos ≤ (scanAccountData (rows.map Except.ok) data pos).2.1 ∧
      (∀ r ∈ rows, r.id ≤ (scanAccountData (rows.map Except.ok) data pos).2.1) ∧
      ((scanAccountData (rows.map Except.ok) data pos).2.1 = pos ∨
        ∃ r ∈ rows, r.id = (scanAccountData (rows.map Except.ok) data pos).2.1) := by
  intro rows
  induction rows with
  | nil =>
    intro data pos
    simp [scanAccountData]
  | cons row rest ih =>
    intro data pos
    rw [List.map_cons, scanAccountData_step]
    obtain ⟨h1, h2, h3, h4, h5, h6, h7⟩ :=
      ih (mapSet data row.roomID (mapGet data row.roomID ++ [row.dataType])) (max pos row.id)
    refine ⟨h1, ?_, ?_, ?_, by omega, ?_, ?_⟩
    · intro roomID
      rw [h2 roomID, mapGet_mapSet]
      by_cases hk : roomID = row.roomID
      · subst hk
        simp [List.filter_cons]
      · have hk2 : ¬ row.roomID = roomID := fun e => hk e.symm
        simp [List.filter_cons, hk, hk2]
    · intro hd
      exact h3 (mapSet_values data _ _ hd (by simp))
    · intro _
      by_cases hr : rest = []
      · subst hr
        simpa [scanAccountData] using mapSet_ne_nil data row.roomID _
      · exact h4 hr
    · intro r hr
      rcases List.mem_cons.1 hr with rfl | hr
      · omega
      · exact h6 r hr
    · rcases h7 with h | ⟨r, hr, h⟩
      · by_cases hm : row.id ≤ pos
        · left; omega
        · right
          exact ⟨row, List.mem_cons_self _ _, by omega⟩
      · right
        exact ⟨r, List.mem_cons_of_mem _ hr, h⟩

theorem scanAccountData_rows :
    ∀ (cursor : List (Except Error AccountDataRow)) (data : List (String × List String))
      (pos : Int), (scanAccountData cursor data pos).2.2 = none →
      ∃ rows : List AccountDataRow, cursor = rows.map Except.ok := by
  intro cursor
  induction cursor with
  | nil => intro data pos _; exact ⟨[], rfl⟩
  | cons c rest ih =>
    intro data pos h
    cases c with
    | error e => simp [scanAccountData] at h
    | ok row =>
      rw [scanAccountData_step] at h
      obtain ⟨rows, hr⟩ := ih _ _ h
      exact ⟨row :: rows, by rw [hr]; rfl⟩

theorem selectAccountData_ok_eq (low high : Int) (rows : List AccountDataRow)
    (rowsErr : Option Error) :
    SelectAccountDataInRange low high none none (rows.map Except.ok) rowsErr =
      ((scanAccountData (rows.map Except.ok) [] low).1,
       if (scanAccountData (rows.map Except.ok) [] low).1.length = 0 then high
        else (scanAccountData (rows.map Except.ok) [] low).2.1,
       rowsErr) := by
  have h := (scanAccountData_ok rows [] low).1
  cases hs : scanAccountData (rows.map Except.ok) [] low with
  | mk d rest =>
    obtain ⟨q, e⟩ := rest
    rw [hs] at h
    simp only at h
    subst h
    simp only [SelectAccountDataInRange, hs]

/-- C17: `SelectAccountDataInRange` succeeds on every sequence of rows when
preparing, querying, scanning and the cursor report no error, and a call
succeeds only then.  For a successful call that scanned `rows`: `pos` is
`r.High()` when `rows` is empty; otherwise `pos` is the greatest of `r.Low()`
and the ids of the rows (it is at least `r.Low()` and every id, and equals
`r.Low()` or one of the ids); for every room id, `data[roomID]` is the list of
the types of the rows of that room in the order returned; and no key of `data`
maps to an empty list. -/
theorem C17_account_data_range (low high : Int) :
    (∀ rows : List AccountDataRow,
      (SelectAccountDataInRange low high none none (rows.map Except.ok) none).2.2 = none) ∧
    (∀ (prepareErr queryErr rowsErr : Option Error)
      (cursor : List (Except Error AccountDataRow)),
      (SelectAccountDataInRange low high prepareErr queryErr cursor rowsErr).2.2 = none →
      ∃ rows : List AccountDataRow, cursor = rows.map Except.ok ∧
        (rows = [] →
          (SelectAccountDataInRange low high prepareErr queryErr cursor rowsErr).2.1 = high) ∧
        (rows ≠ [] →
          low ≤ (SelectAccountDataInRange low high prepareErr queryErr cursor rowsErr).2.1 ∧
          (∀ r ∈ rows, r.id ≤
            (SelectAccountDataInRange low high prepareErr queryErr cursor rowsErr).2.1) ∧
          ((SelectAccountDataInRange low high prepareErr queryErr cursor rowsErr).2.1 = low ∨
            ∃ r ∈ rows, r.id =
              (SelectAccountDataInRange low high prepareErr queryErr cursor rowsErr).2.1)) ∧
        (∀ roomID : String,
          mapGet (SelectAccountDataInRange low high prepareErr queryErr cursor rowsErr).1
            roomID =
            (rows.filter (fun r => r.roomID = roomID)).map AccountDataRow.dataType) ∧
        (∀ p ∈ (SelectAccountDataInRange low high prepareErr queryErr cursor rowsErr).1,
          p.2 ≠ [])) := by
  constructor
  · intro rows
    rw [selectAccountData_ok_eq]
  · intro prepareErr queryErr rowsErr cursor h
    cases prepareErr with
    | some e => simp [SelectAccountDataInRange] at h
    | none =>
      cases queryErr with
      | some e => simp [SelectAccountDataInRange] at h
      | none =>
        have hscan : (scanAccountData cursor [] low).2.2 = none := by
          cases hs : scanAccountData cursor [] low with
          | mk d rest =>
            obtain ⟨q, e⟩ := rest
            cases e with
            | none => rfl
            | some e0 => simp [SelectAccountDataInRange, hs] at h
        obtain ⟨rows, hr⟩ := scanAccountData_rows cursor [] low hscan
        subst hr
        obtain ⟨_, h2, h3, h4, h5, h6, h7⟩ := scanAccountData_ok rows [] low
        rw [selectAccountData_ok_eq]
        refine ⟨rows, rfl, ?_, ?_, ?_, ?_⟩
        · intro hnil
          subst hnil
          simp [scanAccountData]
        · intro hne
          have hlen : ¬ (scanAccountData (rows.map Except.ok) [] low).1.length = 0 := by
            intro hl
            exact h4 hne (List.length_eq_zero.1 hl)
          simp only [hlen, if_false]
          exact ⟨h5, h6, h7⟩
        · intro roomID
          have := h2 roomID
          simpa [mapGet] using this
        · exact h3 (by simp)

/-- C17 witness: three rows in two rooms, and the empty result. -/
theorem C17_account_data_range_witness :
    (SelectAccountDataInRange 3 20 none none (threeRows.map Except.ok) none).2.2 = none ∧
    (∀ p ∈ (SelectAccountDataInRange 3 20 none none (threeRows.map Except.ok) none).1,
      p.2 ≠ []) ∧
    SelectAccountDataInRange 3 20 none none (threeRows.map Except.ok) none
      = ([("!r1", ["m.tag", "m.fully_read"]), ("", ["m.push_rules"])], 9, none) ∧
    SelectAccountDataInRange 3 20 none none [] none = ([], 20, none) :=
  ⟨(C17_account_data_range 3 20).1 threeRows,
   match (C17_account_data_range 3 20).2 none none none (threeRows.map Except.ok)
      (by decide) with
    | ⟨_, _, _, _, _, h⟩ => h,
   by decide, by decide⟩

end Dendrite
